import Mathlib

/-!
Verification development for the Strawberry collection model
(src/collection/collectionmodel.{h,cpp}): a shallow embedding of the
in-memory hierarchical song index (tree of grouping containers, song
leaves and dividers), its incremental Add/Update/Remove operations, the
update scheduler, and the query functions (flatten, sort comparison,
editable attribute, divider keys), together with theorems settling the
specification claims about them.

Conventions of the embedding:
* Tree nodes live in an arena `Nat → Option CItem`; node ids are
  allocation order, node 0 is the root, and a node's `row` is its index
  in its parent's `children` list (SimpleTreeItem appends a new node to
  its parent's children on construction).
* `QString` is modelled by `String` (comparison by code points), `QMap`
  iteration order (key-sorted) is modelled by key-sorted association
  lists where iteration matters, and `QSet` (unordered) by
  insertion-ordered duplicate-free lists; results that depend on `QSet`
  iteration order are only used at multiset/set level by the claims.
* Machine integers are modelled by `Int` (no overflow is exercised by
  the claims); C++ `/` on `Int` is `Int.tdiv` (truncation toward zero).
* Qt model signals (`beginInsertRows`/`endInsertRows`/
  `beginRemoveRows`/`endRemoveRows`/`dataChanged`) are modelled as an
  explicit event list produced by each mutating operation.
-/

namespace Strawberry

/-- Song record.  Modelled from the spec §3 (core/song.h is not part of the
reviewed source): a value keyed by a unique integer identifier carrying the
fields the collection model reads.  `filetypeText` models
`Song::TextForFiletype`, `editable` models `Song::IsEditable`, `rating` and
`playcount` model the rating/play-statistics fields (which are not part of
the redisplay comparison). -/
structure Song where
  id : Int := -1
  title : String := ""
  artist : String := ""
  album : String := ""
  albumartist : String := ""
  album_id : String := ""
  genre : String := ""
  composer : String := ""
  performer : String := ""
  grouping : String := ""
  filetypeText : String := ""
  track : Int := -1
  disc : Int := -1
  year : Int := -1
  originalyear : Int := -1
  samplerate : Int := -1
  bitdepth : Int := -1
  bitrate : Int := -1
  compilation : Bool := false
  url : String := ""
  rating : Int := -1
  playcount : Int := 0
  editable : Bool := true
deriving DecidableEq, Repr

/-- Modelled from the spec: `Song::effective_albumartist` falls back to the
artist tag when the album-artist tag is empty. -/
def Song.effective_albumartist (s : Song) : String :=
  if s.albumartist = "" then s.artist else s.albumartist

/-- Modelled from the spec: `Song::effective_originalyear` falls back to the
year when the original year is not set. -/
def Song.effective_originalyear (s : Song) : Int :=
  if s.originalyear ≤ 0 then s.year else s.originalyear

/-- Prefix test on character lists (kernel-evaluable replacement for
`String.startsWith`). -/
def listHasPrefix : List Char → List Char → Bool
  | _, [] => true
  | [], _ :: _ => false
  | a :: as, b :: bs => a = b && listHasPrefix as bs

/-- Substring occurrence on character lists. -/
def listContainsSub (l pat : List Char) : Bool :=
  match l with
  | [] => listHasPrefix [] pat
  | _ :: rest => listHasPrefix l pat || listContainsSub rest pat

/-- Substring test used by the `AlbumContainsDisc` model. -/
def containsSubstr (s pat : String) : Bool := listContainsSub s.toList pat.toList

/-- Modelled from the spec: `Song::AlbumContainsDisc` detects an album title
that already carries a disc marker; approximated by a substring test (its
exact pattern never matters to the claims, only that it is a function of the
album string). -/
def albumContainsDisc (album : String) : Bool :=
  let lower := String.mk (album.toList.map Char.toLower)
  containsSubstr lower "disc" || containsSubstr lower "cd"

/-- Modelled from the spec: `Song::TitleWithCompilationArtist` (display text
of a song leaf; its exact form never matters to the claims). -/
def Song.titleWithCompilationArtist (s : Song) : String :=
  if s.compilation ∧ s.artist ≠ "" then s.artist ++ " - " ++ s.title else s.title

/-- CollectionModel::GroupBy (collectionmodel.h lines 85-108). -/
inductive GroupBy where
  | none
  | albumArtist
  | artist
  | album
  | albumDisc
  | yearAlbum
  | yearAlbumDisc
  | originalYearAlbum
  | originalYearAlbumDisc
  | disc
  | year
  | originalYear
  | genre
  | composer
  | performer
  | grouping
  | fileType
  | format
  | samplerate
  | bitdepth
  | bitrate
  | groupByCount
deriving DecidableEq, Repr

/-- CollectionModel::IsArtistGroupBy. -/
def IsArtistGroupBy (g : GroupBy) : Bool :=
  g == GroupBy.artist || g == GroupBy.albumArtist

/-- CollectionModel::IsAlbumGroupBy. -/
def IsAlbumGroupBy (g : GroupBy) : Bool :=
  g == GroupBy.album || g == GroupBy.yearAlbum || g == GroupBy.albumDisc ||
  g == GroupBy.yearAlbumDisc || g == GroupBy.originalYearAlbum ||
  g == GroupBy.originalYearAlbumDisc

/-- Decimal value of a digit list (most significant first). -/
def digitsToNat (ds : List Char) : Nat :=
  ds.foldl (fun a c => a * 10 + (c.toNat - 48)) 0

/-- `QString::toInt` (base 10): surrounding whitespace is ignored, an optional
sign must be followed by digits only, and any other content makes the whole
conversion fail and yield 0.  Overflow is not modelled (the embedding uses
unbounded `Int`; no claim exercises overflow). -/
def qStringToInt (s : String) : Int :=
  let t := ((s.toList.dropWhile Char.isWhitespace).reverse.dropWhile Char.isWhitespace).reverse
  match t with
  | [] => 0
  | c :: rest =>
    if c = '-' then
      if rest ≠ [] ∧ rest.all Char.isDigit then -(digitsToNat rest : Int) else 0
    else if c = '+' then
      if rest ≠ [] ∧ rest.all Char.isDigit then (digitsToNat rest : Int) else 0
    else if (c :: rest).all Char.isDigit then (digitsToNat (c :: rest) : Int) else 0

/-- The decimal digit character for a value below ten. -/
def digitChar (n : Nat) : Char :=
  Char.ofNat (48 + n)

/-- Decimal digits of a natural number, most significant first (fuelled;
`n + 1` steps always suffice since the argument shrinks by a factor of
ten). -/
def natDigitsAux : Nat → Nat → List Char
  | 0, _ => []
  | fuel + 1, n => if n < 10 then [digitChar n] else natDigitsAux fuel (n / 10) ++ [digitChar (n % 10)]

/-- Decimal digits of a natural number, most significant first. -/
def decRepr (n : Nat) : List Char :=
  natDigitsAux (n + 1) n

/-- `QString::number` of an integer: the plain decimal rendering (modelled
directly instead of through `toString` so that the embedding is
self-contained and kernel-evaluable). -/
def intDecString (n : Int) : String :=
  if n < 0 then "-" ++ String.mk (decRepr (-n).toNat) else String.mk (decRepr n.toNat)

/-- CollectionModel::TextOrUnknown (lines 1309-1314). -/
def TextOrUnknown (text : String) : String :=
  if text = "" then "Unknown" else text

/-- CollectionModel::PrettyYearAlbum (lines 1316-1321). -/
def PrettyYearAlbum (year : Int) (album : String) : String :=
  if year ≤ 0 then TextOrUnknown album
  else intDecString year ++ " - " ++ TextOrUnknown album

/-- CollectionModel::PrettyAlbumDisc (lines 1323-1328). -/
def PrettyAlbumDisc (album : String) (disc : Int) : String :=
  if disc ≤ 0 || albumContainsDisc album then TextOrUnknown album
  else TextOrUnknown album ++ " - (Disc " ++ intDecString disc ++ ")"

/-- CollectionModel::PrettyYearAlbumDisc (lines 1330-1341). -/
def PrettyYearAlbumDisc (year : Int) (album : String) (disc : Int) : String :=
  (if year ≤ 0 then TextOrUnknown album
   else intDecString year ++ " - " ++ TextOrUnknown album) ++
  (if !albumContainsDisc album ∧ disc > 0 then " - (Disc " ++ intDecString disc ++ ")" else "")

/-- CollectionModel::PrettyDisc (lines 1343-1347). -/
def PrettyDisc (disc : Int) : String :=
  "Disc " ++ intDecString (max 1 disc)

/-- CollectionModel::SortText (lines 1349-1361): empty text becomes
" unknown", otherwise the text is lowercased; characters outside the regex
class `[\w ]` are then removed.  `Char.toLower` and the word-character test
are the ASCII approximations of Qt's Unicode versions. -/
def SortText (text : String) : String :=
  let t := if text = "" then " unknown" else String.mk (text.toList.map Char.toLower)
  String.mk (t.toList.filter (fun c => c.isAlphanum || c = '_' || c = ' '))

/-- Modelled from the spec §4.1: `Song::kArticles`, the configured list of
leading articles skipped when sorting (each with its trailing space). -/
def kArticles : List String := ["the ", "a ", "an "]

/-- CollectionModel::SortTextForArtist (lines 1363-1379): after `SortText`,
the first matching leading article is moved to the end as ", article". -/
def SortTextForArtist (artist : String) (skip_articles : Bool) : String :=
  let a := SortText artist
  if skip_articles then
    match kArticles.find? (fun i => listHasPrefix a.toList i.toList) with
    | some i => String.mk (a.toList.drop i.length) ++ ", " ++ String.mk (i.toList.take (i.length - 1))
    | Option.none => a
  else a

/-- CollectionModel::SortTextForNumber (lines 1381-1384):
`QString("%1").arg(number, 4, 10, QChar('0'))` — the decimal rendering
left-padded with the character '0' to at least four characters (Qt pads to
the left of the sign, so -1 renders as "00-1"). -/
def SortTextForNumber (number : Int) : String :=
  let str := intDecString number
  String.mk (List.replicate (4 - str.length) '0') ++ str

/-- CollectionModel::SortTextForSong (lines 1400-1407): disc*1000+track
(clamped at 0), zero-padded to at least six characters, with the location
URL appended as a tiebreaker. -/
def SortTextForSong (song : Song) : String :=
  let ret := intDecString (max 0 song.disc * 1000 + max 0 song.track)
  (String.mk (List.replicate (6 - ret.length) '0') ++ ret) ++ song.url

/-- `QString::number(samplerate / 1000.0, 'G', 5)` in the Format container
key: the sample rate in kHz.  The floating-point formatting is modelled as
exact decimal arithmetic (for sample rates below 100 MHz at most five
significant digits arise, so no float rounding occurs); trailing zeros of
the fractional part are trimmed. -/
def formatKHz (sr : Int) : String :=
  let n := sr.toNat
  let whole := n / 1000
  let frac := n % 1000
  if frac = 0 then String.mk (decRepr whole)
  else
    let fracStr := String.mk (List.replicate (3 - (decRepr frac).length) '0' ++ decRepr frac)
    let trimmed := String.mk ((fracStr.toList.reverse.dropWhile (fun c => c = '0')).reverse)
    String.mk (decRepr whole) ++ "." ++ trimmed

/-- The album-id / grouping suffix appended to album-like container keys
(collectionmodel.cpp lines 495-521). -/
def albumKeySuffix (separate_albums_by_grouping : Bool) (song : Song) : String :=
  (if song.album_id ≠ "" then "-" ++ song.album_id else "") ++
  (if separate_albums_by_grouping ∧ song.grouping ≠ "" then "-" ++ song.grouping else "")

/-- CollectionModel::ContainerKey (lines 482-577). -/
def ContainerKey (group_by : GroupBy) (separate_albums_by_grouping : Bool) (song : Song) : String :=
  match group_by with
  | GroupBy.albumArtist => TextOrUnknown song.effective_albumartist
  | GroupBy.artist => TextOrUnknown song.artist
  | GroupBy.album =>
    TextOrUnknown song.album ++ albumKeySuffix separate_albums_by_grouping song
  | GroupBy.albumDisc =>
    PrettyAlbumDisc song.album song.disc ++ albumKeySuffix separate_albums_by_grouping song
  | GroupBy.yearAlbum =>
    PrettyYearAlbum song.year song.album ++ albumKeySuffix separate_albums_by_grouping song
  | GroupBy.yearAlbumDisc =>
    PrettyYearAlbumDisc song.year song.album song.disc ++ albumKeySuffix separate_albums_by_grouping song
  | GroupBy.originalYearAlbum =>
    PrettyYearAlbum song.effective_originalyear song.album ++ albumKeySuffix separate_albums_by_grouping song
  | GroupBy.originalYearAlbumDisc =>
    PrettyYearAlbumDisc song.effective_originalyear song.album song.disc ++ albumKeySuffix separate_albums_by_grouping song
  | GroupBy.disc => PrettyDisc song.disc
  | GroupBy.year => intDecString (max 0 song.year)
  | GroupBy.originalYear => intDecString (max 0 song.effective_originalyear)
  | GroupBy.genre => TextOrUnknown song.genre
  | GroupBy.composer => TextOrUnknown song.composer
  | GroupBy.performer => TextOrUnknown song.performer
  | GroupBy.grouping => TextOrUnknown song.grouping
  | GroupBy.fileType => song.filetypeText
  | GroupBy.samplerate => intDecString (max 0 song.samplerate)
  | GroupBy.bitdepth => intDecString (max 0 song.bitdepth)
  | GroupBy.bitrate => intDecString (max 0 song.bitrate)
  | GroupBy.format =>
    if song.samplerate ≤ 0 then song.filetypeText
    else if song.bitdepth ≤ 0 then
      song.filetypeText ++ " (" ++ formatKHz song.samplerate ++ ")"
    else
      song.filetypeText ++ " (" ++ formatKHz song.samplerate ++ "/" ++ intDecString song.bitdepth ++ ")"
  | GroupBy.none => ""
  | GroupBy.groupByCount => ""

/-- Modelled from Unicode data: the canonical decompositions QChar reports
for the Latin-1 accented letters, mapping each to its base letter (only the
first element of a decomposition is ever consumed by DividerKey, so the
combining marks are not carried). -/
def latin1DecompTable : List (Char × Char) :=
  [('À', 'A'), ('Á', 'A'), ('Â', 'A'), ('Ã', 'A'), ('Ä', 'A'), ('Å', 'A'),
   ('Ç', 'C'), ('È', 'E'), ('É', 'E'), ('Ê', 'E'), ('Ë', 'E'),
   ('Ì', 'I'), ('Í', 'I'), ('Î', 'I'), ('Ï', 'I'), ('Ñ', 'N'),
   ('Ò', 'O'), ('Ó', 'O'), ('Ô', 'O'), ('Õ', 'O'), ('Ö', 'O'),
   ('Ù', 'U'), ('Ú', 'U'), ('Û', 'U'), ('Ü', 'U'), ('Ý', 'Y'),
   ('à', 'a'), ('á', 'a'), ('â', 'a'), ('ã', 'a'), ('ä', 'a'), ('å', 'a'),
   ('ç', 'c'), ('è', 'e'), ('é', 'e'), ('ê', 'e'), ('ë', 'e'),
   ('ì', 'i'), ('í', 'i'), ('î', 'i'), ('ï', 'i'), ('ñ', 'n'),
   ('ò', 'o'), ('ó', 'o'), ('ô', 'o'), ('õ', 'o'), ('ö', 'o'),
   ('ù', 'u'), ('ú', 'u'), ('û', 'u'), ('ü', 'u'), ('ý', 'y'), ('ÿ', 'y')]

/-- `QChar::decomposition` restricted to the modelled table: the base letter
followed by a combining mark for decomposable characters, empty otherwise
(`QChar::NoDecomposition`). -/
def qcharDecomposition (c : Char) : List Char :=
  match latin1DecompTable.lookup c with
  | some b => [b, '̀']
  | Option.none => []

/-- CollectionItem node kinds (collectionitem.h is not part of the reviewed
source; kinds are modelled from the spec §3 and their uses in
collectionmodel.cpp). -/
inductive ItemType where
  | root
  | container
  | song
  | divider
  | loadingIndicator
deriving DecidableEq, Repr

/-- CollectionItem.  Modelled from the spec §3 and every field access in
collectionmodel.cpp: children are ordered node ids (a node's `row` is its
index in its parent's children list, and a newly constructed node is
appended to its parent's children); `compilation_artist_node` is the cached
"Various artists" child; a fresh node has `container_level` -1. -/
structure CItem where
  type : ItemType
  parent : Nat := 0
  children : List Nat := []
  key : String := ""
  display_text : String := ""
  sort_text : String := ""
  metadata : Song := {}
  container_level : Int := -1
  compilation_artist_node : Option Nat := Option.none
deriving DecidableEq, Repr

/-- CollectionModel::DividerKey (lines 579-635): called only on top-level
items; keyed off the item's (current) sort text and the grouping criterion. -/
def DividerKey (group_by : GroupBy) (item : CItem) : String :=
  if item.sort_text = "" then ""
  else
    match group_by with
    | GroupBy.albumArtist | GroupBy.artist | GroupBy.album | GroupBy.albumDisc
    | GroupBy.composer | GroupBy.performer | GroupBy.grouping | GroupBy.disc
    | GroupBy.genre | GroupBy.format | GroupBy.fileType =>
      match item.sort_text.toList with
      | [] => ""
      | c :: _ =>
        if c.isDigit then "0"
        else if c = ' ' then ""
        else
          match qcharDecomposition c with
          | d :: _ => String.mk [d]
          | [] => String.mk [c]
    | GroupBy.year | GroupBy.originalYear =>
      SortTextForNumber (Int.tdiv (qStringToInt item.sort_text) 10 * 10)
    | GroupBy.yearAlbum | GroupBy.yearAlbumDisc =>
      SortTextForNumber item.metadata.year
    | GroupBy.originalYearAlbum | GroupBy.originalYearAlbumDisc =>
      SortTextForNumber item.metadata.effective_originalyear
    | GroupBy.samplerate => SortTextForNumber item.metadata.samplerate
    | GroupBy.bitdepth => SortTextForNumber item.metadata.bitdepth
    | GroupBy.bitrate => SortTextForNumber item.metadata.bitrate
    | GroupBy.none => ""
    | GroupBy.groupByCount => ""

/-- CollectionModel::DividerDisplayText (lines 637-687). -/
def DividerDisplayText (group_by : GroupBy) (key : String) : String :=
  match group_by with
  | GroupBy.albumArtist | GroupBy.artist | GroupBy.album | GroupBy.albumDisc
  | GroupBy.composer | GroupBy.performer | GroupBy.disc | GroupBy.grouping
  | GroupBy.genre | GroupBy.fileType | GroupBy.format =>
    if key = "0" then "0-9" else String.mk (key.toList.map Char.toUpper)
  | GroupBy.yearAlbum | GroupBy.yearAlbumDisc
  | GroupBy.originalYearAlbum | GroupBy.originalYearAlbumDisc =>
    if key = "0000" then "Unknown" else String.mk (key.toList.map Char.toUpper)
  | GroupBy.year | GroupBy.originalYear =>
    if key = "0000" then "Unknown" else intDecString (qStringToInt key)
  | GroupBy.samplerate | GroupBy.bitdepth | GroupBy.bitrate =>
    if key = "000" then "Unknown" else intDecString (qStringToInt key)
  | GroupBy.none => ""
  | GroupBy.groupByCount => ""

/-- CollectionModel::IsCollectionMetadataEqual (lines 1613-1631): the
subset-field comparison deciding whether an update is visually relevant.
Note that rating, play statistics, url and file type are not compared. -/
def IsCollectionMetadataEqual (song1 song2 : Song) : Bool :=
  song1.title == song2.title &&
  song1.album == song2.album &&
  song1.artist == song2.artist &&
  song1.albumartist == song2.albumartist &&
  song1.track == song2.track &&
  song1.disc == song2.disc &&
  song1.year == song2.year &&
  song1.originalyear == song2.originalyear &&
  song1.genre == song2.genre &&
  song1.compilation == song2.compilation &&
  song1.composer == song2.composer &&
  song1.performer == song2.performer &&
  song1.grouping == song2.grouping &&
  song1.bitrate == song2.bitrate &&
  song1.samplerate == song2.samplerate &&
  song1.bitdepth == song2.bitdepth

/-- The mutable model state of CollectionModel: the node arena (ids are
allocation order, node 0 is the root created by BeginReset), the stored
song records `songs_`, the song-id → leaf table `song_nodes_`, the three
per-level container tables `container_nodes_` (kept as key-sorted
association lists, since `QMap` enumerates in key order), and the divider
table `divider_nodes_`. -/
@[ext]
structure MState where
  nodes : Nat → Option CItem
  next : Nat
  songs : Int → Option Song
  song_nodes : Int → Option Nat
  cns : Fin 3 → List (String × Nat)
  divider_nodes : String → Option Nat

/-- The root CollectionItem (`new CollectionItem(this)`): Type_Root,
container_level -1, no key. -/
def rootItem : CItem := { type := ItemType.root }

/-- The state right after BeginReset: a fresh root and empty tables. -/
def initMState : MState where
  nodes := fun n => if n = 0 then some rootItem else Option.none
  next := 1
  songs := fun _ => Option.none
  song_nodes := fun _ => Option.none
  cns := fun _ => []
  divider_nodes := fun _ => Option.none

/-- The active configuration read by the operations: the grouping triple,
the separate-albums flag, the article-skipping flag, the divider-display
flag and the active filter. -/
structure Config where
  group_by : Fin 3 → GroupBy
  separate_albums_by_grouping : Bool := false
  sort_skips_articles : Bool := true
  show_dividers : Bool := true
  filter : Song → Bool := fun _ => true

/-- Qt tree-model notifications, recorded as explicit events.  Row
notifications carry the parent node id and the affected row range. -/
inductive Ev where
  | beginInsertRows (parent first last : Nat)
  | endInsertRows
  | beginRemoveRows (parent first last : Nat)
  | endRemoveRows
  | dataChanged (nid : Nat)
deriving DecidableEq, Repr

/-- An event is structural iff it is a row insertion/removal notification
(as opposed to a dataChanged notification). -/
def Ev.isStructural : Ev → Bool
  | Ev.dataChanged _ => false
  | _ => true

/-- Dereference a node id; missing ids yield an inert placeholder (only
garbage states ever dereference a missing id, where the C++ code would
follow a dangling pointer). -/
def getItem (s : MState) (nid : Nat) : CItem :=
  (s.nodes nid).getD { type := ItemType.loadingIndicator }

/-- Apply a field update to one node of the arena. -/
def updNode (s : MState) (nid : Nat) (g : CItem → CItem) : MState :=
  { s with nodes := fun n => if n = nid then (s.nodes nid).map g else s.nodes n }

/-- Allocate a fresh node as the last child of `p` (SimpleTreeItem's
constructor appends the node to its parent's children), additionally
applying `g` to the parent (used to set the cached compilation link in the
same mutation step).  Returns the new node's id. -/
def addChildT (s : MState) (p : Nat) (item : CItem) (g : Nat → CItem → CItem) : MState × Nat :=
  let f := s.next
  ({ s with
      nodes := fun n =>
        if n = f then some item
        else if n = p then (s.nodes p).map (fun it => g f { it with children := it.children ++ [f] })
        else s.nodes n
      next := f + 1 }, f)

/-- A node's row: its index in its parent's children list. -/
def rowOf (s : MState) (nid : Nat) : Nat :=
  ((getItem s (getItem s nid).parent).children).indexOf nid

/-- Remove a node from its parent's children and from the arena
(`node->parent->Delete(node->row)`; every node the code deletes is
childless at that point). -/
def deleteNode (s : MState) (nid : Nat) : MState :=
  let p := (getItem s nid).parent
  let s1 := updNode s p (fun it => { it with children := it.children.erase nid })
  { s1 with nodes := fun n => if n = nid then Option.none else s1.nodes n }

/-- Key-sorted association-list insert (QMap::insert). -/
def alInsert (l : List (String × Nat)) (k : String) (v : Nat) : List (String × Nat) :=
  match l with
  | [] => [(k, v)]
  | (k0, v0) :: rest =>
    if k = k0 then (k, v) :: rest
    else if k < k0 then (k, v) :: (k0, v0) :: rest
    else (k0, v0) :: alInsert rest k v

/-- Association-list lookup (QMap::contains / operator[]). -/
def alLookup (l : List (String × Nat)) (k : String) : Option Nat :=
  l.lookup k

/-- Association-list removal (QMap::remove). -/
def alErase (l : List (String × Nat)) (k : String) : List (String × Nat) :=
  l.filter (fun kv => kv.1 ≠ k)

/-- QSet insertion modelled as duplicate-free insertion-order append. -/
def insertDedupNat (l : List Nat) (x : Nat) : List Nat :=
  if x ∈ l then l else l ++ [x]

/-- QSet insertion modelled as duplicate-free insertion-order append. -/
def insertDedupStr (l : List String) (x : String) : List String :=
  if x ∈ l then l else l ++ [x]

/-- The unconditional stored-record upsert `songs_[song.id()] = song` of
AddSongs (both branches of its contains-check store the same value). -/
def writeSong (s : MState) (t : Song) : MState :=
  { s with songs := fun i => if i = t.id then some t else s.songs i }

/-- The stored-record table after a sequence of upserts (the songs
component of a `writeSong` fold). -/
def applyWrites (f : Int → Option Song) (L : List Song) : Int → Option Song :=
  L.foldl (fun g t => fun i => if i = t.id then some t else g i) f

/-- The conditional stored-record update of UpdateSongs and RemoveSongs:
the record is replaced only when an entry for the id is already
present. -/
def writeSongIfPresent (s : MState) (t : Song) : MState :=
  if (s.songs t.id).isSome then writeSong s t else s

/-- CollectionModel::CreateCompilationArtistNode (lines 462-480): create the
"Various artists" container under `parent`, cache it via the parent's
compilation link (not in the level tables).  Its key is the parent's key
(no dash) followed by "Various artists"; its sort text is " various". -/
def CreateCompilationArtistNode (signal : Bool) (parent : Nat) (s : MState) (evs : List Ev) :
    MState × List Ev × Nat :=
  let pit := getItem s parent
  let evs := if signal then evs ++ [Ev.beginInsertRows parent pit.children.length pit.children.length] else evs
  let item : CItem :=
    { type := ItemType.container
      parent := parent
      key := (if parent ≠ 0 ∧ pit.key ≠ "" then pit.key else "") ++ "Various artists"
      display_text := "Various artists"
      sort_text := " various"
      container_level := pit.container_level + 1 }
  let r := addChildT s parent item (fun f it => { it with compilation_artist_node := some f })
  let evs := if signal then evs ++ [Ev.endInsertRows] else evs
  (r.1, evs, r.2)

/-- The node record built by CollectionModel::ItemFromSong (lines
1076-1274) before FinishItem runs: type from the grouping criterion
(InitItem), key prefixed by the parent's path key, and the per-criterion
metadata subset, display text and sort text. -/
def itemRecordFromSong (cfg : Config) (group_by : GroupBy) (separate : Bool)
    (parent : Nat) (pit : CItem) (s : Song) (container_level : Int) : CItem :=
  let keyPrefix := if parent ≠ 0 ∧ pit.key ≠ "" then pit.key ++ "-" else ""
  let base : CItem :=
    { type := if group_by = GroupBy.none then ItemType.song else ItemType.container
      parent := parent
      container_level := container_level
      key := keyPrefix ++ ContainerKey group_by separate s }
  match group_by with
  | GroupBy.albumArtist =>
    { base with
        metadata := { albumartist := s.effective_albumartist }
        display_text := TextOrUnknown s.effective_albumartist
        sort_text := SortTextForArtist s.effective_albumartist cfg.sort_skips_articles }
  | GroupBy.artist =>
    { base with
        metadata := { artist := s.artist }
        display_text := TextOrUnknown s.artist
        sort_text := SortTextForArtist s.artist cfg.sort_skips_articles }
  | GroupBy.album =>
    { base with
        metadata := { album := s.album, album_id := s.album_id, grouping := s.grouping }
        display_text := TextOrUnknown s.album
        sort_text := SortTextForArtist s.album cfg.sort_skips_articles }
  | GroupBy.albumDisc =>
    { base with
        metadata := { album := s.album, album_id := s.album_id,
                      disc := if s.disc ≤ 0 then -1 else s.disc, grouping := s.grouping }
        display_text := PrettyAlbumDisc s.album s.disc
        sort_text := s.album ++ SortTextForNumber (max 0 s.disc) }
  | GroupBy.yearAlbum =>
    { base with
        metadata := { year := if s.year ≤ 0 then -1 else s.year, album := s.album,
                      album_id := s.album_id, grouping := s.grouping }
        display_text := PrettyYearAlbum s.year s.album
        sort_text := SortTextForNumber (max 0 s.year) ++ s.grouping ++ s.album }
  | GroupBy.yearAlbumDisc =>
    { base with
        metadata := { year := if s.year ≤ 0 then -1 else s.year, album := s.album,
                      album_id := s.album_id, disc := if s.disc ≤ 0 then -1 else s.disc,
                      grouping := s.grouping }
        display_text := PrettyYearAlbumDisc s.year s.album s.disc
        sort_text := SortTextForNumber (max 0 s.year) ++ s.album ++ SortTextForNumber (max 0 s.disc) }
  | GroupBy.originalYearAlbum =>
    { base with
        metadata := { year := if s.year ≤ 0 then -1 else s.year,
                      originalyear := if s.originalyear ≤ 0 then -1 else s.originalyear,
                      album := s.album, album_id := s.album_id, grouping := s.grouping }
        display_text := PrettyYearAlbum s.effective_originalyear s.album
        sort_text := SortTextForNumber (max 0 s.effective_originalyear) ++ s.grouping ++ s.album }
  | GroupBy.originalYearAlbumDisc =>
    { base with
        metadata := { year := if s.year ≤ 0 then -1 else s.year,
                      originalyear := if s.originalyear ≤ 0 then -1 else s.originalyear,
                      album := s.album, album_id := s.album_id,
                      disc := if s.disc ≤ 0 then -1 else s.disc, grouping := s.grouping }
        display_text := PrettyYearAlbumDisc s.effective_originalyear s.album s.disc
        sort_text := SortTextForNumber (max 0 s.effective_originalyear) ++ s.album ++ SortTextForNumber (max 0 s.disc) }
  | GroupBy.disc =>
    { base with
        metadata := { disc := if s.disc ≤ 0 then -1 else s.disc }
        display_text := PrettyDisc (max 0 s.disc)
        sort_text := SortTextForNumber (max 0 s.disc) }
  | GroupBy.year =>
    { base with
        metadata := { year := if s.year ≤ 0 then -1 else s.year }
        display_text := intDecString (max 0 s.year)
        sort_text := SortTextForNumber (max 0 s.year) ++ " " }
  | GroupBy.originalYear =>
    { base with
        metadata := { originalyear := if s.effective_originalyear ≤ 0 then -1 else s.effective_originalyear }
        display_text := intDecString (max 0 s.effective_originalyear)
        sort_text := SortTextForNumber (max 0 s.effective_originalyear) ++ " " }
  | GroupBy.genre =>
    { base with
        metadata := { genre := s.genre }
        display_text := TextOrUnknown s.genre
        sort_text := SortTextForArtist s.genre cfg.sort_skips_articles }
  | GroupBy.composer =>
    { base with
        metadata := { composer := s.composer }
        display_text := TextOrUnknown s.composer
        sort_text := SortTextForArtist s.composer cfg.sort_skips_articles }
  | GroupBy.performer =>
    { base with
        metadata := { performer := s.performer }
        display_text := TextOrUnknown s.performer
        sort_text := SortTextForArtist s.performer cfg.sort_skips_articles }
  | GroupBy.grouping =>
    { base with
        metadata := { grouping := s.grouping }
        display_text := TextOrUnknown s.grouping
        sort_text := SortTextForArtist s.grouping cfg.sort_skips_articles }
  | GroupBy.fileType =>
    { base with
        metadata := { filetypeText := s.filetypeText }
        display_text := s.filetypeText
        sort_text := s.filetypeText }
  | GroupBy.format =>
    { base with
        metadata := { filetypeText := s.filetypeText, samplerate := s.samplerate,
                      bitdepth := s.bitdepth }
        display_text := ContainerKey GroupBy.format separate s
        sort_text := ContainerKey GroupBy.format separate s }
  | GroupBy.samplerate =>
    { base with
        metadata := { samplerate := s.samplerate }
        display_text := intDecString (max 0 s.samplerate)
        sort_text := SortTextForNumber (max 0 s.samplerate) ++ " " }
  | GroupBy.bitdepth =>
    { base with
        metadata := { bitdepth := s.bitdepth }
        display_text := intDecString (max 0 s.bitdepth)
        sort_text := SortTextForNumber (max 0 s.bitdepth) ++ " " }
  | GroupBy.bitrate =>
    { base with
        metadata := { bitrate := s.bitrate }
        display_text := intDecString (max 0 s.bitrate)
        sort_text := SortTextForNumber (max 0 s.bitrate) ++ " " }
  | GroupBy.none | GroupBy.groupByCount =>
    { base with
        metadata := s
        key := keyPrefix ++ TextOrUnknown s.title
        display_text := s.titleWithCompilationArtist
        sort_text :=
          if container_level = 1 ∧ ¬ IsAlbumGroupBy (cfg.group_by 0) then SortText s.title
          else SortTextForSong s }

/-- CollectionModel::FinishItem (lines 1276-1307): close the insertion
signal; when a divider is requested and enabled, compute the divider key
from the freshly built item's sort text, prepend it (plus a space) to that
sort text, and create the divider node (a child of the root) the first
time the key is seen. -/
def FinishItem (cfg : Config) (group_by : GroupBy) (signal create_divider : Bool)
    (parent : Nat) (f : Nat) (s : MState) (evs : List Ev) : MState × List Ev :=
  let evs := if signal then evs ++ [Ev.endInsertRows] else evs
  if create_divider ∧ cfg.show_dividers then
    let divider_key := DividerKey group_by (getItem s f)
    let s :=
      if divider_key ≠ "" then
        updNode s f (fun it => { it with sort_text := divider_key ++ " " ++ it.sort_text })
      else s
    if divider_key ≠ "" ∧ (s.divider_nodes divider_key).isNone then
      let pit := getItem s parent
      let evs := if signal then evs ++ [Ev.beginInsertRows parent pit.children.length pit.children.length] else evs
      let ditem : CItem :=
        { type := ItemType.divider
          parent := 0
          key := divider_key
          display_text := DividerDisplayText group_by divider_key
          sort_text := divider_key ++ "  " }
      let r := addChildT s 0 ditem (fun _ it => it)
      let s := { r.1 with divider_nodes := fun k => if k = divider_key then some r.2 else r.1.divider_nodes k }
      let evs := if signal then evs ++ [Ev.endInsertRows] else evs
      (s, evs)
    else (s, evs)
  else (s, evs)

/-- CollectionModel::ItemFromSong = InitItem + field assignment + FinishItem:
allocate the node under `parent` (bracketed by insertion signals) and run
the divider logic.  Returns the new node's id. -/
def ItemFromSong (cfg : Config) (group_by : GroupBy) (separate : Bool)
    (signal create_divider : Bool) (parent : Nat) (song : Song)
    (container_level : Int) (s : MState) (evs : List Ev) : (MState × List Ev) × Nat :=
  let pit := getItem s parent
  let evs := if signal then evs ++ [Ev.beginInsertRows parent pit.children.length pit.children.length] else evs
  let item := itemRecordFromSong cfg group_by separate parent pit song container_level
  let r := addChildT s parent item (fun _ it => it)
  (FinishItem cfg group_by signal create_divider parent r.2 r.1 evs, r.2)

/-- The level walk of CollectionModel::AddSongs (lines 366-399): descend
three grouping levels from the root, stopping at GroupBy::None, routing
compilations through the cached "Various artists" node at artist-like
levels, and looking up / creating the container for the path-qualified key
at each level.  Returns the final container. -/
def addLevels (cfg : Config) (song : Song) :
    List (Fin 3) → String → Nat → MState → List Ev → (MState × List Ev) × Nat
  | [], _, container, s, evs => ((s, evs), container)
  | i :: rest, key, container, s, evs =>
    let gb := cfg.group_by i
    if gb = GroupBy.none then ((s, evs), container)
    else
      let key := if key ≠ "" then key ++ "-" else key
      if IsArtistGroupBy gb && song.compilation then
        match (getItem s container).compilation_artist_node with
        | some va => addLevels cfg song rest (getItem s va).key va s evs
        | Option.none =>
          let r := CreateCompilationArtistNode true container s evs
          addLevels cfg song rest (getItem r.1 r.2.2).key r.2.2 r.1 r.2.1
      else
        let ckey := key ++ ContainerKey gb cfg.separate_albums_by_grouping song
        match alLookup (s.cns i) ckey with
        | some c => addLevels cfg song rest ckey c s evs
        | Option.none =>
          let r := ItemFromSong cfg gb cfg.separate_albums_by_grouping true
            (decide (i = (0 : Fin 3))) container song (i.val : Int) s evs
          let c := r.2
          let s1 := r.1.1
          let s2 := { s1 with cns := fun j => if j = i then alInsert (s1.cns i) ckey c else s1.cns j }
          addLevels cfg song rest ckey c s2 r.1.2

/-- The final step of one AddSongs iteration: record the created leaf in
the song-node table. -/
def registerLeaf (song : Song) (r2 : (MState × List Ev) × Nat) : MState × List Ev :=
  ({ r2.1.1 with song_nodes := fun i => if i = song.id then some r2.2 else r2.1.1.song_nodes i },
   r2.1.2)

/-- One iteration of the CollectionModel::AddSongs loop (lines 347-402):
upsert the stored record; skip filtered-out songs; skip songs that
already have a leaf; otherwise walk the grouping levels and create the
song leaf under the final container. -/
def addOneSong (cfg : Config) (st : MState × List Ev) (song : Song) : MState × List Ev :=
  let s := writeSong st.1 song
  if !cfg.filter song then (s, st.2)
  else if (s.song_nodes song.id).isSome then (s, st.2)
  else
    let r := addLevels cfg song [0, 1, 2] "" 0 s st.2
    registerLeaf song (ItemFromSong cfg GroupBy.none cfg.separate_albums_by_grouping true false
      r.2 song (-1) r.1.1 r.1.2)

/-- CollectionModel::AddSongs (lines 345-404). -/
def AddSongs (cfg : Config) (s : MState) (songs : List Song) : MState × List Ev :=
  songs.foldl (addOneSong cfg) (s, [])

/-- One iteration of the CollectionModel::UpdateSongs loop (lines 441-458):
update the stored record if present; skip (with a logged error) songs with
no leaf; otherwise replace the leaf's metadata and, when the subset-field
comparison detects a change, emit dataChanged for the leaf — unless the
leaf's index is invalid (the leaf is the root), in which case the whole
call returns early (the `stopped` flag). -/
def updOneSong (st : MState × List Ev × Bool) (song : Song) : MState × List Ev × Bool :=
  if st.2.2 then st
  else
    let s := writeSongIfPresent st.1 song
    match s.song_nodes song.id with
    | Option.none => (s, st.2.1, false)
    | some nid =>
      let item := getItem s nid
      let data_changed := !IsCollectionMetadataEqual song item.metadata
      let s := updNode s nid (fun it => { it with metadata := song })
      if data_changed then
        if nid = 0 then (s, st.2.1, true)
        else (s, st.2.1 ++ [Ev.dataChanged nid], false)
      else (s, st.2.1, false)

/-- CollectionModel::UpdateSongs (lines 439-460). -/
def UpdateSongs (s : MState) (songs : List Song) : MState × List Ev :=
  let r := songs.foldl updOneSong (s, [], false)
  (r.1, r.2.1)

/-- Intermediate state of CollectionModel::RemoveSongs: the model, the
candidate-parent set, the collected divider keys, and the emitted events. -/
structure RmSt where
  s : MState
  parents : List Nat
  dkeys : List String
  evs : List Ev

/-- Phase one of CollectionModel::RemoveSongs (lines 693-710): update the
stored record, delete the song's leaf (bracketed by removal signals),
remember its parent as a pruning candidate (unless it is the root), and
drop the song-node table entry.  Songs with no leaf are skipped. -/
def rmOneSong (st : RmSt) (song : Song) : RmSt :=
  let s := writeSongIfPresent st.s song
  match s.song_nodes song.id with
  | Option.none => { st with s := s }
  | some nid =>
    let node := getItem s nid
    let parents := if node.parent ≠ 0 then insertDedupNat st.parents node.parent else st.parents
    let row := rowOf s nid
    let evs := st.evs ++ [Ev.beginRemoveRows node.parent row row]
    let s := deleteNode s nid
    let s := { s with song_nodes := fun i => if i = song.id then Option.none else s.song_nodes i }
    { s := s, parents := parents, dkeys := st.dkeys, evs := evs ++ [Ev.endRemoveRows] }

/-- Total conversion of a container level (known to be in 0..2 at use
sites, which guard with a range check) to an index. -/
def levelFin (lvl : Int) : Fin 3 :=
  if lvl = 0 then 0 else if lvl = 1 then 1 else 2

/-- One candidate of the pruning loop of CollectionModel::RemoveSongs
(lines 718-760): drop it from the candidate set; if it has become
childless, remember its parent, collect its divider key when it is a
top-level container, clear the compilation back-link or the level-table
entry, and delete it (bracketed by removal signals).  The pixmap-cache and
pending-artwork purging touches state outside this model. -/
def pruneOne (cfg : Config) (st : RmSt) (nid : Nat) : RmSt :=
  let parents := st.parents.erase nid
  let node := getItem st.s nid
  if node.children.length ≠ 0 then { st with parents := parents }
  else
    let parents := if node.parent ≠ 0 then insertDedupNat parents node.parent else parents
    let dkeys :=
      if node.container_level = 0 then insertDedupStr st.dkeys (DividerKey (cfg.group_by 0) node)
      else st.dkeys
    let s :=
      if (getItem st.s node.parent).compilation_artist_node = some nid then
        updNode st.s node.parent (fun it => { it with compilation_artist_node := Option.none })
      else if 0 ≤ node.container_level ∧ node.container_level < 3 then
        (if (alLookup (st.s.cns (levelFin node.container_level)) node.key).isSome then
          { st.s with cns := fun j =>
              if j = levelFin node.container_level then alErase (st.s.cns j) node.key else st.s.cns j }
        else st.s)
      else st.s
    let row := rowOf s nid
    let evs := st.evs ++ [Ev.beginRemoveRows node.parent row row]
    let s := deleteNode s nid
    { s := s, parents := parents, dkeys := dkeys, evs := evs ++ [Ev.endRemoveRows] }

/-- One round of the pruning loop: iterate over a snapshot of the candidate
set (the C++ iterates a `QSet` copy in unspecified order; the snapshot's
insertion order is used here — the set of deleted nodes does not depend on
the order). -/
def pruneRound (cfg : Config) (st : RmSt) : RmSt :=
  st.parents.foldl (pruneOne cfg) st

/-- The `while (!parents.isEmpty())` pruning loop, made total by fuel: a
round that deletes nothing empties the candidate set, and each deleting
round removes at least one node, so `next + 1` rounds always suffice. -/
def pruneLoop (cfg : Config) : Nat → RmSt → RmSt
  | 0, st => st
  | fuel + 1, st => if st.parents = [] then st else pruneLoop cfg fuel (pruneRound cfg st)

/-- One collected divider key of the final phase of RemoveSongs (lines
764-779): if its divider still exists and no remaining level-0 container
maps to it (re-computing DividerKey from each container's current sort
text), delete the divider from the root (bracketed by removal signals) and
drop its table entry. -/
def rmDividerKey (cfg : Config) (st : MState × List Ev) (dk : String) : MState × List Ev :=
  let s := st.1
  match s.divider_nodes dk with
  | Option.none => st
  | some d =>
    if (s.cns 0).any (fun kv => DividerKey (cfg.group_by 0) (getItem s kv.2) == dk) then st
    else
      let row := rowOf s d
      let evs := st.2 ++ [Ev.beginRemoveRows 0 row row]
      let s := deleteNode s d
      ({ s with divider_nodes := fun k => if k = dk then Option.none else s.divider_nodes k },
        evs ++ [Ev.endRemoveRows])

/-- CollectionModel::RemoveSongs (lines 689-781): delete the song leaves,
prune emptied ancestors, then delete orphaned dividers. -/
def RemoveSongs (cfg : Config) (s : MState) (songs : List Song) : MState × List Ev :=
  let r1 := songs.foldl rmOneSong { s := s, parents := [], dkeys := [], evs := [] }
  let r2 := pruneLoop cfg (r1.s.next + 1) r1
  r2.dkeys.foldl (rmDividerKey cfg) (r2.s, r2.evs)

/-- CollectionModel::ReAddOrUpdate (lines 406-437), the partitioning step:
songs with no leaf are skipped (logged); a song whose container key differs
from its stored record's at any level is scheduled as remove(old record) +
add(new record); otherwise it is scheduled as a plain update. -/
def reAddPartition (cfg : Config) (s : MState) (songs : List Song) :
    List Song × List Song × List Song :=
  songs.foldl
    (fun acc song =>
      match s.song_nodes song.id with
      | Option.none => acc
      | some nid =>
        let metadata := (getItem s nid).metadata
        let changed := ([0, 1, 2] : List (Fin 3)).any (fun i =>
          ContainerKey (cfg.group_by i) cfg.separate_albums_by_grouping song ≠
          ContainerKey (cfg.group_by i) cfg.separate_albums_by_grouping metadata)
        if changed then (acc.1, acc.2.1 ++ [metadata], acc.2.2 ++ [song])
        else (acc.1 ++ [song], acc.2.1, acc.2.2))
    ([], [], [])

/-- The four operation kinds of CollectionModelUpdate. -/
inductive UpdateType where
  | add
  | remove
  | reAddOrUpdate
  | update
deriving DecidableEq, Repr

/-- One queue entry of the update scheduler. -/
structure CollectionModelUpdate where
  type : UpdateType
  songs : List Song
deriving DecidableEq, Repr

/-- Scheduler-level state: the model, the update queue and the recurring
update timer's activity flag. -/
structure SchedState where
  ms : MState
  queue : List CollectionModelUpdate
  timer_update_active : Bool

/-- The chunking loop of CollectionModel::ScheduleUpdate (lines 303-307):
consecutive chunks of at most 400 songs. -/
def chunkSongs (l : List Song) : List (List Song) :=
  if l = [] then [] else l.take 400 :: chunkSongs (l.drop 400)
termination_by l.length
decreasing_by
  simp only [List.length_drop]
  have hl : 0 < l.length := List.length_pos.mpr (by assumption)
  omega

/-- CollectionModel::ScheduleUpdate (lines 301-313): enqueue one entry per
chunk, in order, and make sure the recurring timer is running. -/
def ScheduleUpdate (st : SchedState) (t : UpdateType) (songs : List Song) : SchedState :=
  { st with
      queue := st.queue ++ (chunkSongs songs).map (fun c => { type := t, songs := c })
      timer_update_active := true }

/-- CollectionModel::ProcessUpdate (lines 315-343): on each timer tick, stop
the timer if the queue is empty, otherwise dequeue exactly one entry (also
stopping the timer when it was the last) and dispatch it.  A ReAddOrUpdate
entry re-enters ScheduleUpdate with its update/remove/add sub-batches. -/
def ProcessUpdate (cfg : Config) (st : SchedState) : SchedState × List Ev :=
  match st.queue with
  | [] => ({ st with timer_update_active := false }, [])
  | u :: rest =>
    let st1 : SchedState :=
      { st with queue := rest
                timer_update_active := if rest = [] then false else st.timer_update_active }
    match u.type with
    | UpdateType.add =>
      let r := AddSongs cfg st1.ms u.songs
      ({ st1 with ms := r.1 }, r.2)
    | UpdateType.remove =>
      let r := RemoveSongs cfg st1.ms u.songs
      ({ st1 with ms := r.1 }, r.2)
    | UpdateType.update =>
      let r := UpdateSongs st1.ms u.songs
      ({ st1 with ms := r.1 }, r.2)
    | UpdateType.reAddOrUpdate =>
      let parts := reAddPartition cfg st1.ms u.songs
      let st2 := ScheduleUpdate st1 UpdateType.update parts.1
      let st3 := ScheduleUpdate st2 UpdateType.remove parts.2.1
      let st4 := ScheduleUpdate st3 UpdateType.add parts.2.2
      (st4, [])

/-- Lexicographic strict comparison of character lists (the order of
`QString::operator<`), written as an executable Boolean function. -/
def charListLess : List Char → List Char → Bool
  | [], [] => false
  | [], _ :: _ => true
  | _ :: _, [] => false
  | a :: as, b :: bs => if a < b then true else if b < a then false else charListLess as bs

/-- `QString::operator<`: lexicographic comparison (modelled on code
points; Qt compares UTF-16 code units, which agrees on the claims'
inputs). -/
def qstringLess (a b : String) : Bool :=
  charListLess a.toList b.toList

/-- The QVariant values data() can return for Role_SortText. -/
inductive QVar where
  | ofString (s : String)
  | ofInt (n : Int)
deriving DecidableEq, Repr

/-- Modelled from the spec §3: `CollectionItem::SortText` returns the
node's precomputed sort string ("Sort text: lexicographically-comparable
string"), so the variant data() returns for Role_SortText always carries a
string, never an int. -/
def CItem.SortTextData (item : CItem) : QVar :=
  QVar.ofString item.sort_text

/-- QVariant type test used by CompareItems. -/
def qvarIsInt : QVar → Bool
  | QVar.ofInt _ => true
  | QVar.ofString _ => false

/-- QVariant::toInt. -/
def qvarToInt : QVar → Int
  | QVar.ofInt n => n
  | QVar.ofString s => qStringToInt s

/-- QVariant::toString. -/
def qvarToString : QVar → String
  | QVar.ofInt n => intDecString n
  | QVar.ofString s => s

/-- CollectionModel::CompareItems (lines 1449-1463): fetch both items'
Role_SortText variants; compare as ints when the left variant's runtime
type is Int, as strings otherwise. -/
def CompareItems (a b : CItem) : Bool :=
  let left := a.SortTextData
  let right := b.SortTextData
  if qvarIsInt left then decide (qvarToInt left < qvarToInt right)
  else qstringLess (qvarToString left) (qvarToString right)

/-- Insert into a list sorted by the boolean relation `le`. -/
def insertSorted (le : α → α → Bool) (x : α) : List α → List α
  | [] => [x]
  | y :: ys => if le x y then x :: y :: ys else y :: insertSorted le x ys

/-- Insertion sort by the boolean relation `le`. -/
def sortByLe (le : α → α → Bool) : List α → List α
  | [] => []
  | x :: xs => insertSorted le x (sortByLe le xs)

/-- The std::sort call of GetChildSongs, with CompareItems as the strict
comparator (std::sort leaves the order of tied elements unspecified; any
sort agreeing with the comparator is a faithful model, and the claims
about the result are at multiset level). -/
def sortChildren (s : MState) (cs : List Nat) : List Nat :=
  sortByLe (fun a b => ! CompareItems (getItem s b) (getItem s a)) cs

/-- The data(Role_Editable) query (lines 966-985): a container with no
children is not editable, a container with a non-editable child is not
editable, otherwise a container is editable; a song leaf is editable iff
its record is; every other node kind is not editable.  The recursion over
children is fuelled (the C++ recursion is over the finite tree). -/
def dataEditable (s : MState) : Nat → Nat → Bool
  | 0, _ => false
  | fuel + 1, nid =>
    let item := getItem s nid
    match item.type with
    | ItemType.container =>
      if item.children.isEmpty then false
      else if item.children.any (fun c => ! dataEditable s fuel c) then false
      else true
    | ItemType.song => item.metadata.editable
    | _ => false

/-- Accumulator of GetChildSongs: the collected urls, the collected songs,
and the song-id set used for deduplication. -/
structure GCAcc where
  urls : List String := []
  songs : List Song := []
  song_ids : List Int := []
deriving DecidableEq, Repr

/-- CollectionModel::GetChildSongs (lines 1479-1504): a container sorts its
children with CompareItems and recurses into them; a song leaf appends its
url always and its record only when its id is new; every other node kind
(root, divider, loading indicator) contributes nothing.  The recursion is
fuelled (the C++ recursion is over the finite tree). -/
def GetChildSongs (s : MState) : Nat → Nat → GCAcc → GCAcc
  | 0, _, acc => acc
  | fuel + 1, nid, acc =>
    let item := getItem s nid
    match item.type with
    | ItemType.container =>
      (sortChildren s item.children).foldl (fun a c => GetChildSongs s fuel c a) acc
    | ItemType.song =>
      let acc := { acc with urls := acc.urls ++ [item.metadata.url] }
      if acc.song_ids.contains item.metadata.id then acc
      else { acc with songs := acc.songs ++ [item.metadata],
                      song_ids := acc.song_ids ++ [item.metadata.id] }
    | _ => acc

/-- CollectionModel::GetChildSongs over an index list (lines 1506-1517):
one shared accumulator across all the given nodes. -/
def GetChildSongsList (s : MState) (fuel : Nat) (nids : List Nat) : GCAcc :=
  nids.foldl (fun a nid => GetChildSongs s fuel nid a) {}

/-- The root's (top-level) children. -/
def rootChildren (s : MState) : List Nat :=
  (getItem s 0).children

/-- The public flatten of the whole tree: GetChildSongs run over the
root's children with one shared accumulator (a fuel of `next` dominates
the tree depth, since ids strictly increase along any path). -/
def flattenRootSongs (s : MState) : List Song :=
  (GetChildSongsList s s.next (rootChildren s)).songs

/-- Analysis traversal: the ids of the song leaves under a node, visiting
children in list order (no sorting, no deduplication); the root is
traversed like a container, so `flatIds s fuel 0` flattens the whole
tree.  Used to relate GetChildSongs to the song-node table. -/
def flatIds (s : MState) : Nat → Nat → List Int
  | 0, _ => []
  | fuel + 1, nid =>
    let item := getItem s nid
    match item.type with
    | ItemType.container | ItemType.root => (item.children.map (flatIds s fuel)).flatten
    | ItemType.song => [item.metadata.id]
    | _ => []

/-- The ancestor chain of a node: the node followed by its parents up to
the root, fuelled (under the well-formedness invariant parents have
strictly smaller ids, so `nid + 1` fuel always suffices). -/
def chainAux (s : MState) : Nat → Nat → List Nat
  | 0, _ => []
  | fuel + 1, nid => nid :: (if nid = 0 then [] else chainAux s fuel (getItem s nid).parent)

/-- The ancestor chain with its canonical fuel. -/
def chainOf (s : MState) (nid : Nat) : List Nat :=
  chainAux s (nid + 1) nid

/-- The alphabetic divider-key rule exactly as the specification words it
("the first character of the sort text, with a digit first character
collapsing to the key 0 and an accented first character decomposing to
its base letter"); written from the spec's words for comparison with
`DividerKey`. -/
def specDividerKeyAlpha (item : CItem) : String :=
  match item.sort_text.toList with
  | [] => ""
  | c :: _ =>
    if c.isDigit then "0"
    else
      match qcharDecomposition c with
      | d :: _ => String.mk [d]
      | [] => String.mk [c]

/-- "The sort text parses fully as an integer", as the specification words
it; written from the spec's words for comparison with `CompareItems`. -/
def specParsesFullyAsInt (s : String) : Bool :=
  s ≠ "" && s.toList.all Char.isDigit

/-- Song `b` differs from `a` at most in the rating and play-statistics
fields. -/
def ratingStatsOnlyDiff (a b : Song) : Prop :=
  b = { a with rating := b.rating, playcount := b.playcount }

/-- Two states that agree on the tree, the allocation counter and every
lookup table, and on the stored records everywhere except possibly at one
identifier. -/
def AgreeExcept (a b : MState) (i : Int) : Prop :=
  a.nodes = b.nodes ∧ a.next = b.next ∧ a.song_nodes = b.song_nodes ∧
  a.cns = b.cns ∧ a.divider_nodes = b.divider_nodes ∧
  ∀ j, j ≠ i → a.songs j = b.songs j

/-- Fixture: grouping by album artist only, default options. -/
def exCfgArtist : Config :=
  { group_by := fun i => if i = 0 then GroupBy.albumArtist else GroupBy.none }

/-- Fixture: a plain artist song. -/
def exSongBach : Song :=
  { id := 1, albumartist := "Bach", title := "Air", url := "file:///bach.flac" }

/-- Fixture: grouping by year only, default options. -/
def exCfgYear : Config :=
  { group_by := fun i => if i = 0 then GroupBy.year else GroupBy.none }

/-- Fixture: a song from 1994. -/
def exSongYear : Song :=
  { id := 1, year := 1994, title := "T", url := "file:///y.flac" }

/-- Fixture: a two-node state — the root with a single childless container
(the shape that arises transiently inside RemoveSongs before pruning). -/
def exEmptyContainerState : MState where
  nodes := fun n =>
    if n = 0 then some { rootItem with children := [1] }
    else if n = 1 then some { type := ItemType.container, parent := 0, key := "k" }
    else Option.none
  next := 2
  songs := fun _ => Option.none
  song_nodes := fun _ => Option.none
  cns := fun _ => []
  divider_nodes := fun _ => Option.none

/-- Fixture: a tracked song and a copy with a different rating. -/
def exSongRated : Song := { id := 7, title := "S", artist := "A", rating := 1 }

/-- Fixture: the same song after a rating-only change. -/
def exSongRerated : Song := { exSongRated with rating := 5 }

/-- Fixture: a model holding `exSongRated`. -/
def exStateRated : MState :=
  (AddSongs exCfgArtist initMState [exSongRated]).1

/-- Fixture: a song that is tracked by no model state used with it. -/
def exSongUntracked : Song := { id := 99, title := "ghost" }

/-- Fixture: container items whose sort texts are the decimal strings "5"
and "10". -/
def exItemFive : CItem := { type := ItemType.container, sort_text := "5" }

/-- See `exItemFive`. -/
def exItemTen : CItem := { type := ItemType.container, sort_text := "10" }

/-- Fixture: an item with the Various-artists sort text. -/
def exItemVarious : CItem := { type := ItemType.container, sort_text := " various" }

/-- The grouping criteria DividerKey treats alphabetically (the first
branch of its switch, lines 586-605). -/
def alphaGroupBys : List GroupBy :=
  [GroupBy.albumArtist, GroupBy.artist, GroupBy.album, GroupBy.albumDisc,
   GroupBy.composer, GroupBy.performer, GroupBy.grouping, GroupBy.disc,
   GroupBy.genre, GroupBy.format, GroupBy.fileType]

/-- A node with its metadata erased: the "shape" of a node (kind, parent,
children, key, texts, level, compilation link).  Update must preserve the
shape of every node. -/
def eraseMetadata (it : CItem) : CItem :=
  { it with metadata := {} }

/-! ### Generic list and character lemmas -/

theorem insertSorted_perm {α : Type} (le : α → α → Bool) (x : α) (l : List α) :
    (insertSorted le x l).Perm (x :: l) := by
  induction l with
  | nil => simp [insertSorted]
  | cons y ys ih =>
    simp only [insertSorted]
    by_cases h : le x y
    · simp [h]
    · simp only [h, if_false]
      exact (ih.cons y).trans (List.Perm.swap x y ys)

theorem sortByLe_perm {α : Type} (le : α → α → Bool) (l : List α) :
    (sortByLe le l).Perm l := by
  induction l with
  | nil => simp [sortByLe]
  | cons x xs ih => exact (insertSorted_perm le x (sortByLe le xs)).trans (ih.cons x)

theorem sortChildren_perm (s : MState) (cs : List Nat) :
    (sortChildren s cs).Perm cs :=
  sortByLe_perm _ cs

theorem isDigit_toNat (c : Char) (h : c.isDigit = true) :
    48 ≤ c.toNat ∧ c.toNat ≤ 57 := by
  simp only [Char.isDigit, ge_iff_le, Bool.and_eq_true, decide_eq_true_eq] at h
  exact ⟨h.1, h.2⟩

theorem isDigit_not_isWhitespace (c : Char) (h : c.isDigit = true) :
    c.isWhitespace = false := by
  have hb := isDigit_toNat c h
  simp only [Char.isWhitespace, Bool.or_eq_false_iff, decide_eq_false_iff_not]
  refine ⟨⟨⟨?_, ?_⟩, ?_⟩, ?_⟩ <;> rintro rfl <;> exact absurd hb (by decide)

theorem isDigit_ne_low (c : Char) (h : c.isDigit = true) (d : Char)
    (hd : d.toNat < 48) : c ≠ d := by
  have hb := isDigit_toNat c h
  rintro rfl
  omega

theorem digitChar_isDigit (n : Nat) (h : n < 10) : (digitChar n).isDigit = true := by
  interval_cases n <;> decide

theorem digitChar_toNat (n : Nat) (h : n < 10) : (digitChar n).toNat = 48 + n := by
  interval_cases n <;> decide

theorem natDigitsAux_digits (fuel n : Nat) (h : n < fuel) :
    (natDigitsAux fuel n).all Char.isDigit = true := by
  induction fuel generalizing n with
  | zero => omega
  | succ fuel ih =>
    rw [natDigitsAux]
    by_cases h10 : n < 10
    · simp [h10, digitChar_isDigit n h10]
    · have hd : n / 10 < fuel := by omega
      simp [h10, List.all_append, ih _ hd,
        digitChar_isDigit _ (Nat.mod_lt n (by norm_num))]

theorem natDigitsAux_ne_nil (fuel n : Nat) (h : n < fuel) :
    natDigitsAux fuel n ≠ [] := by
  cases fuel with
  | zero => omega
  | succ fuel =>
    rw [natDigitsAux]
    by_cases h10 : n < 10 <;> simp [h10]

theorem digitsToNat_append_single (xs : List Char) (c : Char) :
    digitsToNat (xs ++ [c]) = digitsToNat xs * 10 + (c.toNat - 48) := by
  simp [digitsToNat, List.foldl_append]

theorem digitsToNat_natDigitsAux (fuel n : Nat) (h : n < fuel) :
    digitsToNat (natDigitsAux fuel n) = n := by
  induction fuel generalizing n with
  | zero => omega
  | succ fuel ih =>
    rw [natDigitsAux]
    by_cases h10 : n < 10
    · simp [h10, digitsToNat, digitChar_toNat n h10]
    · have hd : n / 10 < fuel := by omega
      simp only [h10, if_false]
      rw [digitsToNat_append_single, ih _ hd,
        digitChar_toNat _ (Nat.mod_lt n (by norm_num))]
      omega

theorem decRepr_digits (n : Nat) : (decRepr n).all Char.isDigit = true :=
  natDigitsAux_digits (n + 1) n (by omega)

theorem decRepr_ne_nil (n : Nat) : decRepr n ≠ [] :=
  natDigitsAux_ne_nil (n + 1) n (by omega)

theorem digitsToNat_decRepr (n : Nat) : digitsToNat (decRepr n) = n :=
  digitsToNat_natDigitsAux (n + 1) n (by omega)

theorem digitsToNat_cons_zero (ds : List Char) :
    digitsToNat ('0' :: ds) = digitsToNat ds := rfl

theorem digitsToNat_replicate_zero (k : Nat) (ds : List Char) :
    digitsToNat (List.replicate k '0' ++ ds) = digitsToNat ds := by
  induction k with
  | zero => rfl
  | succ k ih => simpa [List.replicate_succ, digitsToNat_cons_zero] using ih

theorem dropWhile_ws_all_digits (l : List Char) (h : l.all Char.isDigit = true) :
    l.dropWhile Char.isWhitespace = l := by
  cases l with
  | nil => rfl
  | cons c cs =>
    simp only [List.all_cons, Bool.and_eq_true] at h
    simp [List.dropWhile_cons, isDigit_not_isWhitespace c h.1]

/-- Parsing a digit string followed by one trailing space: the trailing
space is trimmed and the digits are read back. -/
theorem qStringToInt_digits_space (ds : List Char) (hne : ds ≠ [])
    (hds : ds.all Char.isDigit = true) :
    qStringToInt (String.mk (ds ++ [' '])) = (digitsToNat ds : Int) := by
  have htl : (String.mk (ds ++ [' '])).toList = ds ++ [' '] := rfl
  rw [qStringToInt, htl]
  have h1 : (ds ++ [' ']).dropWhile Char.isWhitespace = ds ++ [' '] := by
    cases ds with
    | nil => exact absurd rfl hne
    | cons c cs =>
      simp only [List.all_cons, Bool.and_eq_true] at hds
      simp [List.dropWhile_cons, isDigit_not_isWhitespace c hds.1]
  have h2 : (ds ++ [' ']).reverse = ' ' :: ds.reverse := by simp
  rw [h1, h2]
  have h3 : (' ' :: ds.reverse).dropWhile Char.isWhitespace = ds.reverse := by
    rw [List.dropWhile_cons]
    simp only [show (' ').isWhitespace = true from rfl, if_true]
    exact dropWhile_ws_all_digits ds.reverse (by simpa [List.all_reverse] using hds)
  rw [h3, List.reverse_reverse]
  cases ds with
  | nil => exact absurd rfl hne
  | cons c cs =>
    simp only [List.all_cons, Bool.and_eq_true] at hds
    have hcm : c ≠ '-' := isDigit_ne_low c hds.1 '-' (by decide)
    have hcp : c ≠ '+' := isDigit_ne_low c hds.1 '+' (by decide)
    simp [hcm, hcp, hds.1, hds.2]

theorem intDecString_nonneg (y : Int) (h : 0 ≤ y) :
    intDecString y = String.mk (decRepr y.toNat) := by
  rw [intDecString, if_neg (by omega)]

/-- The character list of `SortTextForNumber y` for nonnegative `y`:
leading zero padding followed by the decimal digits. -/
theorem sortTextForNumber_toList (y : Int) (h : 0 ≤ y) :
    (SortTextForNumber y).toList =
      List.replicate (4 - (decRepr y.toNat).length) '0' ++ decRepr y.toNat := by
  rw [SortTextForNumber, intDecString_nonneg y h]
  show (String.mk (List.replicate (4 - (String.mk (decRepr y.toNat)).length) '0') ++
      String.mk (decRepr y.toNat)).toList = _
  simp only [String.toList, String.data_append]
  rfl

/-- `SortTextForNumber y` for nonnegative `y` is a nonempty digit string. -/
theorem sortTextForNumber_digits (y : Int) (h : 0 ≤ y) :
    (SortTextForNumber y).toList.all Char.isDigit = true ∧ (SortTextForNumber y).toList ≠ [] := by
  rw [sortTextForNumber_toList y h]
  constructor
  · simp only [List.all_append, Bool.and_eq_true]
    refine ⟨?_, decRepr_digits y.toNat⟩
    simp only [List.all_eq_true]
    intro c hc
    rw [List.eq_of_mem_replicate hc]
    decide
  · simp [decRepr_ne_nil y.toNat]

/-- Round trip: the sort text of a nonnegative number, with the trailing
space the year/samplerate/bitdepth/bitrate containers append, parses back
to the number through `QString::toInt`. -/
theorem qStringToInt_sortTextForNumber (y : Int) (h : 0 ≤ y) :
    qStringToInt (SortTextForNumber y ++ " ") = y := by
  have hd := sortTextForNumber_digits y h
  have hmk : String.mk ((SortTextForNumber y).toList ++ [' ']) = SortTextForNumber y ++ " " := by
    apply String.ext
    simp [String.toList, String.data_append]
  rw [← hmk, qStringToInt_digits_space _ hd.2 hd.1, sortTextForNumber_toList y h,
    digitsToNat_replicate_zero, digitsToNat_decRepr]
  omega

/-! ### Scheduler lemmas (claim C6) -/

theorem chunkSongs_flatten (l : List Song) : (chunkSongs l).flatten = l := by
  rw [chunkSongs]
  by_cases h : l = []
  · simp [h]
  · simp only [h, if_false, List.flatten_cons]
    rw [chunkSongs_flatten (l.drop 400)]
    exact List.take_append_drop 400 l
termination_by l.length
decreasing_by
  simp only [List.length_drop]
  have h1 : 0 < l.length := List.length_pos.mpr h
  omega

theorem chunkSongs_length (l : List Song) : (chunkSongs l).length = (l.length + 399) / 400 := by
  rw [chunkSongs]
  by_cases h : l = []
  · simp [h]
  · simp only [h, if_false, List.length_cons]
    rw [chunkSongs_length (l.drop 400)]
    simp only [List.length_drop]
    have h1 : 0 < l.length := List.length_pos.mpr h
    omega
termination_by l.length
decreasing_by
  simp only [List.length_drop]
  have h1 : 0 < l.length := List.length_pos.mpr h
  omega

theorem chunkSongs_mem (l c : List Song) (hc : c ∈ chunkSongs l) : c.length ≤ 400 := by
  rw [chunkSongs] at hc
  by_cases h : l = []
  · simp [h] at hc
  · simp only [h, if_false, List.mem_cons] at hc
    rcases hc with hc | hc
    · subst hc
      exact List.length_take_le 400 l
    · exact chunkSongs_mem (l.drop 400) c hc
termination_by l.length
decreasing_by
  simp only [List.length_drop]
  have h1 : 0 < l.length := List.length_pos.mpr h
  omega

/-- C6: ScheduleUpdate splits every incoming batch into consecutive chunks
of at most 400 songs whose concatenation is the original batch, appending
one queue entry per chunk in order behind the existing queue; a 1000-song
batch yields exactly 3 queue entries; and a ProcessUpdate tick on a
non-empty queue dequeues exactly the head entry and dispatches it (shown
for an Add entry, which is applied through AddSongs). -/
theorem c6_scheduler_chunks :
    (∀ songs : List Song,
      (chunkSongs songs).flatten = songs ∧
      (∀ c ∈ chunkSongs songs, c.length ≤ 400) ∧
      ∀ (st : SchedState) (t : UpdateType),
        (ScheduleUpdate st t songs).queue =
          st.queue ++ (chunkSongs songs).map (fun c => { type := t, songs := c })) ∧
    (∀ songs : List Song, songs.length = 1000 → (chunkSongs songs).length = 3) ∧
    (∀ (cfg : Config) (st : SchedState) (u : CollectionModelUpdate)
        (rest : List CollectionModelUpdate),
      st.queue = u :: rest → u.type = UpdateType.add →
      (ProcessUpdate cfg st).1.queue = rest ∧
      (ProcessUpdate cfg st).1.ms = (AddSongs cfg st.ms u.songs).1 ∧
      (ProcessUpdate cfg st).2 = (AddSongs cfg st.ms u.songs).2) := by
  refine ⟨fun songs => ⟨chunkSongs_flatten songs, fun c hc => chunkSongs_mem songs c hc,
    fun st t => rfl⟩, fun songs hlen => ?_, ?_⟩
  · rw [chunkSongs_length, hlen]
  · intro cfg st u rest hq hu
    simp [ProcessUpdate, hq, hu]

/-- Witness for C6 at concrete inputs: a replicated 1000-song batch
produces 3 chunks, and a one-entry queue is drained by one tick. -/
theorem c6_scheduler_chunks_witness :
    ((List.replicate 1000 exSongRated).length = 1000 ∧
      (chunkSongs (List.replicate 1000 exSongRated)).length = 3) ∧
    (({ ms := initMState,
        queue := [{ type := UpdateType.add, songs := [exSongBach] }],
        timer_update_active := true } : SchedState).queue =
      { type := UpdateType.add, songs := [exSongBach] } :: [] ∧
      (ProcessUpdate exCfgArtist
        { ms := initMState,
          queue := [{ type := UpdateType.add, songs := [exSongBach] }],
          timer_update_active := true }).1.queue = []) := by
  refine ⟨⟨List.length_replicate 1000 exSongRated,
      c6_scheduler_chunks.2.1 _ (List.length_replicate 1000 exSongRated)⟩, rfl,
    (c6_scheduler_chunks.2.2 exCfgArtist _ _ _ rfl rfl).1⟩

/-! ### Divider-key lemmas (claim C4) -/

theorem sortTextForNumber_space_ne_empty (y : Int) :
    SortTextForNumber y ++ " " ≠ "" := by
  intro h
  have : (SortTextForNumber y ++ " ").toList = [] := by rw [h]; rfl
  simp [String.toList, String.data_append] at this

/-- C4 (counterexample): on an item whose sort text begins with a space
(exactly the sort text of every Various-artists container), the claim's
alphabetic rule — "the first character of the sort text" — yields the
one-space key, but DividerKey yields the empty key. -/
theorem c4_dividerKey_counterexample :
    DividerKey GroupBy.albumArtist exItemVarious = "" ∧
    specDividerKeyAlpha exItemVarious = " " ∧
    ("" : String) ≠ " " :=
  ⟨rfl, rfl, by decide⟩

/-- C4 (amended): DividerKey as computed by the code.  (1) An empty sort
text yields the empty key for every criterion.  (2) For the alphabetic
criteria the key is the claim's first-character rule (digits collapse to
"0", accented letters decompose to their base letter) — except that a
leading space yields the empty key.  (3) For Year/OriginalYear the key is
the decade of the sort text's numeric value, `SortTextForNumber
(y / 10 * 10)` on the `SortTextForNumber y ++ " "` sort text such
containers carry.  (4) For the numeric audio properties the key is
`SortTextForNumber` of the item's stored metadata value — which agrees
with the claim's "numeric value of the sort text" whenever the stored
value is nonnegative, but not for negative (unknown) values. -/
theorem c4_dividerKey_characterization :
    (∀ (gb : GroupBy) (item : CItem), item.sort_text = "" → DividerKey gb item = "") ∧
    (∀ gb ∈ alphaGroupBys, ∀ (item : CItem) (c : Char) (cs : List Char),
      item.sort_text.toList = c :: cs →
      DividerKey gb item = if c = ' ' then "" else specDividerKeyAlpha item) ∧
    (∀ gb ∈ [GroupBy.year, GroupBy.originalYear], ∀ (item : CItem) (y : Int), 0 ≤ y →
      item.sort_text = SortTextForNumber y ++ " " →
      DividerKey gb item = SortTextForNumber (y / 10 * 10)) ∧
    (∀ item : CItem, item.sort_text ≠ "" →
      DividerKey GroupBy.samplerate item = SortTextForNumber item.metadata.samplerate ∧
      DividerKey GroupBy.bitdepth item = SortTextForNumber item.metadata.bitdepth ∧
      DividerKey GroupBy.bitrate item = SortTextForNumber item.metadata.bitrate) ∧
    (∀ (item : CItem) (v : Int), 0 ≤ v → v = item.metadata.samplerate →
      item.sort_text = SortTextForNumber v ++ " " →
      DividerKey GroupBy.samplerate item = SortTextForNumber (qStringToInt item.sort_text)) := by
  refine ⟨?_, ?_, ?_, ?_, ?_⟩
  · intro gb item h
    rw [DividerKey.eq_def, if_pos h]
  · intro gb hgb item c cs htl
    have hne : item.sort_text ≠ "" := by
      intro h
      rw [h] at htl
      exact absurd htl (by simp [String.toList])
    have hkey : DividerKey gb item =
        (if c.isDigit then "0"
         else if c = ' ' then ""
         else match qcharDecomposition c with
           | d :: _ => String.mk [d]
           | [] => String.mk [c]) := by
      fin_cases hgb <;>
        · rw [DividerKey.eq_def, if_neg hne]
          simp only [htl]
    rw [hkey, specDividerKeyAlpha, htl]
    by_cases hd : c.isDigit
    · have : c ≠ ' ' := isDigit_ne_low c hd ' ' (by decide)
      simp [hd, this]
    · simp [hd]
  · intro gb hgb item y hy hst
    have hne : item.sort_text ≠ "" := by rw [hst]; exact sortTextForNumber_space_ne_empty y
    have hq : qStringToInt item.sort_text = y := by
      rw [hst]; exact qStringToInt_sortTextForNumber y hy
    have htd : Int.tdiv y 10 = y / 10 := Int.tdiv_eq_ediv hy (by norm_num)
    fin_cases hgb <;>
      · rw [DividerKey.eq_def, if_neg hne]
        simp only [hq, htd]
  · intro item hne
    exact ⟨by rw [DividerKey.eq_def, if_neg hne], by rw [DividerKey.eq_def, if_neg hne],
      by rw [DividerKey.eq_def, if_neg hne]⟩
  · intro item v hv hmv hst
    have hne : item.sort_text ≠ "" := by rw [hst]; exact sortTextForNumber_space_ne_empty v
    have hq : qStringToInt item.sort_text = v := by
      rw [hst]; exact qStringToInt_sortTextForNumber v hv
    rw [DividerKey.eq_def, if_neg hne, hq, hmv]

/-- Witness for C4 at concrete inputs: an artist container for "Bach"
(alphabetic rule), a year container for 1994 (decade rule), and a
samplerate container for 44100 Hz. -/
theorem c4_dividerKey_characterization_witness :
    (DividerKey GroupBy.albumArtist { type := ItemType.container, sort_text := "bach" } =
      (if 'b' = ' ' then "" else specDividerKeyAlpha { type := ItemType.container, sort_text := "bach" })) ∧
    (DividerKey GroupBy.year { type := ItemType.container, sort_text := SortTextForNumber 1994 ++ " " } =
      SortTextForNumber (1994 / 10 * 10)) ∧
    (DividerKey GroupBy.samplerate
        { type := ItemType.container, sort_text := "0044100 ",
          metadata := { samplerate := 44100 } } =
      SortTextForNumber (44100 : Int)) := by
  refine ⟨?_, ?_, ?_⟩
  · exact c4_dividerKey_characterization.2.1 GroupBy.albumArtist (by simp [alphaGroupBys])
      _ 'b' ['a', 'c', 'h'] rfl
  · exact c4_dividerKey_characterization.2.2.1 GroupBy.year (by simp)
      _ 1994 (by norm_num) rfl
  · exact (c4_dividerKey_characterization.2.2.2.1 _ (by decide)).1

/-! ### Sort-comparison lemmas (claim C5) -/

/-- The executable lexicographic comparison agrees with the `<` order on
character lists. -/
theorem charListLess_iff (as bs : List Char) : charListLess as bs = true ↔ as < bs := by
  induction as generalizing bs with
  | nil =>
    cases bs with
    | nil =>
      simp only [charListLess, Bool.false_eq_true, false_iff]
      intro h
      cases h
    | cons b bs => simp only [charListLess, true_iff]; exact List.Lex.nil
  | cons a as ih =>
    cases bs with
    | nil =>
      simp only [charListLess, Bool.false_eq_true, false_iff]
      intro h
      cases h
    | cons b bs =>
      rw [charListLess]
      by_cases hab : a < b
      · simp only [hab, if_pos, true_iff]
        exact List.Lex.rel hab
      · rw [if_neg hab]
        by_cases hba : b < a
        · simp only [hba, if_pos, Bool.false_eq_true, false_iff]
          intro h
          cases h with
          | cons h => exact lt_irrefl a hba
          | rel h => exact hab h
        · rw [if_neg hba, ih bs]
          have heq : a = b := le_antisymm (not_lt.mp hba) (not_lt.mp hab)
          subst heq
          constructor
          · intro h
            exact List.Lex.cons h
          · intro h
            cases h with
            | cons h => exact h
            | rel h => exact absurd h hab

/-- The executable lexicographic comparison agrees with `<` on strings. -/
theorem qstringLess_iff (a b : String) : qstringLess a b = true ↔ a < b := by
  rw [String.lt_iff_toList_lt]
  exact charListLess_iff a.toList b.toList

/-- C5 (counterexample): the sort texts "5" and "10" both parse fully as
integers and 5 < 10, so the claim requires CompareItems to order "5"
before "10"; the code compares them as strings (the Role_SortText variant
always carries a string, so the integer branch is never taken) and
answers false. -/
theorem c5_compareItems_counterexample :
    CompareItems exItemFive exItemTen = false ∧
    specParsesFullyAsInt exItemFive.sort_text = true ∧
    specParsesFullyAsInt exItemTen.sort_text = true ∧
    qStringToInt exItemFive.sort_text < qStringToInt exItemTen.sort_text := by
  refine ⟨by decide, by decide, by decide, by decide⟩

/-- C5 (amended): CompareItems is exactly lexicographic comparison of the
two sort texts (the integer branch requires an integer-typed variant,
which Role_SortText never produces).  It is a strict weak order —
irreflexive and transitive — and it is total on siblings with distinct
sort texts; sort texts of distinct nodes can coincide, so it is a strict
total order only up to sort-text equality.  For song leaves with equal
disc and track the appended location URL is the tiebreaker: their sort
texts are equal iff their URLs are. -/
theorem c5_compareItems_string_order :
    (∀ a b : CItem, CompareItems a b = qstringLess a.sort_text b.sort_text ∧
      (CompareItems a b = true ↔ a.sort_text < b.sort_text)) ∧
    (∀ a : CItem, CompareItems a a = false) ∧
    (∀ a b c : CItem, CompareItems a b = true → CompareItems b c = true →
      CompareItems a c = true) ∧
    (∀ a b : CItem, a.sort_text ≠ b.sort_text →
      CompareItems a b = true ∨ CompareItems b a = true) ∧
    (∀ s1 s2 : Song, s1.disc = s2.disc → s1.track = s2.track →
      (SortTextForSong s1 = SortTextForSong s2 ↔ s1.url = s2.url)) := by
  have hs : ∀ a b : CItem, CompareItems a b = true ↔ a.sort_text < b.sort_text :=
    fun a b => qstringLess_iff a.sort_text b.sort_text
  refine ⟨fun a b => ⟨rfl, hs a b⟩, ?_, ?_, ?_, ?_⟩
  · intro a
    rw [← Bool.not_eq_true, hs]
    exact lt_irrefl _
  · intro a b c h1 h2
    rw [hs] at h1 h2 ⊢
    exact lt_trans h1 h2
  · intro a b h
    rcases lt_or_gt_of_ne h with hlt | hlt
    · left; rw [hs]; exact hlt
    · right; rw [hs]; exact hlt
  · intro s1 s2 hdisc htrack
    rw [SortTextForSong, SortTextForSong, hdisc, htrack]
    constructor
    · intro h
      apply String.ext
      have := congrArg String.data h
      simp only [String.data_append] at this
      exact List.append_cancel_left this
    · intro h
      rw [h]

/-- Witness for C5 at concrete inputs: transitivity and totality on the
items with sort texts "10", "5" and " various", and the song tiebreaker
on a concrete song. -/
theorem c5_compareItems_string_order_witness :
    (CompareItems exItemTen exItemFive = true → CompareItems exItemFive exItemVarious = true →
      CompareItems exItemTen exItemVarious = true) ∧
    (exItemFive.sort_text ≠ exItemTen.sort_text →
      CompareItems exItemFive exItemTen = true ∨ CompareItems exItemTen exItemFive = true) ∧
    (exSongBach.disc = exSongBach.disc → exSongBach.track = exSongBach.track →
      (SortTextForSong exSongBach = SortTextForSong exSongBach ↔
        exSongBach.url = exSongBach.url)) := by
  refine ⟨c5_compareItems_string_order.2.2.1 _ _ _,
    c5_compareItems_string_order.2.2.2.1 _ _,
    c5_compareItems_string_order.2.2.2.2 _ _⟩

/-! ### Editable-attribute lemmas (claim C7) -/

/-- C7 (counterexample): a container with zero children satisfies the
claim's "every child is editable" condition vacuously, yet
data(Role_Editable) answers false — the code returns false for an empty
container before its any_of check. -/
theorem c7_editable_empty_container_counterexample :
    (getItem exEmptyContainerState 1).type = ItemType.container ∧
    (getItem exEmptyContainerState 1).children = [] ∧
    dataEditable exEmptyContainerState 2 1 = false :=
  ⟨rfl, rfl, rfl⟩

/-- C7 (amended): data(Role_Editable) is true for a song leaf iff its
record is flagged editable, and for a container iff it has at least one
child and every child is editable — a container with zero children
answers false, not (vacuously) true. -/
theorem c7_editable_characterization :
    (∀ (s : MState) (fuel nid : Nat) (item : CItem), s.nodes nid = some item →
      item.type = ItemType.song →
      (dataEditable s (fuel + 1) nid = true ↔ item.metadata.editable = true)) ∧
    (∀ (s : MState) (fuel nid : Nat) (item : CItem), s.nodes nid = some item →
      item.type = ItemType.container →
      (dataEditable s (fuel + 1) nid = true ↔
        item.children ≠ [] ∧ ∀ c ∈ item.children, dataEditable s fuel c = true)) := by
  constructor
  · intro s fuel nid item hnode htype
    have hget : getItem s nid = item := by rw [getItem, hnode]; rfl
    rw [dataEditable, hget, htype]
  · intro s fuel nid item hnode htype
    have hget : getItem s nid = item := by rw [getItem, hnode]; rfl
    rw [dataEditable, hget, htype]
    by_cases hemp : item.children.isEmpty = true
    · rw [if_pos hemp]
      simp only [Bool.false_eq_true, false_iff, not_and]
      intro h
      exact absurd (List.isEmpty_iff.mp hemp) h
    · rw [if_neg hemp]
      by_cases hany : (item.children.any fun c => ! dataEditable s fuel c) = true
      · rw [if_pos hany]
        simp only [Bool.false_eq_true, false_iff, not_and]
        intro _ hall
        rcases List.any_eq_true.mp hany with ⟨c, hc, hcb⟩
        rw [hall c hc] at hcb
        exact absurd hcb (by decide)
      · rw [if_neg hany]
        simp only [true_iff]
        refine ⟨fun h => hemp (by simp [h]), fun c hc => ?_⟩
        by_contra hcb
        exact hany (List.any_eq_true.mpr ⟨c, hc, by simp [hcb]⟩)

/-- Witness for C7 at concrete inputs: the song leaf and the artist
container of the model holding `exSongRated`. -/
theorem c7_editable_characterization_witness :
    (dataEditable exStateRated 3 3 = true ↔
      (getItem exStateRated 3).metadata.editable = true) ∧
    (dataEditable exStateRated 3 1 = true ↔
      (getItem exStateRated 1).children ≠ [] ∧
      ∀ c ∈ (getItem exStateRated 1).children, dataEditable exStateRated 2 c = true) := by
  constructor
  · exact c7_editable_characterization.1 exStateRated 2 3 (getItem exStateRated 3)
      (by decide) (by decide)
  · exact c7_editable_characterization.2 exStateRated 2 1 (getItem exStateRated 1)
      (by decide) (by decide)

/-! ### State-helper lemmas -/

theorem writeSong_nodes (s : MState) (t : Song) : (writeSong s t).nodes = s.nodes := rfl

theorem writeSong_next (s : MState) (t : Song) : (writeSong s t).next = s.next := rfl

theorem writeSong_song_nodes (s : MState) (t : Song) :
    (writeSong s t).song_nodes = s.song_nodes := rfl

theorem writeSong_cns (s : MState) (t : Song) : (writeSong s t).cns = s.cns := rfl

theorem writeSong_divider_nodes (s : MState) (t : Song) :
    (writeSong s t).divider_nodes = s.divider_nodes := rfl

theorem writeSongIfPresent_nodes (s : MState) (t : Song) :
    (writeSongIfPresent s t).nodes = s.nodes := by
  rw [writeSongIfPresent]
  by_cases h : (s.songs t.id).isSome = true <;> simp [h, writeSong_nodes]

theorem writeSongIfPresent_next (s : MState) (t : Song) :
    (writeSongIfPresent s t).next = s.next := by
  rw [writeSongIfPresent]
  by_cases h : (s.songs t.id).isSome = true <;> simp [h, writeSong_next]

theorem writeSongIfPresent_song_nodes (s : MState) (t : Song) :
    (writeSongIfPresent s t).song_nodes = s.song_nodes := by
  rw [writeSongIfPresent]
  by_cases h : (s.songs t.id).isSome = true <;> simp [h, writeSong_song_nodes]

theorem writeSongIfPresent_cns (s : MState) (t : Song) :
    (writeSongIfPresent s t).cns = s.cns := by
  rw [writeSongIfPresent]
  by_cases h : (s.songs t.id).isSome = true <;> simp [h, writeSong_cns]

theorem writeSongIfPresent_divider_nodes (s : MState) (t : Song) :
    (writeSongIfPresent s t).divider_nodes = s.divider_nodes := by
  rw [writeSongIfPresent]
  by_cases h : (s.songs t.id).isSome = true <;> simp [h, writeSong_divider_nodes]

theorem getItem_congr (a b : MState) (h : a.nodes = b.nodes) (n : Nat) :
    getItem a n = getItem b n := by
  rw [getItem, getItem, h]

theorem updNode_next (s : MState) (nid : Nat) (g : CItem → CItem) :
    (updNode s nid g).next = s.next := rfl

theorem updNode_song_nodes (s : MState) (nid : Nat) (g : CItem → CItem) :
    (updNode s nid g).song_nodes = s.song_nodes := rfl

theorem updNode_cns (s : MState) (nid : Nat) (g : CItem → CItem) :
    (updNode s nid g).cns = s.cns := rfl

theorem updNode_divider_nodes (s : MState) (nid : Nat) (g : CItem → CItem) :
    (updNode s nid g).divider_nodes = s.divider_nodes := rfl

theorem updNode_songs (s : MState) (nid : Nat) (g : CItem → CItem) :
    (updNode s nid g).songs = s.songs := rfl

/-- Replacing a node's metadata does not change any node's shape. -/
theorem updNode_metadata_shape (s : MState) (nid : Nat) (t : Song) (n : Nat) :
    ((updNode s nid (fun it => { it with metadata := t })).nodes n).map eraseMetadata =
      (s.nodes n).map eraseMetadata := by
  rw [updNode]
  simp only
  by_cases h : n = nid
  · subst h
    rw [if_pos rfl, Option.map_map]
    rfl
  · rw [if_neg h]

/-! ### Update lemmas (claim C8) -/

theorem updOneSong_shape (s : MState) (evs : List Ev) (stopped : Bool) (t : Song) :
    (∀ n, ((updOneSong (s, evs, stopped) t).1.nodes n).map eraseMetadata =
      (s.nodes n).map eraseMetadata) ∧
    (updOneSong (s, evs, stopped) t).1.next = s.next ∧
    (updOneSong (s, evs, stopped) t).1.song_nodes = s.song_nodes ∧
    (updOneSong (s, evs, stopped) t).1.cns = s.cns ∧
    (updOneSong (s, evs, stopped) t).1.divider_nodes = s.divider_nodes ∧
    ∃ tail : List Ev, (updOneSong (s, evs, stopped) t).2.1 = evs ++ tail ∧
      tail.all (fun e => ! e.isStructural) = true := by
  cases stopped with
  | true => exact ⟨fun n => rfl, rfl, rfl, rfl, rfl, [], by simp [updOneSong], rfl⟩
  | false =>
    rw [updOneSong]
    simp only [Bool.false_eq_true, if_false]
    rw [writeSongIfPresent_song_nodes]
    rcases hsn : s.song_nodes t.id with _ | nid
    · simp only
      exact ⟨fun n => by rw [writeSongIfPresent_nodes], writeSongIfPresent_next s t,
        writeSongIfPresent_song_nodes s t, writeSongIfPresent_cns s t,
        writeSongIfPresent_divider_nodes s t, [], by simp, rfl⟩
    · simp only
      have hN : ∀ n, ((updNode (writeSongIfPresent s t) nid
          (fun it => { it with metadata := t })).nodes n).map eraseMetadata =
          (s.nodes n).map eraseMetadata := by
        intro n
        rw [updNode_metadata_shape]
        rw [writeSongIfPresent_nodes]
      have hNext : (updNode (writeSongIfPresent s t) nid
          (fun it => { it with metadata := t })).next = s.next := by
        rw [updNode_next, writeSongIfPresent_next]
      have hSn : (updNode (writeSongIfPresent s t) nid
          (fun it => { it with metadata := t })).song_nodes = s.song_nodes := by
        rw [updNode_song_nodes, writeSongIfPresent_song_nodes]
      have hCns : (updNode (writeSongIfPresent s t) nid
          (fun it => { it with metadata := t })).cns = s.cns := by
        rw [updNode_cns, writeSongIfPresent_cns]
      have hDn : (updNode (writeSongIfPresent s t) nid
          (fun it => { it with metadata := t })).divider_nodes = s.divider_nodes := by
        rw [updNode_divider_nodes, writeSongIfPresent_divider_nodes]
      by_cases hch : (! IsCollectionMetadataEqual t
          (getItem (writeSongIfPresent s t) nid).metadata) = true
      · rw [if_pos hch]
        by_cases h0 : nid = 0
        · rw [if_pos h0]
          exact ⟨hN, hNext, hSn, hCns, hDn, [], by simp, rfl⟩
        · rw [if_neg h0]
          exact ⟨hN, hNext, hSn, hCns, hDn, [Ev.dataChanged nid], by simp, rfl⟩
      · rw [if_neg hch]
        exact ⟨hN, hNext, hSn, hCns, hDn, [], by simp, rfl⟩

theorem updateSongs_fold_shape (songs : List Song) (s : MState) (evs : List Ev) (stopped : Bool) :
    (∀ n, ((songs.foldl updOneSong (s, evs, stopped)).1.nodes n).map eraseMetadata =
      (s.nodes n).map eraseMetadata) ∧
    (songs.foldl updOneSong (s, evs, stopped)).1.next = s.next ∧
    (songs.foldl updOneSong (s, evs, stopped)).1.song_nodes = s.song_nodes ∧
    (songs.foldl updOneSong (s, evs, stopped)).1.cns = s.cns ∧
    (songs.foldl updOneSong (s, evs, stopped)).1.divider_nodes = s.divider_nodes ∧
    ∃ tail : List Ev, (songs.foldl updOneSong (s, evs, stopped)).2.1 = evs ++ tail ∧
      tail.all (fun e => ! e.isStructural) = true := by
  induction songs generalizing s evs stopped with
  | nil => exact ⟨fun n => rfl, rfl, rfl, rfl, rfl, [], by simp, rfl⟩
  | cons t ts ih =>
    rw [List.foldl_cons]
    obtain ⟨stepN, stepNext, stepSn, stepCns, stepDn, tail1, htail1, hall1⟩ :=
      updOneSong_shape s evs stopped t
    have hr : updOneSong (s, evs, stopped) t =
        ((updOneSong (s, evs, stopped) t).1, (updOneSong (s, evs, stopped) t).2.1,
         (updOneSong (s, evs, stopped) t).2.2) := rfl
    rw [hr]
    obtain ⟨ihN, ihNext, ihSn, ihCns, ihDn, tail2, htail2, hall2⟩ :=
      ih (updOneSong (s, evs, stopped) t).1 (updOneSong (s, evs, stopped) t).2.1
        (updOneSong (s, evs, stopped) t).2.2
    refine ⟨fun n => (ihN n).trans (stepN n), ihNext.trans stepNext, ihSn.trans stepSn,
      ihCns.trans stepCns, ihDn.trans stepDn, tail1 ++ tail2, ?_, ?_⟩
    · rw [htail2, htail1, List.append_assoc]
    · simp only [List.all_append, Bool.and_eq_true]
      exact ⟨hall1, hall2⟩

/-- The events of a single-song Update on a tracked song whose leaf is not
the root: dataChanged exactly when the subset comparison differs. -/
theorem updateSongs_single_events (s : MState) (t2 : Song) (nid : Nat)
    (hsn : s.song_nodes t2.id = some nid) (h0 : nid ≠ 0) :
    (UpdateSongs s [t2]).2 =
      (if IsCollectionMetadataEqual t2 (getItem s nid).metadata then []
       else [Ev.dataChanged nid]) := by
  show (updOneSong (s, [], false) t2).2.1 = _
  rw [updOneSong]
  simp only [Bool.false_eq_true, if_false]
  rw [writeSongIfPresent_song_nodes, hsn]
  simp only
  rw [getItem_congr (writeSongIfPresent s t2) s (writeSongIfPresent_nodes s t2)]
  by_cases heq : IsCollectionMetadataEqual t2 (getItem s nid).metadata = true
  · rw [if_pos heq]
    simp [heq]
  · rw [if_neg heq]
    simp only [Bool.not_eq_true] at heq
    simp [heq, h0]

/-- C8 (amended): UpdateSongs never emits a structural notification and
never changes the shape of the tree (node kinds, parents, children,
texts), the allocation counter, or any lookup table; an update whose only
differences from the stored record are the rating or play-statistics
fields emits no notification at all (those fields are outside the
subset-field comparison); and a tracked single-song update emits exactly
one dataChanged for the leaf iff the subset-field comparison detects a
change. -/
theorem c8_update_notifications :
    (∀ (s : MState) (L : List Song),
      (UpdateSongs s L).2.all (fun e => ! e.isStructural) = true ∧
      (∀ n, ((UpdateSongs s L).1.nodes n).map eraseMetadata =
        (s.nodes n).map eraseMetadata) ∧
      (UpdateSongs s L).1.next = s.next ∧
      (UpdateSongs s L).1.song_nodes = s.song_nodes ∧
      (UpdateSongs s L).1.cns = s.cns ∧
      (UpdateSongs s L).1.divider_nodes = s.divider_nodes) ∧
    (∀ (s : MState) (t t2 : Song) (nid : Nat),
      s.song_nodes t2.id = some nid → (getItem s nid).metadata = t →
      ratingStatsOnlyDiff t t2 → (UpdateSongs s [t2]).2 = []) ∧
    (∀ (s : MState) (t2 : Song) (nid : Nat),
      s.song_nodes t2.id = some nid → nid ≠ 0 →
      (UpdateSongs s [t2]).2 =
        (if IsCollectionMetadataEqual t2 (getItem s nid).metadata then []
         else [Ev.dataChanged nid])) := by
  refine ⟨?_, ?_, updateSongs_single_events⟩
  · intro s L
    obtain ⟨hN, hNext, hSn, hCns, hDn, tail, htail, hall⟩ := updateSongs_fold_shape L s [] false
    have hev : (UpdateSongs s L).2 = (L.foldl updOneSong (s, [], false)).2.1 := rfl
    have hst : (UpdateSongs s L).1 = (L.foldl updOneSong (s, [], false)).1 := rfl
    rw [hev, htail, List.nil_append]
    rw [hst] at *
    exact ⟨hall, hN, hNext, hSn, hCns, hDn⟩
  · intro s t t2 nid hsn hmeta hdiff
    have heq : IsCollectionMetadataEqual t2 (getItem s nid).metadata = true := by
      rw [hmeta, hdiff]
      simp [IsCollectionMetadataEqual]
    show (updOneSong (s, [], false) t2).2.1 = _
    rw [updOneSong]
    simp only [Bool.false_eq_true, if_false]
    rw [writeSongIfPresent_song_nodes, hsn]
    simp only
    rw [getItem_congr (writeSongIfPresent s t2) s (writeSongIfPresent_nodes s t2)]
    simp [heq]

/-- C8 (counterexample): a rating-only change on a tracked song emits no
notification at all — in particular not the single data-changed
notification the claim requires. -/
theorem c8_update_rating_only_counterexample :
    exStateRated.song_nodes exSongRerated.id = some 3 ∧
    (getItem exStateRated 3).metadata = exSongRated ∧
    ratingStatsOnlyDiff exSongRated exSongRerated ∧
    (UpdateSongs exStateRated [exSongRerated]).2 = [] := by
  refine ⟨by decide, by decide, rfl, by decide⟩

/-- Witness for C8 at concrete inputs: the rating-only update emits
nothing; a title change on the same tracked leaf emits exactly one
dataChanged. -/
theorem c8_update_notifications_witness :
    (UpdateSongs exStateRated [exSongRerated]).2 = [] ∧
    (UpdateSongs exStateRated [{ exSongRated with title := "S2" }]).2 = [Ev.dataChanged 3] := by
  constructor
  · exact c8_update_notifications.2.1 exStateRated exSongRated exSongRerated 3
      (by decide) (by decide) rfl
  · rw [c8_update_notifications.2.2 exStateRated { exSongRated with title := "S2" } 3
      (by decide) (by decide)]
    decide

/-! ### Various-artists lemmas (claim C10) -/

theorem isAlpha_toNat (c : Char) (h : c.isAlpha = true) : 65 ≤ c.toNat := by
  simp only [Char.isAlpha, Char.isUpper, Char.isLower, Bool.or_eq_true, Bool.and_eq_true,
    decide_eq_true_eq] at h
  rcases h with ⟨h1, _⟩ | ⟨h1, _⟩
  · exact h1
  · have h2 : (97 : Nat) ≤ c.toNat := h1
    omega

/-- C10: every "Various artists" compilation container is created with
sort text " various", and its creation path never creates a divider (the
divider table is untouched — dividers only arise in FinishItem, which
CreateCompilationArtistNode does not run); for the artist-like groupings
under which compilations are routed, DividerKey of any sort text
beginning with a space is the empty key (so callers treat the node as
divider-less); and CompareItems orders a " various" node before every
sibling whose sort text begins with a letter or digit. -/
theorem c10_various_artists :
    (∀ (signal : Bool) (parent : Nat) (s : MState) (evs : List Ev),
      (getItem (CreateCompilationArtistNode signal parent s evs).1
        (CreateCompilationArtistNode signal parent s evs).2.2).sort_text = " various" ∧
      (CreateCompilationArtistNode signal parent s evs).1.divider_nodes = s.divider_nodes) ∧
    (∀ gb : GroupBy, IsArtistGroupBy gb = true → ∀ (item : CItem) (cs : List Char),
      item.sort_text.toList = ' ' :: cs → DividerKey gb item = "") ∧
    (∀ a b : CItem, a.sort_text = " various" → ∀ (c : Char) (cs : List Char),
      b.sort_text.toList = c :: cs → (c.isAlpha = true ∨ c.isDigit = true) →
      CompareItems a b = true) := by
  refine ⟨?_, ?_, ?_⟩
  · intro signal parent s evs
    constructor
    · rw [CreateCompilationArtistNode, addChildT, getItem]
      simp
    · rw [CreateCompilationArtistNode, addChildT]
  · intro gb hgb item cs htl
    have hne : item.sort_text ≠ "" := by
      intro h
      rw [h] at htl
      exact absurd htl (by simp [String.toList])
    have hcase : gb = GroupBy.artist ∨ gb = GroupBy.albumArtist := by
      cases gb <;> simp [IsArtistGroupBy] at hgb <;> simp
    rcases hcase with rfl | rfl <;>
      · rw [DividerKey.eq_def, if_neg hne]
        simp only [htl]
        simp
  · intro a b ha c cs htl halpha
    have h32 : 32 < c.toNat := by
      rcases halpha with h | h
      · have := isAlpha_toNat c h
        omega
      · have := isDigit_toNat c h
        omega
    have hlt : ' ' < c := by
      show (' ').val < c.val
      exact h32
    show qstringLess a.sort_text b.sort_text = true
    rw [qstringLess, ha, htl]
    show charListLess (' ' :: "various".toList) (c :: cs) = true
    rw [charListLess, if_pos hlt]

/-- Witness for C10 at concrete inputs: the node created under the root of
the empty model, the artist grouping on the " various" sort text, and the
comparison against the sort texts "bach" and "5". -/
theorem c10_various_artists_witness :
    (getItem (CreateCompilationArtistNode true 0 initMState []).1
      (CreateCompilationArtistNode true 0 initMState []).2.2).sort_text = " various" ∧
    DividerKey GroupBy.albumArtist exItemVarious = "" ∧
    CompareItems exItemVarious { type := ItemType.container, sort_text := "bach" } = true ∧
    CompareItems exItemVarious exItemFive = true := by
  refine ⟨(c10_various_artists.1 true 0 initMState []).1,
    c10_various_artists.2.1 GroupBy.albumArtist rfl exItemVarious "various".toList rfl,
    c10_various_artists.2.2 exItemVarious _ rfl 'b' "ach".toList rfl (Or.inl (by decide)),
    c10_various_artists.2.2 exItemVarious exItemFive rfl '5' [] rfl (Or.inr (by decide))⟩

/-! ### Orphaned-divider evaluation (claim C3) -/

/-- C3 (the code evaluated at the failing input): with grouping
(Year, None, None) and dividers enabled, adding one song of year 1994 to
the empty model creates the container "1994" (node 1, whose sort text
becomes "1990 1994 " once the divider key is prepended), the divider
"1990" (node 2) and the song leaf (node 3).  Removing the same song
deletes the leaf and prunes the now-empty container, but the
divider-removal pass recomputes DividerKey from the container's mutated
sort text — "1990 1994 " no longer parses as a number, so the collected
key is "0000" rather than "1990" — and the divider "1990" survives as the
root's only child although no container references it and its table entry
remains, violating the claimed Add/Remove round trip of Container/Divider
nodes. -/
theorem c3_orphan_divider_eval :
    (AddSongs exCfgYear initMState [exSongYear]).1.divider_nodes "1990" = some 2 ∧
    (AddSongs exCfgYear initMState [exSongYear]).1.cns 0 = [("1994", 1)] ∧
    (getItem (AddSongs exCfgYear initMState [exSongYear]).1 1).sort_text = "1990 1994 " ∧
    DividerKey (exCfgYear.group_by 0)
      (getItem (AddSongs exCfgYear initMState [exSongYear]).1 1) = "0000" ∧
    (RemoveSongs exCfgYear (AddSongs exCfgYear initMState [exSongYear]).1
      [exSongYear]).1.cns 0 = [] ∧
    (RemoveSongs exCfgYear (AddSongs exCfgYear initMState [exSongYear]).1
      [exSongYear]).1.song_nodes exSongYear.id = Option.none ∧
    (RemoveSongs exCfgYear (AddSongs exCfgYear initMState [exSongYear]).1
      [exSongYear]).1.divider_nodes "1990" = some 2 ∧
    rootChildren (RemoveSongs exCfgYear (AddSongs exCfgYear initMState [exSongYear]).1
      [exSongYear]).1 = [2] ∧
    (getItem (RemoveSongs exCfgYear (AddSongs exCfgYear initMState [exSongYear]).1
      [exSongYear]).1 2).type = ItemType.divider := by
  refine ⟨by decide, by decide, by decide, by decide, by decide, by decide, by decide,
    by decide, by decide⟩

/-! ### Add-path preservation lemmas and idempotence (claim C2) -/

theorem createCompilation_preserves (signal : Bool) (parent : Nat) (s : MState) (evs : List Ev) :
    (CreateCompilationArtistNode signal parent s evs).1.songs = s.songs ∧
    (CreateCompilationArtistNode signal parent s evs).1.song_nodes = s.song_nodes :=
  ⟨rfl, rfl⟩

theorem finishItem_preserves (cfg : Config) (gb : GroupBy) (signal cd : Bool)
    (parent f : Nat) (s : MState) (evs : List Ev) :
    (FinishItem cfg gb signal cd parent f s evs).1.songs = s.songs ∧
    (FinishItem cfg gb signal cd parent f s evs).1.song_nodes = s.song_nodes := by
  refine ⟨?_, ?_⟩ <;>
  · simp only [FinishItem]
    repeat' split
    all_goals rfl

theorem itemFromSong_preserves (cfg : Config) (gb : GroupBy) (sep signal cd : Bool)
    (parent : Nat) (t : Song) (lvl : Int) (s : MState) (evs : List Ev) :
    (ItemFromSong cfg gb sep signal cd parent t lvl s evs).1.1.songs = s.songs ∧
    (ItemFromSong cfg gb sep signal cd parent t lvl s evs).1.1.song_nodes = s.song_nodes := by
  rw [ItemFromSong]
  exact finishItem_preserves cfg gb signal cd parent _ _ _

theorem addLevels_preserves (cfg : Config) (t : Song) (levels : List (Fin 3))
    (key : String) (container : Nat) (s : MState) (evs : List Ev) :
    (addLevels cfg t levels key container s evs).1.1.songs = s.songs ∧
    (addLevels cfg t levels key container s evs).1.1.song_nodes = s.song_nodes := by
  induction levels generalizing key container s evs with
  | nil => exact ⟨rfl, rfl⟩
  | cons i rest ih =>
    rw [addLevels]
    by_cases hnone : cfg.group_by i = GroupBy.none
    · rw [if_pos hnone]
      exact ⟨rfl, rfl⟩
    · rw [if_neg hnone]
      by_cases hva : (IsArtistGroupBy (cfg.group_by i) && t.compilation) = true
      · simp only [hva, if_pos]
        rcases hcv : (getItem s container).compilation_artist_node with _ | va
        · simp only
          obtain ⟨h1, h2⟩ := ih (getItem (CreateCompilationArtistNode true container s evs).1
              (CreateCompilationArtistNode true container s evs).2.2).key
            (CreateCompilationArtistNode true container s evs).2.2
            (CreateCompilationArtistNode true container s evs).1
            (CreateCompilationArtistNode true container s evs).2.1
          obtain ⟨hc1, hc2⟩ := createCompilation_preserves true container s evs
          exact ⟨h1.trans hc1, h2.trans hc2⟩
        · simp only
          exact ih _ va s evs
      · simp only [hva, Bool.false_eq_true, if_false]
        rcases hlk : alLookup (s.cns i)
            ((if key ≠ "" then key ++ "-" else key) ++
              ContainerKey (cfg.group_by i) cfg.separate_albums_by_grouping t) with _ | c
        · simp only
          obtain ⟨h1, h2⟩ := itemFromSong_preserves cfg (cfg.group_by i)
            cfg.separate_albums_by_grouping true (decide (i = (0 : Fin 3))) container t
            (i.val : Int) s evs
          constructor
          · exact (ih _ _ _ _).1.trans h1
          · exact (ih _ _ _ _).2.trans h2
        · simp only
          exact ih _ c s evs

theorem registerLeaf_songs (t : Song) (r2 : (MState × List Ev) × Nat) :
    (registerLeaf t r2).1.songs = r2.1.1.songs := rfl

theorem registerLeaf_song_nodes (t : Song) (r2 : (MState × List Ev) × Nat) (i : Int) :
    (registerLeaf t r2).1.song_nodes i =
      if i = t.id then some r2.2 else r2.1.1.song_nodes i := rfl

/-- One Add iteration: the stored-record table is updated by `writeSong`,
and the song-node table gains (at most) the processed song's id. -/
theorem addOneSong_components (cfg : Config) (s : MState) (evs : List Ev) (t : Song) :
    (addOneSong cfg (s, evs) t).1.songs = (writeSong s t).songs ∧
    (∀ i, (s.song_nodes i).isSome = true →
      ((addOneSong cfg (s, evs) t).1.song_nodes i).isSome = true) ∧
    (cfg.filter t = true → ((addOneSong cfg (s, evs) t).1.song_nodes t.id).isSome = true) := by
  refine ⟨?_, ?_, ?_⟩
  · simp only [addOneSong]
    split
    · rfl
    · split
      · rfl
      · simp only [registerLeaf_songs]
        exact ((itemFromSong_preserves _ _ _ _ _ _ _ _ _ _).1).trans
          (addLevels_preserves _ _ _ _ _ _ _).1
  · intro i hi
    simp only [addOneSong]
    split
    · exact hi
    · split
      · exact hi
      · simp only [registerLeaf_song_nodes]
        split
        · simp
        · rw [(itemFromSong_preserves _ _ _ _ _ _ _ _ _ _).2,
            (addLevels_preserves _ _ _ _ _ _ _).2]
          exact hi
  · intro hf
    simp only [addOneSong]
    split
    · next hcond =>
      rw [hf] at hcond
      exact absurd hcond (by decide)
    · split
      · next hcond => exact hcond
      · simp only [registerLeaf_song_nodes]
        simp

/-- The song-node table only grows along an Add fold. -/
theorem addSongs_fold_mono (cfg : Config) (L : List Song) :
    ∀ (s : MState) (evs : List Ev) (i : Int),
      (s.song_nodes i).isSome = true →
      ((L.foldl (addOneSong cfg) (s, evs)).1.song_nodes i).isSome = true := by
  induction L with
  | nil => intro s evs i h; exact h
  | cons u us ih =>
    intro s evs i h
    rw [List.foldl_cons]
    have heta : addOneSong cfg (s, evs) u =
        ((addOneSong cfg (s, evs) u).1, (addOneSong cfg (s, evs) u).2) := rfl
    rw [heta]
    exact ih _ _ i ((addOneSong_components cfg s evs u).2.1 i h)

/-- After AddSongs, every filter-matching song of the batch has a leaf. -/
theorem addSongs_all_some (cfg : Config) (L : List Song) (s : MState) (evs : List Ev) :
    ∀ t ∈ L, cfg.filter t = true →
      ((L.foldl (addOneSong cfg) (s, evs)).1.song_nodes t.id).isSome = true := by
  induction L generalizing s evs with
  | nil => intro t ht _; exact absurd ht (List.not_mem_nil t)
  | cons u us ih =>
    intro t ht hf
    rw [List.foldl_cons]
    have heta : addOneSong cfg (s, evs) u =
        ((addOneSong cfg (s, evs) u).1, (addOneSong cfg (s, evs) u).2) := rfl
    rw [heta]
    rcases List.mem_cons.mp ht with rfl | ht
    · exact addSongs_fold_mono cfg us _ _ t.id ((addOneSong_components cfg s evs t).2.2 hf)
    · exact ih _ _ t ht hf

/-- An Add over a batch whose matching songs all have leaves already only
rewrites the stored records. -/
theorem addSongs_all_present (cfg : Config) (L : List Song) :
    ∀ (s : MState) (evs : List Ev),
      (∀ t ∈ L, cfg.filter t = true → (s.song_nodes t.id).isSome = true) →
      L.foldl (addOneSong cfg) (s, evs) = (L.foldl writeSong s, evs) := by
  induction L with
  | nil => intro s evs _; rfl
  | cons u us ih =>
    intro s evs H
    rw [List.foldl_cons, List.foldl_cons]
    have hstep : addOneSong cfg (s, evs) u = (writeSong s u, evs) := by
      simp only [addOneSong]
      split
      · rfl
      · split
        · rfl
        · next hc1 hc2 =>
          exfalso
          apply hc2
          exact H u (List.mem_cons_self u us) (by simpa using hc1)
    rw [hstep]
    exact ih (writeSong s u) evs (fun t ht hf => H t (List.mem_cons_of_mem u ht) hf)

theorem foldl_writeSong_eq (L : List Song) :
    ∀ s : MState, L.foldl writeSong s = { s with songs := applyWrites s.songs L } := by
  induction L with
  | nil => intro s; rfl
  | cons t ts ih =>
    intro s
    rw [List.foldl_cons, ih (writeSong s t)]
    rfl

theorem applyWrites_eq_find (L : List Song) :
    ∀ (f : Int → Option Song) (i : Int),
      applyWrites f L i = ((L.reverse.find? (fun t => t.id == i)).elim (f i) some) := by
  induction L with
  | nil => intro f i; rfl
  | cons t ts ih =>
    intro f i
    have hfold : applyWrites f (t :: ts) i =
        applyWrites (fun j => if j = t.id then some t else f j) ts i := rfl
    rw [hfold, ih]
    rw [List.reverse_cons, List.find?_append]
    cases hft : ts.reverse.find? (fun u => u.id == i) with
    | some u => simp [hft]
    | none =>
      by_cases hie : i = t.id
      · simp [hft, hie]
      · have hne : (t.id == i) = false := by
          simp only [beq_eq_false_iff_ne, ne_eq]
          exact fun h => hie h.symm
        simp [hft, hne, hie]

theorem applyWrites_idem (f : Int → Option Song) (L : List Song) (i : Int) :
    applyWrites (applyWrites f L) L i = applyWrites f L i := by
  rw [applyWrites_eq_find, applyWrites_eq_find]
  cases hfind : L.reverse.find? (fun t => t.id == i) with
  | some u => rfl
  | none => rfl

theorem addSongs_songs (cfg : Config) (L : List Song) :
    ∀ (s : MState) (evs : List Ev),
      (L.foldl (addOneSong cfg) (s, evs)).1.songs = applyWrites s.songs L := by
  induction L with
  | nil => intro s evs; rfl
  | cons t ts ih =>
    intro s evs
    rw [List.foldl_cons]
    have heta : addOneSong cfg (s, evs) t =
        ((addOneSong cfg (s, evs) t).1, (addOneSong cfg (s, evs) t).2) := rfl
    rw [heta, ih]
    have hsongs := (addOneSong_components cfg s evs t).1
    have : applyWrites (addOneSong cfg (s, evs) t).1.songs ts =
        applyWrites (writeSong s t).songs ts := by rw [hsongs]
    rw [this]
    rfl

/-- C2: AddSongs is idempotent — applying the same batch twice produces
exactly the same model state (tree arena, allocation counter, stored
records and all lookup tables) as applying it once: the second run finds
every matching song's leaf already present and only rewrites the stored
records with the values they already have. -/
theorem c2_addSongs_idempotent (cfg : Config) (s : MState) (L : List Song) :
    (AddSongs cfg (AddSongs cfg s L).1 L).1 = (AddSongs cfg s L).1 := by
  have H := addSongs_all_some cfg L s []
  show ((L.foldl (addOneSong cfg) ((L.foldl (addOneSong cfg) (s, [])).1, []))).1 =
    (L.foldl (addOneSong cfg) (s, [])).1
  rw [addSongs_all_present cfg L (L.foldl (addOneSong cfg) (s, [])).1 []
    (fun t ht hf => H t ht hf)]
  show L.foldl writeSong (L.foldl (addOneSong cfg) (s, [])).1 =
    (L.foldl (addOneSong cfg) (s, [])).1
  rw [foldl_writeSong_eq]
  have hsongs := addSongs_songs cfg L s []
  refine MState.ext rfl rfl ?_ rfl rfl rfl
  show applyWrites (L.foldl (addOneSong cfg) (s, [])).1.songs L =
    (L.foldl (addOneSong cfg) (s, [])).1.songs
  funext i
  rw [hsongs]
  exact applyWrites_idem s.songs L i

/-! ### Untracked-song lemmas (claim C9) -/

theorem agreeExcept_refl (a : MState) (j : Int) : AgreeExcept a a j :=
  ⟨rfl, rfl, rfl, rfl, rfl, fun _ _ => rfl⟩

theorem wsp_songs (s : MState) (t : Song) (i : Int) :
    (writeSongIfPresent s t).songs i =
      if i = t.id ∧ (s.songs t.id).isSome = true then some t else s.songs i := by
  rw [writeSongIfPresent]
  split
  · next hp =>
    by_cases hi : i = t.id
    · rw [if_pos ⟨hi, hp⟩]
      show (if i = t.id then some t else s.songs i) = some t
      rw [if_pos hi]
    · rw [if_neg (fun hc => hi hc.1)]
      show (if i = t.id then some t else s.songs i) = s.songs i
      rw [if_neg hi]
  · next hp =>
    rw [if_neg (fun hc => hp hc.2)]

/-- The conditional record write preserves state agreement off `j`. -/
theorem wsp_agree (a b : MState) (j : Int) (t : Song) (h : AgreeExcept a b j) :
    AgreeExcept (writeSongIfPresent a t) (writeSongIfPresent b t) j := by
  obtain ⟨hn, hx, hs, hc, hd, hsongs⟩ := h
  refine ⟨by rw [writeSongIfPresent_nodes, writeSongIfPresent_nodes, hn],
    by rw [writeSongIfPresent_next, writeSongIfPresent_next, hx],
    by rw [writeSongIfPresent_song_nodes, writeSongIfPresent_song_nodes, hs],
    by rw [writeSongIfPresent_cns, writeSongIfPresent_cns, hc],
    by rw [writeSongIfPresent_divider_nodes, writeSongIfPresent_divider_nodes, hd],
    fun i hij => ?_⟩
  rw [wsp_songs, wsp_songs]
  by_cases htj : t.id = j
  · rw [if_neg (fun hc => hij (hc.1.trans htj)), if_neg (fun hc => hij (hc.1.trans htj))]
    exact hsongs i hij
  · rw [show (a.songs t.id).isSome = (b.songs t.id).isSome from by rw [hsongs t.id htj]]
    by_cases hcnd : i = t.id ∧ (b.songs t.id).isSome = true
    · rw [if_pos hcnd, if_pos hcnd]
    · rw [if_neg hcnd, if_neg hcnd]
      exact hsongs i hij

/-- One Update iteration started from two states agreeing off `j`
produces equal events, an equal stop flag and states agreeing off
`j`. -/
theorem updOneSong_agree (a b : MState) (j : Int) (evs : List Ev) (stop : Bool)
    (t : Song) (h : AgreeExcept a b j) :
    (updOneSong (a, evs, stop) t).2 = (updOneSong (b, evs, stop) t).2 ∧
    AgreeExcept (updOneSong (a, evs, stop) t).1 (updOneSong (b, evs, stop) t).1 j := by
  obtain hw := wsp_agree a b j t h
  cases stop with
  | true => exact ⟨rfl, h⟩
  | false =>
    obtain ⟨hn, hx, hs, hc, hd, hsongs⟩ := h
    rw [updOneSong, updOneSong]
    simp only [Bool.false_eq_true, if_false]
    rw [writeSongIfPresent_song_nodes, writeSongIfPresent_song_nodes, ← hs]
    rcases hsn : a.song_nodes t.id with _ | nid
    · exact ⟨rfl, hw⟩
    · dsimp only
      have hitem : getItem (writeSongIfPresent b t) nid = getItem (writeSongIfPresent a t) nid := by
        rw [getItem, getItem, writeSongIfPresent_nodes, writeSongIfPresent_nodes, hn]
      rw [hitem]
      have hupd : AgreeExcept
          (updNode (writeSongIfPresent a t) nid (fun it => { it with metadata := t }))
          (updNode (writeSongIfPresent b t) nid (fun it => { it with metadata := t })) j := by
        obtain ⟨wn, wx, ws, wc, wd, wsongs⟩ := hw
        refine ⟨?_, by rw [updNode_next, updNode_next, wx],
          by rw [updNode_song_nodes, updNode_song_nodes, ws],
          by rw [updNode_cns, updNode_cns, wc],
          by rw [updNode_divider_nodes, updNode_divider_nodes, wd],
          fun i hij => by rw [updNode_songs, updNode_songs]; exact wsongs i hij⟩
        funext n
        show (if n = nid then ((writeSongIfPresent a t).nodes nid).map _ else
            (writeSongIfPresent a t).nodes n) =
          (if n = nid then ((writeSongIfPresent b t).nodes nid).map _ else
            (writeSongIfPresent b t).nodes n)
        rw [wn]
      split
      · split
        · exact ⟨rfl, hupd⟩
        · exact ⟨rfl, hupd⟩
      · exact ⟨rfl, hupd⟩

/-- The Update fold preserves agreement off `j` and produces identical
events and stop flags. -/
theorem updFold_agree (L : List Song) :
    ∀ (a b : MState) (j : Int) (evs : List Ev) (stop : Bool), AgreeExcept a b j →
      (L.foldl updOneSong (a, evs, stop)).2 = (L.foldl updOneSong (b, evs, stop)).2 ∧
      AgreeExcept (L.foldl updOneSong (a, evs, stop)).1 (L.foldl updOneSong (b, evs, stop)).1 j := by
  induction L with
  | nil => intro a b j evs stop h; exact ⟨rfl, h⟩
  | cons t ts ih =>
    intro a b j evs stop h
    rw [List.foldl_cons, List.foldl_cons]
    obtain ⟨hev, hst⟩ := updOneSong_agree a b j evs stop t h
    have heta1 : updOneSong (a, evs, stop) t =
        ((updOneSong (a, evs, stop) t).1, (updOneSong (a, evs, stop) t).2.1,
          (updOneSong (a, evs, stop) t).2.2) := rfl
    have heta2 : updOneSong (b, evs, stop) t =
        ((updOneSong (b, evs, stop) t).1, (updOneSong (b, evs, stop) t).2.1,
          (updOneSong (b, evs, stop) t).2.2) := rfl
    rw [heta1, heta2, show (updOneSong (b, evs, stop) t).2.1 = (updOneSong (a, evs, stop) t).2.1
        from by rw [hev],
      show (updOneSong (b, evs, stop) t).2.2 = (updOneSong (a, evs, stop) t).2.2
        from by rw [hev]]
    exact ih _ _ j _ _ hst

/-- Agreement off one identifier for the RemoveSongs intermediate state:
the model states agree off the identifier and the candidate set, the
collected divider keys and the emitted events coincide. -/
def RmAgree (x y : RmSt) (j : Int) : Prop :=
  AgreeExcept x.s y.s j ∧ x.parents = y.parents ∧ x.dkeys = y.dkeys ∧ x.evs = y.evs

theorem getItem_fun_congr (a b : MState) (h : a.nodes = b.nodes) :
    getItem a = getItem b :=
  funext fun n => getItem_congr a b h n

theorem rowOf_congr (a b : MState) (h : a.nodes = b.nodes) (nid : Nat) :
    rowOf a nid = rowOf b nid := by
  rw [rowOf, rowOf, getItem_fun_congr a b h]

theorem updNode_nodes_congr (a b : MState) (h : a.nodes = b.nodes) (nid : Nat)
    (g : CItem → CItem) : (updNode a nid g).nodes = (updNode b nid g).nodes := by
  funext n
  show (if n = nid then (a.nodes nid).map g else a.nodes n) =
    (if n = nid then (b.nodes nid).map g else b.nodes n)
  rw [h]

theorem updNode_agree (a b : MState) (j : Int) (nid : Nat) (g : CItem → CItem)
    (h : AgreeExcept a b j) : AgreeExcept (updNode a nid g) (updNode b nid g) j := by
  obtain ⟨hn, hx, hs, hc, hd, hsongs⟩ := h
  exact ⟨updNode_nodes_congr a b hn nid g, by rw [updNode_next, updNode_next, hx],
    by rw [updNode_song_nodes, updNode_song_nodes, hs],
    by rw [updNode_cns, updNode_cns, hc],
    by rw [updNode_divider_nodes, updNode_divider_nodes, hd],
    fun i hij => by rw [updNode_songs, updNode_songs]; exact hsongs i hij⟩

theorem deleteNode_nodes_congr (a b : MState) (h : a.nodes = b.nodes) (nid : Nat) :
    (deleteNode a nid).nodes = (deleteNode b nid).nodes := by
  funext n
  show (if n = nid then Option.none else
      (updNode a (getItem a nid).parent
        (fun it => { it with children := it.children.erase nid })).nodes n) =
    (if n = nid then Option.none else
      (updNode b (getItem b nid).parent
        (fun it => { it with children := it.children.erase nid })).nodes n)
  rw [getItem_congr a b h nid, updNode_nodes_congr a b h]

theorem deleteNode_agree (a b : MState) (j : Int) (nid : Nat) (h : AgreeExcept a b j) :
    AgreeExcept (deleteNode a nid) (deleteNode b nid) j := by
  obtain ⟨hn, hx, hs, hc, hd, hsongs⟩ := h
  exact ⟨deleteNode_nodes_congr a b hn nid, hx, hs, hc, hd, hsongs⟩

/-- The conditional record write changes nothing but (possibly) the stored
record at the written identifier. -/
theorem wsp_self_agree (s : MState) (t : Song) :
    AgreeExcept (writeSongIfPresent s t) s t.id := by
  refine ⟨writeSongIfPresent_nodes s t, writeSongIfPresent_next s t,
    writeSongIfPresent_song_nodes s t, writeSongIfPresent_cns s t,
    writeSongIfPresent_divider_nodes s t, fun i hij => ?_⟩
  rw [wsp_songs]
  rw [if_neg (fun hc => hij hc.1)]

/-- A removal iteration for a song with no leaf only (conditionally)
refreshes the stored record. -/
theorem rmOneSong_skip (st : RmSt) (t : Song) (h : st.s.song_nodes t.id = Option.none) :
    rmOneSong st t = { st with s := writeSongIfPresent st.s t } := by
  simp only [rmOneSong, writeSongIfPresent_song_nodes, h]

/-- A removal iteration never adds a song-node table entry. -/
theorem rmOneSong_song_nodes_none (st : RmSt) (t : Song) (i : Int)
    (h : st.s.song_nodes i = Option.none) :
    (rmOneSong st t).s.song_nodes i = Option.none := by
  simp only [rmOneSong, writeSongIfPresent_song_nodes]
  rcases hsn : st.s.song_nodes t.id with _ | nid
  · rw [writeSongIfPresent_song_nodes]
    exact h
  · dsimp only
    show (if i = t.id then Option.none else
      (deleteNode (writeSongIfPresent st.s t) nid).song_nodes i) = Option.none
    split
    · rfl
    · show (writeSongIfPresent st.s t).song_nodes i = Option.none
      rw [writeSongIfPresent_song_nodes]
      exact h

theorem rmFold_song_nodes_none (L : List Song) :
    ∀ (st : RmSt) (i : Int), st.s.song_nodes i = Option.none →
      ((L.foldl rmOneSong st).s.song_nodes i = Option.none) := by
  induction L with
  | nil => intro st i h; exact h
  | cons t ts ih =>
    intro st i h
    rw [List.foldl_cons]
    exact ih _ i (rmOneSong_song_nodes_none st t i h)

/-- One removal iteration started from two states agreeing off `j`
produces agreeing states and the same bookkeeping. -/
theorem rmOneSong_agree (x y : RmSt) (j : Int) (t : Song) (h : RmAgree x y j) :
    RmAgree (rmOneSong x t) (rmOneSong y t) j := by
  obtain ⟨ha, hp, hk, he⟩ := h
  obtain hw := wsp_agree x.s y.s j t ha
  obtain ⟨hn, hx, hs, hc, hd, hsongs⟩ := ha
  simp only [rmOneSong, writeSongIfPresent_song_nodes]
  rw [← hs]
  rcases hsn : x.s.song_nodes t.id with _ | nid
  · exact ⟨hw, hp, hk, he⟩
  · dsimp only
    have hgi : getItem (writeSongIfPresent y.s t) = getItem (writeSongIfPresent x.s t) :=
      getItem_fun_congr _ _ (by
        rw [writeSongIfPresent_nodes, writeSongIfPresent_nodes, hn])
    have hrow : rowOf (writeSongIfPresent y.s t) nid = rowOf (writeSongIfPresent x.s t) nid :=
      rowOf_congr _ _ (by rw [writeSongIfPresent_nodes, writeSongIfPresent_nodes, hn]) nid
    rw [hgi, hrow, ← hp, ← hk, ← he]
    refine ⟨?_, rfl, rfl, rfl⟩
    obtain ⟨dn, dx, ds, dc, dd, dsongs⟩ := deleteNode_agree _ _ j nid hw
    refine ⟨dn, dx, ?_, dc, dd, dsongs⟩
    funext i
    show (if i = t.id then Option.none else
        (deleteNode (writeSongIfPresent x.s t) nid).song_nodes i) =
      (if i = t.id then Option.none else
        (deleteNode (writeSongIfPresent y.s t) nid).song_nodes i)
    rw [ds]

theorem rmFold_agree (L : List Song) :
    ∀ (x y : RmSt) (j : Int), RmAgree x y j →
      RmAgree (L.foldl rmOneSong x) (L.foldl rmOneSong y) j := by
  induction L with
  | nil => intro x y j h; exact h
  | cons t ts ih =>
    intro x y j h
    rw [List.foldl_cons, List.foldl_cons]
    exact ih _ _ j (rmOneSong_agree x y j t h)

theorem setCns_agree (a b : MState) (j : Int) (E : Fin 3 → List (String × Nat))
    (h : AgreeExcept a b j) : AgreeExcept { a with cns := E } { b with cns := E } j := by
  obtain ⟨hn, hx, hs, hc, hd, hsongs⟩ := h
  exact ⟨hn, hx, hs, rfl, hd, hsongs⟩

/-- The three-way table-maintenance step of one pruning iteration (the
compilation back-link reset, the level-table erase, or no table change),
abstracted over the already-evaluated conditions. -/
@[reducible] def pruneChain (a : MState) (c1 c2 c3 : Prop) [Decidable c1] [Decidable c2]
    [Decidable c3] (p : Nat) (g : CItem → CItem) (E : Fin 3 → List (String × Nat)) : MState :=
  if c1 then updNode a p g else if c2 then (if c3 then { a with cns := E } else a) else a

theorem pruneChain_agree (a b : MState) (j : Int) (c1 c2 c3 : Prop) [Decidable c1]
    [Decidable c2] [Decidable c3] (p : Nat) (g : CItem → CItem)
    (E : Fin 3 → List (String × Nat)) (h : AgreeExcept a b j) :
    AgreeExcept (pruneChain a c1 c2 c3 p g E) (pruneChain b c1 c2 c3 p g E) j := by
  rw [pruneChain, pruneChain]
  split
  · exact updNode_agree a b j p g h
  · split
    · split
      · exact setCns_agree a b j E h
      · exact h
    · exact h

theorem pruneTail_agree (a b : MState) (j : Int) (nid : Nat) (c1 c2 c3 : Prop)
    [Decidable c1] [Decidable c2] [Decidable c3] (p : Nat) (g : CItem → CItem)
    (E : Fin 3 → List (String × Nat)) (P : List Nat) (K : List String) (Evs : List Ev)
    (pp : Nat) (h : AgreeExcept a b j) :
    RmAgree
      ⟨deleteNode (pruneChain a c1 c2 c3 p g E) nid, P, K,
        (Evs ++ [Ev.beginRemoveRows pp (rowOf (pruneChain a c1 c2 c3 p g E) nid)
          (rowOf (pruneChain a c1 c2 c3 p g E) nid)]) ++ [Ev.endRemoveRows]⟩
      ⟨deleteNode (pruneChain b c1 c2 c3 p g E) nid, P, K,
        (Evs ++ [Ev.beginRemoveRows pp (rowOf (pruneChain b c1 c2 c3 p g E) nid)
          (rowOf (pruneChain b c1 c2 c3 p g E) nid)]) ++ [Ev.endRemoveRows]⟩ j := by
  obtain hch := pruneChain_agree a b j c1 c2 c3 p g E h
  obtain hrow := rowOf_congr (pruneChain a c1 c2 c3 p g E) (pruneChain b c1 c2 c3 p g E)
    hch.1 nid
  exact ⟨deleteNode_agree _ _ j nid hch, rfl, rfl, by rw [hrow]⟩

/-- One pruning iteration started from two states agreeing off `j`
produces agreeing states and the same bookkeeping. -/
theorem pruneOne_agree (cfg : Config) (x y : RmSt) (j : Int) (nid : Nat)
    (h : RmAgree x y j) : RmAgree (pruneOne cfg x nid) (pruneOne cfg y nid) j := by
  obtain ⟨ha, hp, hk, he⟩ := h
  obtain hn := ha.1
  obtain hc := ha.2.2.2.1
  obtain hgi := getItem_fun_congr y.s x.s hn.symm
  simp only [pruneOne]
  rw [hgi, ← hp, ← hk, ← he, ← hc]
  split
  · exact ⟨ha, rfl, rfl, rfl⟩
  · exact pruneTail_agree x.s y.s j nid _ _ _ _ _ _ _ _ _ _ ha

theorem pruneFold_agree (cfg : Config) (l : List Nat) :
    ∀ (x y : RmSt) (j : Int), RmAgree x y j →
      RmAgree (l.foldl (pruneOne cfg) x) (l.foldl (pruneOne cfg) y) j := by
  induction l with
  | nil => intro x y j h; exact h
  | cons n ns ih =>
    intro x y j h
    rw [List.foldl_cons, List.foldl_cons]
    exact ih _ _ j (pruneOne_agree cfg x y j n h)

theorem pruneRound_agree (cfg : Config) (x y : RmSt) (j : Int) (h : RmAgree x y j) :
    RmAgree (pruneRound cfg x) (pruneRound cfg y) j := by
  obtain hp := h.2.1
  rw [pruneRound, pruneRound, ← hp]
  exact pruneFold_agree cfg x.parents x y j h

theorem pruneLoop_agree (cfg : Config) (fuel : Nat) :
    ∀ (x y : RmSt) (j : Int), RmAgree x y j →
      RmAgree (pruneLoop cfg fuel x) (pruneLoop cfg fuel y) j := by
  induction fuel with
  | zero => intro x y j h; exact h
  | succ n ih =>
    intro x y j h
    obtain hp := h.2.1
    rw [pruneLoop, pruneLoop]
    by_cases hnil : x.parents = []
    · rw [if_pos hnil, if_pos (by rw [← hp]; exact hnil)]
      exact h
    · rw [if_neg hnil, if_neg (by rw [← hp]; exact hnil)]
      exact ih _ _ j (pruneRound_agree cfg x y j h)

/-- One orphaned-divider pass started from two states agreeing off `j`
produces agreeing states and the same events. -/
theorem rmDividerKey_agree (cfg : Config) (p q : MState × List Ev) (j : Int) (dk : String)
    (h : AgreeExcept p.1 q.1 j ∧ p.2 = q.2) :
    AgreeExcept (rmDividerKey cfg p dk).1 (rmDividerKey cfg q dk).1 j ∧
      (rmDividerKey cfg p dk).2 = (rmDividerKey cfg q dk).2 := by
  obtain ⟨ha, he⟩ := h
  obtain hn := ha.1
  obtain hc := ha.2.2.2.1
  obtain hd := ha.2.2.2.2.1
  simp only [rmDividerKey]
  rw [← hd, ← hc, ← he, getItem_fun_congr q.1 p.1 hn.symm]
  rcases hdk : p.1.divider_nodes dk with _ | d
  · exact ⟨ha, he⟩
  · dsimp only
    split
    · exact ⟨ha, he⟩
    · obtain hrow := rowOf_congr p.1 q.1 hn d
      rw [← hrow]
      obtain ⟨dn, dx, ds, dc, dd, dsongs⟩ := deleteNode_agree p.1 q.1 j d ha
      refine ⟨⟨dn, dx, ds, dc, ?_, dsongs⟩, rfl⟩
      funext k
      show (if k = dk then Option.none else (deleteNode p.1 d).divider_nodes k) =
        (if k = dk then Option.none else (deleteNode q.1 d).divider_nodes k)
      rw [dd]

theorem rmdkFold_agree (cfg : Config) (ks : List String) :
    ∀ (p q : MState × List Ev) (j : Int), AgreeExcept p.1 q.1 j ∧ p.2 = q.2 →
      AgreeExcept (ks.foldl (rmDividerKey cfg) p).1 (ks.foldl (rmDividerKey cfg) q).1 j ∧
        (ks.foldl (rmDividerKey cfg) p).2 = (ks.foldl (rmDividerKey cfg) q).2 := by
  induction ks with
  | nil => intro p q j h; exact h
  | cons k ks ih =>
    intro p q j h
    rw [List.foldl_cons, List.foldl_cons]
    exact ih _ _ j (rmDividerKey_agree cfg p q j k h)

/-- An update iteration for a song with no leaf only (conditionally)
refreshes the stored record: no events, no stop. -/
theorem updOneSong_skip (st : MState × List Ev × Bool) (t : Song)
    (hstop : st.2.2 = false) (h : st.1.song_nodes t.id = Option.none) :
    updOneSong st t = (writeSongIfPresent st.1 t, st.2.1, false) := by
  rw [updOneSong, if_neg (by rw [hstop]; exact Bool.false_ne_true)]
  simp only [writeSongIfPresent_song_nodes, h]

/-- UpdateSongs on a batch containing an untracked song emits the same
events as the batch without it and leaves a state differing at most in
the stored record at the untracked identifier. -/
theorem updateSongs_untracked (s : MState) (u : Song) (L1 L2 : List Song)
    (h : s.song_nodes u.id = Option.none) :
    (UpdateSongs s (L1 ++ u :: L2)).2 = (UpdateSongs s (L1 ++ L2)).2 ∧
    AgreeExcept (UpdateSongs s (L1 ++ u :: L2)).1 (UpdateSongs s (L1 ++ L2)).1 u.id := by
  simp only [UpdateSongs, List.foldl_append, List.foldl_cons]
  obtain hshape := updateSongs_fold_shape L1 s [] false
  have hsn : (L1.foldl updOneSong (s, [], false)).1.song_nodes u.id = Option.none := by
    rw [hshape.2.2.1]; exact h
  cases hstop : (L1.foldl updOneSong (s, [], false)).2.2 with
  | true =>
    have hA : updOneSong (L1.foldl updOneSong (s, [], false)) u =
        L1.foldl updOneSong (s, [], false) := by
      rw [updOneSong, if_pos hstop]
    rw [hA]
    exact ⟨rfl, agreeExcept_refl _ _⟩
  | false =>
    rw [updOneSong_skip _ u hstop hsn]
    have heta : (L1.foldl updOneSong (s, [], false)) =
        ((L1.foldl updOneSong (s, [], false)).1, (L1.foldl updOneSong (s, [], false)).2.1,
          (L1.foldl updOneSong (s, [], false)).2.2) := rfl
    rw [heta, hstop]
    obtain hfa := updFold_agree L2 (writeSongIfPresent (L1.foldl updOneSong (s, [], false)).1 u)
      (L1.foldl updOneSong (s, [], false)).1 u.id
      (L1.foldl updOneSong (s, [], false)).2.1 false
      (wsp_self_agree (L1.foldl updOneSong (s, [], false)).1 u)
    exact ⟨congrArg Prod.fst hfa.1, hfa.2⟩

/-- RemoveSongs on a batch containing an untracked song emits the same
events as the batch without it and leaves a state differing at most in
the stored record at the untracked identifier. -/
theorem removeSongs_untracked (cfg : Config) (s : MState) (u : Song) (L1 L2 : List Song)
    (h : s.song_nodes u.id = Option.none) :
    (RemoveSongs cfg s (L1 ++ u :: L2)).2 = (RemoveSongs cfg s (L1 ++ L2)).2 ∧
    AgreeExcept (RemoveSongs cfg s (L1 ++ u :: L2)).1 (RemoveSongs cfg s (L1 ++ L2)).1 u.id := by
  have hA : (L1.foldl rmOneSong ⟨s, [], [], []⟩).s.song_nodes u.id = Option.none :=
    rmFold_song_nodes_none L1 ⟨s, [], [], []⟩ u.id h
  have h2 : RmAgree (L2.foldl rmOneSong (rmOneSong (L1.foldl rmOneSong ⟨s, [], [], []⟩) u))
      (L2.foldl rmOneSong (L1.foldl rmOneSong ⟨s, [], [], []⟩)) u.id := by
    refine rmFold_agree L2 _ _ u.id ?_
    rw [rmOneSong_skip _ u hA]
    exact ⟨wsp_self_agree _ u, rfl, rfl, rfl⟩
  simp only [RemoveSongs, List.foldl_append, List.foldl_cons]
  set X := L2.foldl rmOneSong (rmOneSong (L1.foldl rmOneSong ⟨s, [], [], []⟩) u) with hX
  set Y := L2.foldl rmOneSong (L1.foldl rmOneSong ⟨s, [], [], []⟩) with hY
  obtain hnext := h2.1.2.1
  rw [← hnext]
  obtain ⟨ha3, hp3, hk3, he3⟩ := pruneLoop_agree cfg (X.s.next + 1) X Y u.id h2
  rw [← hk3, ← he3]
  obtain h4 := rmdkFold_agree cfg (pruneLoop cfg (X.s.next + 1) X).dkeys
    ((pruneLoop cfg (X.s.next + 1) X).s, (pruneLoop cfg (X.s.next + 1) X).evs)
    ((pruneLoop cfg (X.s.next + 1) Y).s, (pruneLoop cfg (X.s.next + 1) X).evs)
    u.id ⟨ha3, rfl⟩
  exact ⟨h4.2, h4.1⟩

/-- C9: for every batch passed to Update or Remove containing a song whose
identifier has no Song-leaf in the song-node index, that song's processing
is skipped and processing of the remaining songs in the batch continues
unchanged: the emitted events equal those of the same batch without the
untracked song, and the resulting model states agree on the tree, the
allocation counter and every lookup table, differing at most in the stored
record at the untracked identifier (both paths conditionally refresh the
stored record before the index check). -/
theorem c9_untracked_song_skipped (cfg : Config) (s : MState) (u : Song)
    (L1 L2 : List Song) (h : s.song_nodes u.id = Option.none) :
    ((UpdateSongs s (L1 ++ u :: L2)).2 = (UpdateSongs s (L1 ++ L2)).2 ∧
      AgreeExcept (UpdateSongs s (L1 ++ u :: L2)).1 (UpdateSongs s (L1 ++ L2)).1 u.id) ∧
    ((RemoveSongs cfg s (L1 ++ u :: L2)).2 = (RemoveSongs cfg s (L1 ++ L2)).2 ∧
      AgreeExcept (RemoveSongs cfg s (L1 ++ u :: L2)).1
        (RemoveSongs cfg s (L1 ++ L2)).1 u.id) :=
  ⟨updateSongs_untracked s u L1 L2 h, removeSongs_untracked cfg s u L1 L2 h⟩

/-- Concrete instance of the C9 theorem: a model holding one tracked song,
a batch of the untracked song followed by a tracked update. -/
theorem c9_untracked_song_skipped_witness :
    exStateRated.song_nodes exSongUntracked.id = Option.none ∧
    (((UpdateSongs exStateRated ([] ++ exSongUntracked :: [exSongRerated])).2 =
        (UpdateSongs exStateRated ([] ++ [exSongRerated])).2 ∧
      AgreeExcept (UpdateSongs exStateRated ([] ++ exSongUntracked :: [exSongRerated])).1
        (UpdateSongs exStateRated ([] ++ [exSongRerated])).1 exSongUntracked.id) ∧
    ((RemoveSongs exCfgArtist exStateRated ([] ++ exSongUntracked :: [exSongRerated])).2 =
        (RemoveSongs exCfgArtist exStateRated ([] ++ [exSongRerated])).2 ∧
      AgreeExcept
        (RemoveSongs exCfgArtist exStateRated ([] ++ exSongUntracked :: [exSongRerated])).1
        (RemoveSongs exCfgArtist exStateRated ([] ++ [exSongRerated])).1 exSongUntracked.id)) :=
  ⟨by decide, c9_untracked_song_skipped exCfgArtist exStateRated exSongUntracked []
    [exSongRerated] (by decide)⟩

/-! ### Structural well-formedness of the arena (claim C1) -/

/-- Structural well-formedness of an arena state, maintained by the Add
path: the root exists at id 0 with the root type, every node id is below
the allocation counter, children have strictly larger ids, exist and point
back to their parent, children lists are duplicate-free, every non-root
node is listed among its (smaller-id) parent's children, the root type
occurs only at id 0, non-container non-root nodes are childless, and the
compilation links and the level tables reference existing containers. -/
structure WF (s : MState) : Prop where
  root_zero : ∃ rit, s.nodes 0 = some rit ∧ rit.type = ItemType.root
  fresh : ∀ n, s.next ≤ n → s.nodes n = Option.none
  lt_next : ∀ n it, s.nodes n = some it → n < s.next
  child_gt : ∀ n it, s.nodes n = some it → ∀ c ∈ it.children, n < c
  child_attached : ∀ n it, s.nodes n = some it → ∀ c ∈ it.children,
    ∃ cit, s.nodes c = some cit ∧ cit.parent = n
  child_nodup : ∀ n it, s.nodes n = some it → it.children.Nodup
  parent_mem : ∀ n it, s.nodes n = some it → n ≠ 0 → it.parent < n ∧
    ∃ pit, s.nodes it.parent = some pit ∧ n ∈ pit.children
  root_only : ∀ n it, s.nodes n = some it → it.type = ItemType.root → n = 0
  childless : ∀ n it, s.nodes n = some it → it.type ≠ ItemType.container →
    it.type ≠ ItemType.root → it.children = []
  comp_link : ∀ n it, s.nodes n = some it → ∀ v, it.compilation_artist_node = some v →
    ∃ vit, s.nodes v = some vit ∧ vit.type = ItemType.container
  cns_link : ∀ (i : Fin 3) (k : String) (c : Nat), alLookup (s.cns i) k = some c →
    ∃ cit, s.nodes c = some cit ∧ cit.type = ItemType.container

theorem getItem_eq (s : MState) (n : Nat) (it : CItem) (h : s.nodes n = some it) :
    getItem s n = it := by
  rw [getItem, h]
  rfl

/-- The property bundle of an ancestor chain: every element is a
smaller-or-equal existing node, the start and the root belong to it, it is
parent-closed, every element but the start has a chain element as a child,
and distinct nonzero elements have distinct parents. -/
theorem chainAux_props (s : MState) (wf : WF s) :
    ∀ fuel nid, (s.nodes nid).isSome = true → nid < fuel →
      (∀ x ∈ chainAux s fuel nid, x ≤ nid ∧ (s.nodes x).isSome = true) ∧
      nid ∈ chainAux s fuel nid ∧
      0 ∈ chainAux s fuel nid ∧
      (∀ x ∈ chainAux s fuel nid, x ≠ 0 → (getItem s x).parent ∈ chainAux s fuel nid) ∧
      (∀ x ∈ chainAux s fuel nid, x ≠ nid →
        ∃ d, d ∈ chainAux s fuel nid ∧ d ≠ 0 ∧ (getItem s d).parent = x) ∧
      (∀ d1 d2, d1 ∈ chainAux s fuel nid → d2 ∈ chainAux s fuel nid → d1 ≠ 0 → d2 ≠ 0 →
        (getItem s d1).parent = (getItem s d2).parent → d1 = d2) := by
  intro fuel
  induction fuel with
  | zero => intro nid hsome hlt; omega
  | succ fuel ih =>
    intro nid hsome hlt
    obtain ⟨nit, hnit⟩ := Option.isSome_iff_exists.mp hsome
    by_cases h0 : nid = 0
    · subst h0
      rw [chainAux, if_pos rfl]
      refine ⟨fun x hx => ?_, List.mem_singleton.mpr rfl, List.mem_singleton.mpr rfl,
        fun x hx hx0 => absurd (List.mem_singleton.mp hx) hx0,
        fun x hx hxn => absurd (List.mem_singleton.mp hx) hxn,
        fun d1 d2 hd1 hd2 h10 h20 _ => absurd (List.mem_singleton.mp hd1) h10⟩
      rw [List.mem_singleton.mp hx]
      exact ⟨Nat.le_refl 0, hsome⟩
    · obtain ⟨hplt, pit, hpit, hpmem⟩ := wf.parent_mem nid nit hnit h0
      have hgi : getItem s nid = nit := getItem_eq s nid nit hnit
      have hpsome : (s.nodes nit.parent).isSome = true := by rw [hpit]; rfl
      obtain ⟨Ta, Tb, Tc, Td, Te, Tf⟩ := ih nit.parent hpsome (by omega)
      rw [chainAux, if_neg h0, hgi]
      refine ⟨?_, List.mem_cons_self _ _, List.mem_cons_of_mem _ Tc, ?_, ?_, ?_⟩
      · intro x hx
        rcases List.mem_cons.mp hx with hx | hx
        · rw [hx]; exact ⟨Nat.le_refl nid, hsome⟩
        · obtain ⟨hle, hs⟩ := Ta x hx
          exact ⟨by omega, hs⟩
      · intro x hx hx0
        rcases List.mem_cons.mp hx with hx | hx
        · rw [hx, hgi]
          exact List.mem_cons_of_mem _ Tb
        · exact List.mem_cons_of_mem _ (Td x hx hx0)
      · intro x hx hxn
        rcases List.mem_cons.mp hx with hx | hx
        · exact absurd hx hxn
        · by_cases hxp : x = nit.parent
          · exact ⟨nid, List.mem_cons_self _ _, h0, by rw [hgi, hxp]⟩
          · obtain ⟨d, hd, hd0, hdp⟩ := Te x hx hxp
            exact ⟨d, List.mem_cons_of_mem _ hd, hd0, hdp⟩
      · intro d1 d2 hd1 hd2 h10 h20 hpp
        rcases List.mem_cons.mp hd1 with hd1 | hd1 <;> rcases List.mem_cons.mp hd2 with hd2 | hd2
        · rw [hd1, hd2]
        · exfalso
          obtain ⟨hle2, hs2⟩ := Ta d2 hd2
          obtain ⟨d2it, hd2it⟩ := Option.isSome_iff_exists.mp hs2
          obtain ⟨hplt2, _⟩ := wf.parent_mem d2 d2it hd2it h20
          rw [hd1, hgi] at hpp
          rw [getItem_eq s d2 d2it hd2it] at hpp
          omega
        · exfalso
          obtain ⟨hle1, hs1⟩ := Ta d1 hd1
          obtain ⟨d1it, hd1it⟩ := Option.isSome_iff_exists.mp hs1
          obtain ⟨hplt1, _⟩ := wf.parent_mem d1 d1it hd1it h10
          rw [hd2, hgi] at hpp
          rw [getItem_eq s d1 d1it hd1it] at hpp
          omega
        · exact Tf d1 d2 hd1 hd2 h10 h20 hpp

theorem flatIds_congr_nodes (s s' : MState) (h : s'.nodes = s.nodes) :
    ∀ k nid, flatIds s' k nid = flatIds s k nid := by
  intro k
  induction k with
  | zero => intro nid; rfl
  | succ k ih =>
    intro nid
    have hf : flatIds s' k = flatIds s k := funext ih
    simp only [flatIds]
    rw [hf, show getItem s' nid = getItem s nid from by rw [getItem, getItem, h]]

theorem flatIds_stable (s : MState) (wf : WF s) :
    ∀ k k' nid it, s.nodes nid = some it → s.next ≤ nid + k → s.next ≤ nid + k' →
      flatIds s k nid = flatIds s k' nid := by
  intro k
  induction k with
  | zero => intro k' nid it hit h1 h2; exact absurd (wf.lt_next nid it hit) (by omega)
  | succ k ih =>
    intro k' nid it hit h1 h2
    cases k' with
    | zero => exact absurd (wf.lt_next nid it hit) (by omega)
    | succ k' =>
      have hgi := getItem_eq s nid it hit
      simp only [flatIds]
      rw [hgi]
      have hrec : ∀ c ∈ it.children, flatIds s k c = flatIds s k' c := by
        intro c hc
        obtain ⟨cit, hcit, _⟩ := wf.child_attached nid it hit c hc
        have hgt := wf.child_gt nid it hit c hc
        exact ih k' c cit hcit (by omega) (by omega)
      cases htype : it.type
      case root => exact congrArg List.flatten (List.map_congr_left hrec)
      case container => exact congrArg List.flatten (List.map_congr_left hrec)
      case song => rfl
      case divider => rfl
      case loadingIndicator => rfl

theorem flatIds_childless (s : MState) (x : Nat) (xit : CItem) (k : Nat)
    (hx : s.nodes x = some xit) (hxc : xit.children = []) (hk : 1 ≤ k) :
    flatIds s k x = (if xit.type = ItemType.song then [xit.metadata.id] else []) := by
  cases k with
  | zero => omega
  | succ k =>
    have hgi := getItem_eq s x xit hx
    simp only [flatIds]
    rw [hgi]
    cases htype : xit.type <;> simp [hxc]

theorem append_exchange_perm (a b c d : List Int) :
    ((a ++ b) ++ (c ++ d)).Perm ((a ++ c) ++ (b ++ d)) := by
  have h1 : (a ++ b) ++ (c ++ d) = a ++ ((b ++ c) ++ d) := by simp [List.append_assoc]
  have h2 : (a ++ c) ++ (b ++ d) = a ++ ((c ++ b) ++ d) := by simp [List.append_assoc]
  rw [h1, h2]
  exact (List.perm_append_comm.append_right d).append_left a

theorem flatten_perm_parts (f g h' : Nat → List Int) :
    ∀ cs : List Nat, (∀ c ∈ cs, (f c).Perm (g c ++ h' c)) →
      ((cs.map f).flatten).Perm ((cs.map g).flatten ++ (cs.map h').flatten) := by
  intro cs
  induction cs with
  | nil => intro _; simp
  | cons c rest ih =>
    intro h
    simp only [List.map_cons, List.flatten_cons]
    refine List.Perm.trans ((h c (List.mem_cons_self c rest)).append
      (ih (fun d hd => h d (List.mem_cons_of_mem c hd)))) ?_
    exact append_exchange_perm _ _ _ _

theorem flatten_eq_nil_of (h' : Nat → List Int) :
    ∀ cs : List Nat, (∀ c ∈ cs, h' c = []) → (cs.map h').flatten = [] := by
  intro cs
  induction cs with
  | nil => intro _; rfl
  | cons c rest ih =>
    intro h
    simp only [List.map_cons, List.flatten_cons, h c (List.mem_cons_self c rest),
      List.nil_append]
    exact ih (fun d hd => h d (List.mem_cons_of_mem c hd))

theorem flatten_single_hit (h' : Nat → List Int) (X : List Int) (d : Nat) :
    ∀ cs : List Nat, cs.count d = 1 → (∀ c ∈ cs, c ≠ d → h' c = []) → h' d = X →
      (cs.map h').flatten = X := by
  intro cs
  induction cs with
  | nil => intro hc _ _; simp at hc
  | cons c rest ih =>
    intro hc hz hd
    by_cases hcd : c = d
    · subst hcd
      have hrest0 : rest.count c = 0 := by
        rw [List.count_cons_self] at hc; omega
      have hn : ∀ e ∈ rest, h' e = [] := by
        intro e he
        refine hz e (List.mem_cons_of_mem c he) ?_
        intro hec
        rw [hec] at he
        have := List.count_pos_iff.mpr he
        omega
      simp only [List.map_cons, List.flatten_cons, hd, flatten_eq_nil_of h' rest hn,
        List.append_nil]
    · have hcount : List.count d (c :: rest) = List.count d rest :=
        List.count_cons_of_ne (fun hh => hcd hh.symm) rest
      rw [hcount] at hc
      simp only [List.map_cons, List.flatten_cons, hz c (List.mem_cons_self c rest)
        (fun hh => hcd hh), List.nil_append]
      exact ih hc (fun e he hed => hz e (List.mem_cons_of_mem c he) hed) hd

/-- The effect of inserting one fresh childless node under an existing
container/root parent on the leaf-id traversal: along the parent's
ancestor chain (and only there) the traversal gains the new node's
contribution — its leaf id for a song node, nothing otherwise. -/
theorem flatIds_insert (s s' : MState) (wf : WF s) (p f : Nat) (pit pit' xit : CItem)
    (hp : s.nodes p = some pit)
    (hptype : pit.type = ItemType.container ∨ pit.type = ItemType.root)
    (hfeq : f = s.next)
    (hfnew : s.nodes f = Option.none)
    (hf' : s'.nodes f = some xit) (hxc : xit.children = [])
    (hp' : s'.nodes p = some pit')
    (hpc : pit'.children = pit.children ++ [f]) (hpt : pit'.type = pit.type)
    (hag : ∀ n, n ≠ f → n ≠ p → s'.nodes n = s.nodes n) :
    ∀ k nid nit, s.nodes nid = some nit → s.next + 1 ≤ nid + k →
      (flatIds s' k nid).Perm (flatIds s k nid ++
        (if nid ∈ chainOf s p then
          (if xit.type = ItemType.song then [xit.metadata.id] else []) else [])) := by
  have hpsome : (s.nodes p).isSome = true := by rw [hp]; rfl
  obtain ⟨CHa, CHhead, CHzero, CHpar, CHpred, CHuni⟩ :=
    chainAux_props s wf (p + 1) p hpsome (Nat.lt_succ_self p)
  set X := (if xit.type = ItemType.song then [xit.metadata.id] else []) with hX
  intro k
  induction k with
  | zero =>
    intro nid nit hnit hfuel
    exact absurd (wf.lt_next nid nit hnit) (by omega)
  | succ k ih =>
    intro nid nit hnit hfuel
    have hnidf : nid ≠ f := by
      intro hh
      rw [hh, hfnew] at hnit
      exact Option.noConfusion hnit
    by_cases hnp : nid = p
    · subst hnp
      have hpe : nit = pit := by
        rw [hp] at hnit
        exact (Option.some.inj hnit).symm
      subst hpe
      have hkge : 1 ≤ k := by
        have := wf.lt_next nid nit hp
        omega
      have hxl : flatIds s' k f = X :=
        flatIds_childless s' f xit k hf' hxc hkge
      have hgi' := getItem_eq s' nid pit' hp'
      have hgi := getItem_eq s nid nit hp
      simp only [flatIds]
      rw [hgi, hgi', hpt, hpc]
      have hchild : ∀ c ∈ nit.children, (flatIds s' k c).Perm (flatIds s k c) := by
        intro c hc
        obtain ⟨cit, hcit, _⟩ := wf.child_attached nid nit hp c hc
        have hcgt := wf.child_gt nid nit hp c hc
        have hcC : ¬ c ∈ chainOf s nid := by
          intro hcC
          have := (CHa c hcC).1
          omega
        have hperm := ih c cit hcit (by omega)
        rw [if_neg hcC, List.append_nil] at hperm
        exact hperm
      have CHhead2 : nid ∈ chainOf s nid := CHhead
      rcases hptype with hty | hty <;> rw [hty] <;>
        [skip; skip] <;>
        · rw [if_pos CHhead2, List.map_append, List.flatten_append]
          simp only [List.map_cons, List.map_nil, List.flatten_cons, List.flatten_nil,
            List.append_nil]
          rw [hxl]
          exact List.Perm.append ((flatten_perm_parts (flatIds s' k) (flatIds s k)
            (fun _ => []) nit.children (fun c hc => by
              rw [List.append_nil]
              exact hchild c hc)).trans (by
                rw [flatten_eq_nil_of _ nit.children (fun _ _ => rfl), List.append_nil]))
            (List.Perm.refl X)
    · have hsame : s'.nodes nid = s.nodes nid := hag nid hnidf hnp
      have hgi := getItem_eq s nid nit hnit
      have hgi' : getItem s' nid = nit := getItem_eq s' nid nit (by rw [hsame, hnit])
      simp only [flatIds]
      rw [hgi, hgi']
      cases htype : nit.type with
      | song =>
        have hnotin : ¬ nid ∈ chainOf s p := by
          intro hin
          obtain ⟨d, hd, hd0, hdp⟩ := CHpred nid hin hnp
          obtain ⟨hdle, hdsome⟩ := CHa d hd
          obtain ⟨dit, hdit⟩ := Option.isSome_iff_exists.mp hdsome
          obtain ⟨hplt, pit2, hpit2, hmem⟩ := wf.parent_mem d dit hdit hd0
          rw [getItem_eq s d dit hdit] at hdp
          rw [hdp, hnit] at hpit2
          have hpe : nit = pit2 := Option.some.inj hpit2
          rw [← hpe] at hmem
          rw [wf.childless nid nit hnit (by rw [htype]; decide) (by rw [htype]; decide)] at hmem
          exact absurd hmem (List.not_mem_nil d)
        rw [if_neg hnotin, List.append_nil]
      | divider =>
        have hnotin : ¬ nid ∈ chainOf s p := by
          intro hin
          obtain ⟨d, hd, hd0, hdp⟩ := CHpred nid hin hnp
          obtain ⟨hdle, hdsome⟩ := CHa d hd
          obtain ⟨dit, hdit⟩ := Option.isSome_iff_exists.mp hdsome
          obtain ⟨hplt, pit2, hpit2, hmem⟩ := wf.parent_mem d dit hdit hd0
          rw [getItem_eq s d dit hdit] at hdp
          rw [hdp, hnit] at hpit2
          have hpe : nit = pit2 := Option.some.inj hpit2
          rw [← hpe] at hmem
          rw [wf.childless nid nit hnit (by rw [htype]; decide) (by rw [htype]; decide)] at hmem
          exact absurd hmem (List.not_mem_nil d)
        rw [if_neg hnotin, List.append_nil]
      | loadingIndicator =>
        have hnotin : ¬ nid ∈ chainOf s p := by
          intro hin
          obtain ⟨d, hd, hd0, hdp⟩ := CHpred nid hin hnp
          obtain ⟨hdle, hdsome⟩ := CHa d hd
          obtain ⟨dit, hdit⟩ := Option.isSome_iff_exists.mp hdsome
          obtain ⟨hplt, pit2, hpit2, hmem⟩ := wf.parent_mem d dit hdit hd0
          rw [getItem_eq s d dit hdit] at hdp
          rw [hdp, hnit] at hpit2
          have hpe : nit = pit2 := Option.some.inj hpit2
          rw [← hpe] at hmem
          rw [wf.childless nid nit hnit (by rw [htype]; decide) (by rw [htype]; decide)] at hmem
          exact absurd hmem (List.not_mem_nil d)
        rw [if_neg hnotin, List.append_nil]
      | container =>
        refine (flatten_perm_parts (flatIds s' k) (flatIds s k)
          (fun c => if c ∈ chainOf s p then X else []) nit.children (fun c hc => ?_)).trans ?_
        · obtain ⟨cit, hcit, _⟩ := wf.child_attached nid nit hnit c hc
          have hcgt := wf.child_gt nid nit hnit c hc
          exact ih c cit hcit (by omega)
        · by_cases hin : nid ∈ chainOf s p
          · obtain ⟨d, hd, hd0, hdp⟩ := CHpred nid hin hnp
            obtain ⟨hdle, hdsome⟩ := CHa d hd
            obtain ⟨dit, hdit⟩ := Option.isSome_iff_exists.mp hdsome
            obtain ⟨hplt, pit2, hpit2, hmem⟩ := wf.parent_mem d dit hdit hd0
            rw [getItem_eq s d dit hdit] at hdp
            rw [hdp, hnit] at hpit2
            have hpe : nit = pit2 := Option.some.inj hpit2
            rw [← hpe] at hmem
            have huniq : ∀ c ∈ nit.children, c ≠ d → ¬ c ∈ chainOf s p := by
              intro c hc hcd hcC
              obtain ⟨cit, hcit, hcpar⟩ := wf.child_attached nid nit hnit c hc
              have hc0 : c ≠ 0 := by
                have := wf.child_gt nid nit hnit c hc
                omega
              have heqp : (getItem s c).parent = (getItem s d).parent := by
                rw [getItem_eq s c cit hcit, hcpar, getItem_eq s d dit hdit, hdp]
              exact hcd (CHuni c d hcC hd hc0 hd0 heqp)
            have hcount : nit.children.count d = 1 :=
              List.count_eq_one_of_mem (wf.child_nodup nid nit hnit) hmem
            rw [flatten_single_hit _ X d nit.children hcount
              (fun c hc hcd => if_neg (huniq c hc hcd)) (if_pos hd), if_pos hin]
          · have hnone : ∀ c ∈ nit.children, ¬ c ∈ chainOf s p := by
              intro c hc hcC
              obtain ⟨cit, hcit, hcpar⟩ := wf.child_attached nid nit hnit c hc
              have hc0 : c ≠ 0 := by
                have := wf.child_gt nid nit hnit c hc
                omega
              have hmm := CHpar c hcC hc0
              rw [getItem_eq s c cit hcit, hcpar] at hmm
              exact hin hmm
            rw [flatten_eq_nil_of _ nit.children (fun c hc => if_neg (hnone c hc)),
              List.append_nil, if_neg hin, List.append_nil]
      | root =>
        refine (flatten_perm_parts (flatIds s' k) (flatIds s k)
          (fun c => if c ∈ chainOf s p then X else []) nit.children (fun c hc => ?_)).trans ?_
        · obtain ⟨cit, hcit, _⟩ := wf.child_attached nid nit hnit c hc
          have hcgt := wf.child_gt nid nit hnit c hc
          exact ih c cit hcit (by omega)
        · by_cases hin : nid ∈ chainOf s p
          · obtain ⟨d, hd, hd0, hdp⟩ := CHpred nid hin hnp
            obtain ⟨hdle, hdsome⟩ := CHa d hd
            obtain ⟨dit, hdit⟩ := Option.isSome_iff_exists.mp hdsome
            obtain ⟨hplt, pit2, hpit2, hmem⟩ := wf.parent_mem d dit hdit hd0
            rw [getItem_eq s d dit hdit] at hdp
            rw [hdp, hnit] at hpit2
            have hpe : nit = pit2 := Option.some.inj hpit2
            rw [← hpe] at hmem
            have huniq : ∀ c ∈ nit.children, c ≠ d → ¬ c ∈ chainOf s p := by
              intro c hc hcd hcC
              obtain ⟨cit, hcit, hcpar⟩ := wf.child_attached nid nit hnit c hc
              have hc0 : c ≠ 0 := by
                have := wf.child_gt nid nit hnit c hc
                omega
              have heqp : (getItem s c).parent = (getItem s d).parent := by
                rw [getItem_eq s c cit hcit, hcpar, getItem_eq s d dit hdit, hdp]
              exact hcd (CHuni c d hcC hd hc0 hd0 heqp)
            have hcount : nit.children.count d = 1 :=
              List.count_eq_one_of_mem (wf.child_nodup nid nit hnit) hmem
            rw [flatten_single_hit _ X d nit.children hcount
              (fun c hc hcd => if_neg (huniq c hc hcd)) (if_pos hd), if_pos hin]
          · have hnone : ∀ c ∈ nit.children, ¬ c ∈ chainOf s p := by
              intro c hc hcC
              obtain ⟨cit, hcit, hcpar⟩ := wf.child_attached nid nit hnit c hc
              have hc0 : c ≠ 0 := by
                have := wf.child_gt nid nit hnit c hc
                omega
              have hmm := CHpar c hcC hc0
              rw [getItem_eq s c cit hcit, hcpar] at hmm
              exact hin hmm
            rw [flatten_eq_nil_of _ nit.children (fun c hc => if_neg (hnone c hc)),
              List.append_nil, if_neg hin, List.append_nil]
/-- The workhorse of the Add path: allocating one childless node as the
last child of an existing container/root parent preserves well-formedness,
leaves the tables and records untouched, and extends the root traversal by
exactly the new node's contribution. -/
theorem addChildT_wf (s : MState) (p : Nat) (item : CItem) (g : Nat → CItem → CItem)
    (wf : WF s) (pit : CItem)
    (hp : s.nodes p = some pit)
    (hptype : pit.type = ItemType.container ∨ pit.type = ItemType.root)
    (hic : item.children = [])
    (hiparent : item.parent = p)
    (hitype : item.type ≠ ItemType.root)
    (hicomp : item.compilation_artist_node = Option.none)
    (hg : ∀ f it, (g f it).children = it.children ∧ (g f it).type = it.type ∧
      (g f it).parent = it.parent)
    (hgcomp : ∀ f it, (g f it).compilation_artist_node = it.compilation_artist_node ∨
      ((g f it).compilation_artist_node = some f ∧ item.type = ItemType.container)) :
    WF (addChildT s p item g).1 ∧
    (addChildT s p item g).2 = s.next ∧
    (addChildT s p item g).1.next = s.next + 1 ∧
    (addChildT s p item g).1.songs = s.songs ∧
    (addChildT s p item g).1.song_nodes = s.song_nodes ∧
    (addChildT s p item g).1.cns = s.cns ∧
    (addChildT s p item g).1.divider_nodes = s.divider_nodes ∧
    (addChildT s p item g).1.nodes (addChildT s p item g).2 = some item ∧
    (flatIds (addChildT s p item g).1 (addChildT s p item g).1.next 0).Perm
      (flatIds s s.next 0 ++
        (if item.type = ItemType.song then [item.metadata.id] else [])) := by
  have hpn : p < s.next := wf.lt_next p pit hp
  have hfnew : s.nodes s.next = Option.none := wf.fresh s.next (Nat.le_refl _)
  have hpf : p ≠ s.next := by omega
  set s' := (addChildT s p item g).1 with hs'
  set pit2 := g s.next { pit with children := pit.children ++ [s.next] } with hpit2
  have hn' : ∀ n, s'.nodes n =
      (if n = s.next then some item else if n = p then some pit2 else s.nodes n) := by
    intro n
    show (if n = s.next then some item
      else if n = p then (s.nodes p).map
        (fun it => g s.next { it with children := it.children ++ [s.next] })
      else s.nodes n) = _
    rw [hp]
    rfl
  obtain ⟨hg2c, hg2t, hg2p⟩ := hg s.next { pit with children := pit.children ++ [s.next] }
  have hpc : pit2.children = pit.children ++ [s.next] := hg2c
  have hpt : pit2.type = pit.type := hg2t
  have hpp : pit2.parent = pit.parent := hg2p
  have hnext' : s'.next = s.next + 1 := rfl
  have hchildlt : ∀ n it, s.nodes n = some it → ∀ c ∈ it.children, c < s.next := by
    intro n it hit c hc
    obtain ⟨cit, hcit, _⟩ := wf.child_attached n it hit c hc
    exact wf.lt_next c cit hcit
  have hkeep : ∀ v vit, s.nodes v = some vit → ∃ vit', s'.nodes v = some vit' ∧
      vit'.type = vit.type ∧ vit'.parent = vit.parent ∧
      (∀ c ∈ vit.children, c ∈ vit'.children) := by
    intro v vit hvit
    have hvn : v ≠ s.next := by
      have := wf.lt_next v vit hvit
      omega
    by_cases hvp : v = p
    · have hve : vit = pit := by
        rw [hvp, hp] at hvit
        exact (Option.some.inj hvit).symm
      refine ⟨pit2, by rw [hvp, hn' p, if_neg hpf, if_pos rfl],
        by rw [hve]; exact hpt, by rw [hve]; exact hpp, ?_⟩
      intro c hc
      rw [hve] at hc
      rw [hpc]
      exact List.mem_append_left _ hc
    · exact ⟨vit, by rw [hn' v, if_neg hvn, if_neg hvp, hvit], rfl, rfl, fun c hc => hc⟩
  have hwf : WF s' := by
    refine ⟨?_, ?_, ?_, ?_, ?_, ?_, ?_, ?_, ?_, ?_, ?_⟩
    · -- root_zero
      obtain ⟨rit, hrit, hrt⟩ := wf.root_zero
      obtain ⟨rit', hrit', hrt', _, _⟩ := hkeep 0 rit hrit
      exact ⟨rit', hrit', by rw [hrt', hrt]⟩
    · -- fresh
      intro n hn
      rw [hnext'] at hn
      rw [hn' n, if_neg (by omega), if_neg (by omega)]
      exact wf.fresh n (by omega)
    · -- lt_next
      intro n it hit
      rw [hn' n] at hit
      rw [hnext']
      by_cases h1 : n = s.next
      · omega
      · rw [if_neg h1] at hit
        by_cases h2 : n = p
        · omega
        · rw [if_neg h2] at hit
          have := wf.lt_next n it hit
          omega
    · -- child_gt
      intro n it hit c hc
      rw [hn' n] at hit
      by_cases h1 : n = s.next
      · rw [if_pos h1] at hit
        rw [← Option.some.inj hit, hic] at hc
        exact absurd hc (List.not_mem_nil c)
      · rw [if_neg h1] at hit
        by_cases h2 : n = p
        · rw [if_pos h2] at hit
          rw [← Option.some.inj hit, hpc] at hc
          rcases List.mem_append.mp hc with hc | hc
          · have := wf.child_gt p pit hp c hc
            omega
          · rw [List.mem_singleton.mp hc]
            omega
        · rw [if_neg h2] at hit
          exact wf.child_gt n it hit c hc
    · -- child_attached
      intro n it hit c hc
      rw [hn' n] at hit
      by_cases h1 : n = s.next
      · rw [if_pos h1] at hit
        rw [← Option.some.inj hit, hic] at hc
        exact absurd hc (List.not_mem_nil c)
      · rw [if_neg h1] at hit
        by_cases h2 : n = p
        · rw [if_pos h2] at hit
          rw [← Option.some.inj hit, hpc] at hc
          rw [h2]
          rcases List.mem_append.mp hc with hc | hc
          · obtain ⟨cit, hcit, hcp⟩ := wf.child_attached p pit hp c hc
            obtain ⟨cit', hcit', _, hcp', _⟩ := hkeep c cit hcit
            exact ⟨cit', hcit', by rw [hcp', hcp]⟩
          · rw [List.mem_singleton.mp hc]
            exact ⟨item, by rw [hn' s.next, if_pos rfl], hiparent⟩
        · rw [if_neg h2] at hit
          obtain ⟨cit, hcit, hcp⟩ := wf.child_attached n it hit c hc
          obtain ⟨cit', hcit', _, hcp', _⟩ := hkeep c cit hcit
          exact ⟨cit', hcit', by rw [hcp', hcp]⟩
    · -- child_nodup
      intro n it hit
      rw [hn' n] at hit
      by_cases h1 : n = s.next
      · rw [if_pos h1] at hit
        rw [← Option.some.inj hit, hic]
        exact List.nodup_nil
      · rw [if_neg h1] at hit
        by_cases h2 : n = p
        · rw [if_pos h2] at hit
          rw [← Option.some.inj hit, hpc]
          refine List.Nodup.append (wf.child_nodup p pit hp) (List.nodup_singleton _) ?_
          intro a ha hb
          rw [List.mem_singleton.mp hb] at ha
          have := hchildlt p pit hp s.next ha
          omega
        · rw [if_neg h2] at hit
          exact wf.child_nodup n it hit
    · -- parent_mem
      intro n it hit hn0
      rw [hn' n] at hit
      by_cases h1 : n = s.next
      · rw [if_pos h1] at hit
        rw [← Option.some.inj hit, hiparent]
        subst h1
        refine ⟨by omega, pit2, by rw [hn' p, if_neg hpf, if_pos rfl], ?_⟩
        rw [hpc]
        exact List.mem_append_right _ (List.mem_singleton.mpr rfl)
      · rw [if_neg h1] at hit
        by_cases h2 : n = p
        · rw [if_pos h2] at hit
          rw [← Option.some.inj hit, hpp, h2]
          rw [h2] at hn0
          obtain ⟨hlt, qit, hqit, hqmem⟩ := wf.parent_mem p pit hp hn0
          obtain ⟨qit', hqit', _, _, hqsup⟩ := hkeep pit.parent qit hqit
          exact ⟨hlt, qit', hqit', hqsup p hqmem⟩
        · rw [if_neg h2] at hit
          obtain ⟨hlt, qit, hqit, hqmem⟩ := wf.parent_mem n it hit hn0
          obtain ⟨qit', hqit', _, _, hqsup⟩ := hkeep it.parent qit hqit
          exact ⟨hlt, qit', hqit', hqsup n hqmem⟩
    · -- root_only
      intro n it hit htype
      rw [hn' n] at hit
      by_cases h1 : n = s.next
      · rw [if_pos h1] at hit
        rw [← Option.some.inj hit] at htype
        exact absurd htype hitype
      · rw [if_neg h1] at hit
        by_cases h2 : n = p
        · rw [if_pos h2] at hit
          rw [← Option.some.inj hit, hpt] at htype
          rw [h2]
          exact wf.root_only p pit hp htype
        · rw [if_neg h2] at hit
          exact wf.root_only n it hit htype
    · -- childless
      intro n it hit ht1 ht2
      rw [hn' n] at hit
      by_cases h1 : n = s.next
      · rw [if_pos h1] at hit
        rw [← Option.some.inj hit]
        exact hic
      · rw [if_neg h1] at hit
        by_cases h2 : n = p
        · rw [if_pos h2] at hit
          rw [← Option.some.inj hit, hpt] at ht1 ht2
          rcases hptype with hty | hty
          · exact absurd hty ht1
          · exact absurd hty ht2
        · rw [if_neg h2] at hit
          exact wf.childless n it hit ht1 ht2
    · -- comp_link
      intro n it hit v hv
      rw [hn' n] at hit
      by_cases h1 : n = s.next
      · rw [if_pos h1] at hit
        rw [← Option.some.inj hit, hicomp] at hv
        exact Option.noConfusion hv
      · rw [if_neg h1] at hit
        by_cases h2 : n = p
        · rw [if_pos h2] at hit
          rw [← Option.some.inj hit] at hv
          rcases hgcomp s.next { pit with children := pit.children ++ [s.next] } with hcc | ⟨hcc, hcic⟩
          · rw [hcc] at hv
            obtain ⟨vit, hvit, hvt⟩ := wf.comp_link p pit hp v hv
            obtain ⟨vit', hvit', hvt', _, _⟩ := hkeep v vit hvit
            exact ⟨vit', hvit', by rw [hvt', hvt]⟩
          · rw [hcc] at hv
            rw [← Option.some.inj hv]
            exact ⟨item, by rw [hn' s.next, if_pos rfl], hcic⟩
        · rw [if_neg h2] at hit
          obtain ⟨vit, hvit, hvt⟩ := wf.comp_link n it hit v hv
          obtain ⟨vit', hvit', hvt', _, _⟩ := hkeep v vit hvit
          exact ⟨vit', hvit', by rw [hvt', hvt]⟩
    · -- cns_link
      intro i k c hkc
      obtain ⟨cit, hcit, hct⟩ := wf.cns_link i k c hkc
      obtain ⟨cit', hcit', hct', _, _⟩ := hkeep c cit hcit
      exact ⟨cit', hcit', by rw [hct', hct]⟩
  have hmain : s'.nodes s.next = some item := by rw [hn' s.next, if_pos rfl]
  refine ⟨hwf, rfl, rfl, rfl, rfl, rfl, rfl, hmain, ?_⟩
  have hperm := flatIds_insert s s' wf p s.next pit pit2 item hp hptype rfl hfnew
    (by rw [hn' s.next, if_pos rfl]) hic
    (by rw [hn' p, if_neg hpf, if_pos rfl]) hpc hpt
    (fun n hnf hnp => by rw [hn' n, if_neg hnf, if_neg hnp])
    (s.next + 1) 0 (Classical.choose wf.root_zero) (Classical.choose_spec wf.root_zero).1
    (by omega)
  obtain ⟨rit, hrit, _⟩ := wf.root_zero
  have hz : (0 : Nat) ∈ chainOf s p := by
    have hpsome : (s.nodes p).isSome = true := by rw [hp]; rfl
    exact (chainAux_props s wf (p + 1) p hpsome (Nat.lt_succ_self p)).2.2.1
  rw [if_pos hz] at hperm
  have hstab : flatIds s (s.next + 1) 0 = flatIds s s.next 0 := by
    have h0 : 1 ≤ s.next := wf.lt_next 0 rit hrit
    exact flatIds_stable s wf (s.next + 1) s.next 0 rit hrit (by omega) (by omega)
  rw [hstab] at hperm
  exact hperm

/-- Traversal congruence: two states whose arenas agree on existence,
node kind, children and leaf metadata id have identical traversals. -/
theorem flatIds_fields_congr (s s2 : MState)
    (h : ∀ n, (∃ it it2, s.nodes n = some it ∧ s2.nodes n = some it2 ∧
        it2.type = it.type ∧ it2.children = it.children ∧
        it2.metadata.id = it.metadata.id) ∨
      (s.nodes n = Option.none ∧ s2.nodes n = Option.none)) :
    ∀ k n, flatIds s2 k n = flatIds s k n := by
  intro k
  induction k with
  | zero => intro n; rfl
  | succ k ih =>
    intro n
    have hf : flatIds s2 k = flatIds s k := funext ih
    rcases h n with ⟨it, it2, hit, hit2, ht, hc, hm⟩ | ⟨hit, hit2⟩
    · have hgi := getItem_eq s n it hit
      have hgi2 := getItem_eq s2 n it2 hit2
      simp only [flatIds]
      rw [hgi, hgi2, ht, hc, hm, hf]
    · have hgi : getItem s n = { type := ItemType.loadingIndicator } := by
        rw [getItem, hit]
        rfl
      have hgi2 : getItem s2 n = { type := ItemType.loadingIndicator } := by
        rw [getItem, hit2]
        rfl
      simp only [flatIds]
      rw [hgi, hgi2]

/-- A node mutation that preserves kind, children, parent, metadata and
the compilation link preserves well-formedness. -/
theorem updNode_wf (s : MState) (nid : Nat) (g : CItem → CItem)
    (hg : ∀ it, (g it).type = it.type ∧ (g it).children = it.children ∧
      (g it).parent = it.parent ∧ (g it).compilation_artist_node = it.compilation_artist_node)
    (wf : WF s) : WF (updNode s nid g) := by
  have hnn : ∀ n, (updNode s nid g).nodes n =
      if n = nid then (s.nodes nid).map g else s.nodes n := fun n => rfl
  have hup : ∀ n it2, (updNode s nid g).nodes n = some it2 → ∃ it, s.nodes n = some it ∧
      it2.type = it.type ∧ it2.children = it.children ∧ it2.parent = it.parent ∧
      it2.compilation_artist_node = it.compilation_artist_node := by
    intro n it2 hit2
    rw [hnn n] at hit2
    by_cases h1 : n = nid
    · rw [if_pos h1] at hit2
      rcases hsn : s.nodes nid with _ | it0
      · rw [hsn] at hit2
        exact Option.noConfusion hit2
      · rw [hsn] at hit2
        have : g it0 = it2 := Option.some.inj hit2
        obtain ⟨h1', h2', h3', h4'⟩ := hg it0
        rw [← this]
        exact ⟨it0, by rw [h1, hsn], h1', h2', h3', h4'⟩
    · rw [if_neg h1] at hit2
      exact ⟨it2, hit2, rfl, rfl, rfl, rfl⟩
  have hdown : ∀ n it, s.nodes n = some it → ∃ it2, (updNode s nid g).nodes n = some it2 ∧
      it2.type = it.type ∧ it2.children = it.children ∧ it2.parent = it.parent ∧
      it2.compilation_artist_node = it.compilation_artist_node := by
    intro n it hit
    by_cases h1 : n = nid
    · obtain ⟨h1', h2', h3', h4'⟩ := hg it
      exact ⟨g it, by rw [hnn n, if_pos h1, ← h1, hit]; rfl, h1', h2', h3', h4'⟩
    · exact ⟨it, by rw [hnn n, if_neg h1, hit], rfl, rfl, rfl, rfl⟩
  refine ⟨?_, ?_, ?_, ?_, ?_, ?_, ?_, ?_, ?_, ?_, ?_⟩
  · obtain ⟨rit, hrit, hrt⟩ := wf.root_zero
    obtain ⟨rit2, hrit2, ht, _, _, _⟩ := hdown 0 rit hrit
    exact ⟨rit2, hrit2, by rw [ht, hrt]⟩
  · intro n hn
    rw [hnn n]
    by_cases h1 : n = nid
    · rw [if_pos h1, ← h1, wf.fresh n hn]
      rfl
    · rw [if_neg h1]
      exact wf.fresh n hn
  · intro n it2 hit2
    obtain ⟨it, hit, _, _, _, _⟩ := hup n it2 hit2
    exact wf.lt_next n it hit
  · intro n it2 hit2 c hc
    obtain ⟨it, hit, _, hch, _, _⟩ := hup n it2 hit2
    rw [hch] at hc
    exact wf.child_gt n it hit c hc
  · intro n it2 hit2 c hc
    obtain ⟨it, hit, _, hch, _, _⟩ := hup n it2 hit2
    rw [hch] at hc
    obtain ⟨cit, hcit, hcp⟩ := wf.child_attached n it hit c hc
    obtain ⟨cit2, hcit2, _, _, hcp2, _⟩ := hdown c cit hcit
    exact ⟨cit2, hcit2, by rw [hcp2, hcp]⟩
  · intro n it2 hit2
    obtain ⟨it, hit, _, hch, _, _⟩ := hup n it2 hit2
    rw [hch]
    exact wf.child_nodup n it hit
  · intro n it2 hit2 hn0
    obtain ⟨it, hit, _, _, hpp, _⟩ := hup n it2 hit2
    obtain ⟨hlt, qit, hqit, hqmem⟩ := wf.parent_mem n it hit hn0
    obtain ⟨qit2, hqit2, _, hqch, _, _⟩ := hdown it.parent qit hqit
    rw [hpp]
    exact ⟨hlt, qit2, hqit2, by rw [hqch]; exact hqmem⟩
  · intro n it2 hit2 htype
    obtain ⟨it, hit, ht, _, _, _⟩ := hup n it2 hit2
    rw [ht] at htype
    exact wf.root_only n it hit htype
  · intro n it2 hit2 ht1 ht2
    obtain ⟨it, hit, ht, hch, _, _⟩ := hup n it2 hit2
    rw [ht] at ht1 ht2
    rw [hch]
    exact wf.childless n it hit ht1 ht2
  · intro n it2 hit2 v hv
    obtain ⟨it, hit, _, _, _, hcl⟩ := hup n it2 hit2
    rw [hcl] at hv
    obtain ⟨vit, hvit, hvt⟩ := wf.comp_link n it hit v hv
    obtain ⟨vit2, hvit2, hvt2, _, _, _⟩ := hdown v vit hvit
    exact ⟨vit2, hvit2, by rw [hvt2, hvt]⟩
  · intro i k c hkc
    obtain ⟨cit, hcit, hct⟩ := wf.cns_link i k c hkc
    obtain ⟨cit2, hcit2, hct2, _, _, _⟩ := hdown c cit hcit
    exact ⟨cit2, hcit2, by rw [hct2, hct]⟩

/-- Well-formedness only reads the arena, the counter and the level
tables. -/
theorem wf_of_fields (s s2 : MState) (wf : WF s) (hn : s2.nodes = s.nodes)
    (hx : s2.next = s.next) (hc : s2.cns = s.cns) : WF s2 := by
  refine ⟨?_, ?_, ?_, ?_, ?_, ?_, ?_, ?_, ?_, ?_, ?_⟩
  · rw [hn]
    exact wf.root_zero
  · intro n h
    rw [hn]
    exact wf.fresh n (by rw [← hx]; exact h)
  · intro n it hit
    rw [hn] at hit
    rw [hx]
    exact wf.lt_next n it hit
  · intro n it hit
    rw [hn] at hit
    exact wf.child_gt n it hit
  · intro n it hit c hcc
    rw [hn] at hit
    obtain ⟨cit, hcit, hcp⟩ := wf.child_attached n it hit c hcc
    exact ⟨cit, by rw [hn]; exact hcit, hcp⟩
  · intro n it hit
    rw [hn] at hit
    exact wf.child_nodup n it hit
  · intro n it hit hn0
    rw [hn] at hit
    obtain ⟨hlt, qit, hqit, hqmem⟩ := wf.parent_mem n it hit hn0
    exact ⟨hlt, qit, by rw [hn]; exact hqit, hqmem⟩
  · intro n it hit
    rw [hn] at hit
    exact wf.root_only n it hit
  · intro n it hit
    rw [hn] at hit
    exact wf.childless n it hit
  · intro n it hit
    rw [hn] at hit
    obtain := wf.comp_link n it hit
    intro v hv
    obtain ⟨vit, hvit, hvt⟩ := wf.comp_link n it hit v hv
    exact ⟨vit, by rw [hn]; exact hvit, hvt⟩
  · intro i k c hkc
    rw [hc] at hkc
    obtain ⟨cit, hcit, hct⟩ := wf.cns_link i k c hkc
    exact ⟨cit, by rw [hn]; exact hcit, hct⟩

theorem alLookup_alInsert (k : String) (v : Nat) :
    ∀ (l : List (String × Nat)) (k' : String),
      alLookup (alInsert l k v) k' = if k' = k then some v else alLookup l k' := by
  intro l
  induction l with
  | nil =>
    intro k'
    by_cases h : k' = k
    · rw [if_pos h, h]
      show List.lookup k [(k, v)] = some v
      simp [List.lookup]
    · rw [if_neg h]
      show List.lookup k' [(k, v)] = List.lookup k' []
      simp only [List.lookup, show (k' == k) = false from beq_eq_false_iff_ne.mpr h]
  | cons kv rest ih =>
    intro k'
    obtain ⟨k0, v0⟩ := kv
    rw [alInsert]
    by_cases h1 : k = k0
    · rw [if_pos h1]
      by_cases h : k' = k
      · rw [if_pos h]
        show List.lookup k' ((k, v) :: rest) = some v
        simp [List.lookup, h]
      · rw [if_neg h]
        show List.lookup k' ((k, v) :: rest) = List.lookup k' ((k0, v0) :: rest)
        simp only [List.lookup, show (k' == k) = false from beq_eq_false_iff_ne.mpr h,
          show (k' == k0) = false from beq_eq_false_iff_ne.mpr (by rw [← h1]; exact h)]
    · rw [if_neg h1]
      by_cases h2 : k < k0
      · rw [if_pos h2]
        by_cases h : k' = k
        · rw [if_pos h]
          show List.lookup k' ((k, v) :: (k0, v0) :: rest) = some v
          simp [List.lookup, h]
        · rw [if_neg h]
          show List.lookup k' ((k, v) :: (k0, v0) :: rest) = List.lookup k' ((k0, v0) :: rest)
          simp only [List.lookup, show (k' == k) = false from beq_eq_false_iff_ne.mpr h]
      · rw [if_neg h2]
        by_cases h3 : k' = k0
        · have hne : k' ≠ k := by rw [h3]; exact fun hh => h1 hh.symm
          rw [if_neg hne]
          show List.lookup k' ((k0, v0) :: alInsert rest k v) =
            List.lookup k' ((k0, v0) :: rest)
          simp only [List.lookup, show (k' == k0) = true from beq_iff_eq.mpr h3]
        · show List.lookup k' ((k0, v0) :: alInsert rest k v) =
            if k' = k then some v else List.lookup k' ((k0, v0) :: rest)
          simp only [List.lookup, show (k' == k0) = false from beq_eq_false_iff_ne.mpr h3]
          exact ih k'

/-- Registering a freshly created container in its level table preserves
well-formedness. -/
theorem wf_cns_insert (s : MState) (i : Fin 3) (ckey : String) (c : Nat) (cit : CItem)
    (wf : WF s) (hc : s.nodes c = some cit) (hct : cit.type = ItemType.container) :
    WF { s with cns := fun j => if j = i then alInsert (s.cns i) ckey c else s.cns j } := by
  refine ⟨wf.root_zero, wf.fresh, wf.lt_next, wf.child_gt, wf.child_attached,
    wf.child_nodup, wf.parent_mem, wf.root_only, wf.childless, wf.comp_link, ?_⟩
  intro j k c2 hkc
  have hkc2 : alLookup (if j = i then alInsert (s.cns i) ckey c else s.cns j) k = some c2 :=
    hkc
  by_cases hj : j = i
  · rw [if_pos hj, alLookup_alInsert] at hkc2
    by_cases hk : k = ckey
    · rw [if_pos hk] at hkc2
      rw [← Option.some.inj hkc2]
      exact ⟨cit, hc, hct⟩
    · rw [if_neg hk] at hkc2
      exact wf.cns_link i k c2 hkc2
  · rw [if_neg hj] at hkc2
    exact wf.cns_link j k c2 hkc2

/-- A sort-text-only node mutation preserves well-formedness and the
traversal. -/
theorem updNode_sort_wf_flat (s : MState) (nid : Nat) (g : CItem → CItem)
    (hg : ∀ it, (g it).type = it.type ∧ (g it).children = it.children ∧
      (g it).parent = it.parent ∧ (g it).compilation_artist_node = it.compilation_artist_node ∧
      (g it).metadata = it.metadata)
    (wf : WF s) :
    WF (updNode s nid g) ∧ (∀ k n, flatIds (updNode s nid g) k n = flatIds s k n) := by
  constructor
  · exact updNode_wf s nid g
      (fun it => ⟨(hg it).1, (hg it).2.1, (hg it).2.2.1, (hg it).2.2.2.1⟩) wf
  · apply flatIds_fields_congr
    intro n
    by_cases h1 : n = nid
    · rcases hsn : s.nodes nid with _ | it0
      · refine Or.inr ⟨by rw [h1]; exact hsn, ?_⟩
        show (if n = nid then (s.nodes nid).map g else s.nodes n) = Option.none
        rw [if_pos h1, hsn]
        rfl
      · refine Or.inl ⟨it0, g it0, by rw [h1]; exact hsn, ?_, (hg it0).1, (hg it0).2.1,
          by rw [(hg it0).2.2.2.2]⟩
        show (if n = nid then (s.nodes nid).map g else s.nodes n) = some (g it0)
        rw [if_pos h1, hsn]
        rfl
    · rcases hsn : s.nodes n with _ | it0
      · refine Or.inr ⟨rfl, ?_⟩
        show (if n = nid then (s.nodes nid).map g else s.nodes n) = Option.none
        rw [if_neg h1, hsn]
      · refine Or.inl ⟨it0, it0, rfl, ?_, rfl, rfl, rfl⟩
        show (if n = nid then (s.nodes nid).map g else s.nodes n) = some it0
        rw [if_neg h1, hsn]

/-- CreateCompilationArtistNode preserves well-formedness, the records,
all tables and the traversal, and yields an attached container. -/
theorem ccan_wf (signal : Bool) (parent : Nat) (s : MState) (evs : List Ev)
    (wf : WF s) (pit : CItem) (hp : s.nodes parent = some pit)
    (hptype : pit.type = ItemType.container ∨ pit.type = ItemType.root) :
    WF (CreateCompilationArtistNode signal parent s evs).1 ∧
    (CreateCompilationArtistNode signal parent s evs).1.next = s.next + 1 ∧
    (CreateCompilationArtistNode signal parent s evs).1.songs = s.songs ∧
    (CreateCompilationArtistNode signal parent s evs).1.song_nodes = s.song_nodes ∧
    (CreateCompilationArtistNode signal parent s evs).1.cns = s.cns ∧
    (CreateCompilationArtistNode signal parent s evs).1.divider_nodes = s.divider_nodes ∧
    (∃ cit, (CreateCompilationArtistNode signal parent s evs).1.nodes
        (CreateCompilationArtistNode signal parent s evs).2.2 = some cit ∧
      cit.type = ItemType.container) ∧
    (flatIds (CreateCompilationArtistNode signal parent s evs).1
      (CreateCompilationArtistNode signal parent s evs).1.next 0).Perm
      (flatIds s s.next 0) := by
  obtain ⟨hwf, hid, hnext, hsongs, hsn, hcns, hdn, hnode, hflat⟩ :=
    addChildT_wf s parent
      { type := ItemType.container
        parent := parent
        key := (if parent ≠ 0 ∧ (getItem s parent).key ≠ "" then (getItem s parent).key
          else "") ++ "Various artists"
        display_text := "Various artists"
        sort_text := " various"
        container_level := (getItem s parent).container_level + 1 }
      (fun f it => { it with compilation_artist_node := some f })
      wf pit hp hptype rfl rfl (fun hh => ItemType.noConfusion hh) rfl
      (fun f it => ⟨rfl, rfl, rfl⟩) (fun f it => Or.inr ⟨rfl, rfl⟩)
  rw [if_neg (fun hh => ItemType.noConfusion hh), List.append_nil] at hflat
  exact ⟨hwf, hnext, hsongs, hsn, hcns, hdn, ⟨_, hnode, rfl⟩, hflat⟩

theorem itemRecordFromSong_type (cfg : Config) (gb : GroupBy) (separate : Bool)
    (parent : Nat) (pit : CItem) (t : Song) (clevel : Int) :
    (itemRecordFromSong cfg gb separate parent pit t clevel).type =
      (if gb = GroupBy.none then ItemType.song else ItemType.container) := by
  cases gb <;> rfl

theorem itemRecordFromSong_children (cfg : Config) (gb : GroupBy) (separate : Bool)
    (parent : Nat) (pit : CItem) (t : Song) (clevel : Int) :
    (itemRecordFromSong cfg gb separate parent pit t clevel).children = [] := by
  cases gb <;> rfl

theorem itemRecordFromSong_parent (cfg : Config) (gb : GroupBy) (separate : Bool)
    (parent : Nat) (pit : CItem) (t : Song) (clevel : Int) :
    (itemRecordFromSong cfg gb separate parent pit t clevel).parent = parent := by
  cases gb <;> rfl

theorem itemRecordFromSong_comp (cfg : Config) (gb : GroupBy) (separate : Bool)
    (parent : Nat) (pit : CItem) (t : Song) (clevel : Int) :
    (itemRecordFromSong cfg gb separate parent pit t clevel).compilation_artist_node =
      Option.none := by
  cases gb <;> rfl

theorem addChildT_nodes_other (s : MState) (p : Nat) (item : CItem)
    (g : Nat → CItem → CItem) (n : Nat) (h1 : n ≠ s.next) (h2 : n ≠ p) :
    (addChildT s p item g).1.nodes n = s.nodes n := by
  show (if n = s.next then some item
    else if n = p then (s.nodes p).map
      (fun it => g s.next { it with children := it.children ++ [s.next] })
    else s.nodes n) = s.nodes n
  rw [if_neg h1, if_neg h2]

theorem updNode_nodes_self (s : MState) (nid : Nat) (g : CItem → CItem) :
    (updNode s nid g).nodes nid = (s.nodes nid).map g := by
  show (if nid = nid then (s.nodes nid).map g else s.nodes nid) = (s.nodes nid).map g
  rw [if_pos rfl]

theorem flatIds_set_divider (s : MState) (E : String → Option Nat) :
    ∀ k n, flatIds { s with divider_nodes := E } k n = flatIds s k n :=
  flatIds_congr_nodes s { s with divider_nodes := E } rfl

/-- FinishItem preserves well-formedness, the records, the song-node and
level tables and the traversal, and keeps the finished node's kind. -/
theorem finishItem_wf (cfg : Config) (gb : GroupBy) (signal cd : Bool) (parent f : Nat)
    (s : MState) (evs : List Ev) (wf : WF s) (fit : CItem) (hf : s.nodes f = some fit)
    (hf0 : f ≠ 0) :
    WF (FinishItem cfg gb signal cd parent f s evs).1 ∧
    (FinishItem cfg gb signal cd parent f s evs).1.songs = s.songs ∧
    (FinishItem cfg gb signal cd parent f s evs).1.song_nodes = s.song_nodes ∧
    (FinishItem cfg gb signal cd parent f s evs).1.cns = s.cns ∧
    (∃ fit', (FinishItem cfg gb signal cd parent f s evs).1.nodes f = some fit' ∧
      fit'.type = fit.type) ∧
    (flatIds (FinishItem cfg gb signal cd parent f s evs).1
      (FinishItem cfg gb signal cd parent f s evs).1.next 0).Perm
      (flatIds s s.next 0) := by
  have hfn : f < s.next := wf.lt_next f fit hf
  simp only [FinishItem]
  by_cases hdd : (cd = true ∧ cfg.show_dividers = true)
  · rw [if_pos hdd]
    by_cases hne : DividerKey gb (getItem s f) ≠ ""
    · rw [if_pos hne]
      obtain ⟨wf1, hflat1⟩ := updNode_sort_wf_flat s f
        (fun it => { it with
          sort_text := DividerKey gb (getItem s f) ++ " " ++ it.sort_text })
        (fun it => ⟨rfl, rfl, rfl, rfl, rfl⟩) wf
      by_cases hdiv : (DividerKey gb (getItem s f) ≠ "" ∧
          ((updNode s f (fun it => { it with
            sort_text := DividerKey gb (getItem s f) ++ " " ++ it.sort_text })).divider_nodes
            (DividerKey gb (getItem s f))).isNone = true)
      · rw [if_pos hdiv]
        obtain ⟨rit1, hrit1, hrt1⟩ := wf1.root_zero
        obtain ⟨hwf2, hid2, hnext2, hsongs2, hsn2, hcns2, hdn2, hnode2, hflat2⟩ :=
          addChildT_wf (updNode s f (fun it => { it with
              sort_text := DividerKey gb (getItem s f) ++ " " ++ it.sort_text })) 0
            { type := ItemType.divider
              parent := 0
              key := DividerKey gb (getItem s f)
              display_text := DividerDisplayText gb (DividerKey gb (getItem s f))
              sort_text := DividerKey gb (getItem s f) ++ "  " }
            (fun _ it => it) wf1 rit1 hrit1 (Or.inr hrt1) rfl rfl
            (fun hh => ItemType.noConfusion hh) rfl
            (fun f' it => ⟨rfl, rfl, rfl⟩) (fun f' it => Or.inl rfl)
        rw [if_neg (fun hh => ItemType.noConfusion hh), List.append_nil] at hflat2
        dsimp only
        refine ⟨wf_of_fields _ _ hwf2 rfl rfl rfl, hsongs2.trans rfl, hsn2.trans rfl,
          hcns2.trans rfl,
          ⟨{ fit with sort_text := DividerKey gb (getItem s f) ++ " " ++ fit.sort_text },
            ?_, rfl⟩, ?_⟩
        · rw [addChildT_nodes_other _ 0 _ _ f (by show f ≠ s.next; omega) hf0,
            updNode_nodes_self, hf]
          rfl
        · rw [flatIds_set_divider]
          refine hflat2.trans ?_
          rw [hflat1]
          exact List.Perm.refl _
      · rw [if_neg hdiv]
        dsimp only
        refine ⟨wf1, rfl, rfl, rfl,
          ⟨{ fit with sort_text := DividerKey gb (getItem s f) ++ " " ++ fit.sort_text },
            ?_, rfl⟩, ?_⟩
        · rw [updNode_nodes_self, hf]
          rfl
        · rw [hflat1]
          exact List.Perm.refl _
    · rw [if_neg hne]
      rw [if_neg (fun hc => hne hc.1)]
      exact ⟨wf, rfl, rfl, rfl, ⟨fit, hf, rfl⟩, List.Perm.refl _⟩
  · rw [if_neg hdd]
    exact ⟨wf, rfl, rfl, rfl, ⟨fit, hf, rfl⟩, List.Perm.refl _⟩

/-- ItemFromSong preserves well-formedness, the records and the level
tables, extends the traversal by exactly the new node's contribution (the
song id for a leaf, nothing for a container), and yields an attached node
of the appropriate kind. -/
theorem itemFromSong_wf (cfg : Config) (gb : GroupBy) (separate signal cd : Bool)
    (parent : Nat) (t : Song) (clevel : Int) (s : MState) (evs : List Ev)
    (wf : WF s) (pit : CItem) (hp : s.nodes parent = some pit)
    (hptype : pit.type = ItemType.container ∨ pit.type = ItemType.root) :
    WF (ItemFromSong cfg gb separate signal cd parent t clevel s evs).1.1 ∧
    (ItemFromSong cfg gb separate signal cd parent t clevel s evs).1.1.songs = s.songs ∧
    (ItemFromSong cfg gb separate signal cd parent t clevel s evs).1.1.song_nodes
      = s.song_nodes ∧
    (ItemFromSong cfg gb separate signal cd parent t clevel s evs).1.1.cns = s.cns ∧
    (∃ cit, (ItemFromSong cfg gb separate signal cd parent t clevel s evs).1.1.nodes
        (ItemFromSong cfg gb separate signal cd parent t clevel s evs).2 = some cit ∧
      cit.type = (if gb = GroupBy.none then ItemType.song else ItemType.container)) ∧
    (flatIds (ItemFromSong cfg gb separate signal cd parent t clevel s evs).1.1
      (ItemFromSong cfg gb separate signal cd parent t clevel s evs).1.1.next 0).Perm
      (flatIds s s.next 0 ++ (if gb = GroupBy.none then [t.id] else [])) := by
  obtain ⟨rit, hrit, hrt⟩ := wf.root_zero
  have h0n : 0 < s.next := wf.lt_next 0 rit hrit
  obtain ⟨hwf2, hid2, hnext2, hsongs2, hsn2, hcns2, hdn2, hnode2, hflat2⟩ :=
    addChildT_wf s parent
      (itemRecordFromSong cfg gb separate parent (getItem s parent) t clevel)
      (fun _ it => it) wf pit hp hptype
      (itemRecordFromSong_children cfg gb separate parent (getItem s parent) t clevel)
      (itemRecordFromSong_parent cfg gb separate parent (getItem s parent) t clevel)
      (by
        rw [itemRecordFromSong_type]
        by_cases hgbn : gb = GroupBy.none
        · rw [if_pos hgbn]
          decide
        · rw [if_neg hgbn]
          decide)
      (itemRecordFromSong_comp cfg gb separate parent (getItem s parent) t clevel)
      (fun f it => ⟨rfl, rfl, rfl⟩) (fun f it => Or.inl rfl)
  obtain ⟨hwfF, hsongsF, hsnF, hcnsF, ⟨fit', hfit', htypeF⟩, hflatF⟩ :=
    finishItem_wf cfg gb signal cd parent
      (addChildT s parent
        (itemRecordFromSong cfg gb separate parent (getItem s parent) t clevel)
        (fun _ it => it)).2
      (addChildT s parent
        (itemRecordFromSong cfg gb separate parent (getItem s parent) t clevel)
        (fun _ it => it)).1
      (if signal = true then evs ++ [Ev.beginInsertRows parent
        (getItem s parent).children.length (getItem s parent).children.length] else evs)
      hwf2
      (itemRecordFromSong cfg gb separate parent (getItem s parent) t clevel)
      hnode2 (by rw [hid2]; omega)
  have hxl : (if (itemRecordFromSong cfg gb separate parent (getItem s parent) t
        clevel).type = ItemType.song then
      [(itemRecordFromSong cfg gb separate parent (getItem s parent) t clevel).metadata.id]
      else []) = (if gb = GroupBy.none then [t.id] else []) := by
    by_cases hgbn : gb = GroupBy.none
    · subst hgbn
      rfl
    · rw [if_neg hgbn, if_neg (fun hh => by
        rw [itemRecordFromSong_type, if_neg hgbn] at hh
        exact ItemType.noConfusion hh)]
  rw [hxl] at hflat2
  refine ⟨hwfF, hsongsF.trans hsongs2, hsnF.trans hsn2, hcnsF.trans hcns2,
    ⟨fit', hfit', ?_⟩, hflatF.trans hflat2⟩
  rw [htypeF, itemRecordFromSong_type]

theorem flatIds_set_cns (s : MState) (E : Fin 3 → List (String × Nat)) :
    ∀ k n, flatIds { s with cns := E } k n = flatIds s k n :=
  flatIds_congr_nodes s { s with cns := E } rfl

/-- The grouping-level walk preserves well-formedness, the records, the
song-node table and the traversal, and keeps the walk position on an
attached container-or-root node. -/
theorem addLevels_wf (cfg : Config) (t : Song) :
    ∀ (levels : List (Fin 3)) (key : String) (container : Nat) (s : MState) (evs : List Ev),
      WF s → (∃ cit, s.nodes container = some cit ∧
        (cit.type = ItemType.container ∨ cit.type = ItemType.root)) →
      WF (addLevels cfg t levels key container s evs).1.1 ∧
      (addLevels cfg t levels key container s evs).1.1.songs = s.songs ∧
      (addLevels cfg t levels key container s evs).1.1.song_nodes = s.song_nodes ∧
      (∃ cit, (addLevels cfg t levels key container s evs).1.1.nodes
          (addLevels cfg t levels key container s evs).2 = some cit ∧
        (cit.type = ItemType.container ∨ cit.type = ItemType.root)) ∧
      (flatIds (addLevels cfg t levels key container s evs).1.1
        (addLevels cfg t levels key container s evs).1.1.next 0).Perm
        (flatIds s s.next 0) := by
  intro levels
  induction levels with
  | nil =>
    intro key container s evs wf hcont
    exact ⟨wf, rfl, rfl, hcont, List.Perm.refl _⟩
  | cons i rest ih =>
    intro key container s evs wf hcont
    obtain ⟨cit0, hcit0, hct0⟩ := hcont
    simp only [addLevels]
    by_cases hnone : cfg.group_by i = GroupBy.none
    · rw [if_pos hnone]
      exact ⟨wf, rfl, rfl, ⟨cit0, hcit0, hct0⟩, List.Perm.refl _⟩
    · rw [if_neg hnone]
      by_cases hva : (IsArtistGroupBy (cfg.group_by i) && t.compilation) = true
      · rw [if_pos hva]
        rcases hcomp : (getItem s container).compilation_artist_node with _ | va
        · dsimp only
          obtain ⟨hwfC, hnextC, hsongsC, hsnC, hcnsC, hdnC, ⟨vit, hvit, hvt⟩, hflatC⟩ :=
            ccan_wf true container s evs wf cit0 hcit0 hct0
          obtain ⟨ihwf, ihsongs, ihsn, ihnode, ihflat⟩ :=
            ih (getItem (CreateCompilationArtistNode true container s evs).1
                (CreateCompilationArtistNode true container s evs).2.2).key
              (CreateCompilationArtistNode true container s evs).2.2
              (CreateCompilationArtistNode true container s evs).1
              (CreateCompilationArtistNode true container s evs).2.1
              hwfC ⟨vit, hvit, Or.inl hvt⟩
          exact ⟨ihwf, ihsongs.trans hsongsC, ihsn.trans hsnC, ihnode,
            ihflat.trans hflatC⟩
        · dsimp only
          have hcomp2 : cit0.compilation_artist_node = some va := by
            rw [← getItem_eq s container cit0 hcit0]
            exact hcomp
          obtain ⟨vit, hvit, hvt⟩ := wf.comp_link container cit0 hcit0 va hcomp2
          exact ih (getItem s va).key va s evs wf ⟨vit, hvit, Or.inl hvt⟩
      · rw [if_neg hva]
        rcases hlk : alLookup (s.cns i) ((if key ≠ "" then key ++ "-" else key) ++
            ContainerKey (cfg.group_by i) cfg.separate_albums_by_grouping t) with _ | c
        · dsimp only
          obtain ⟨hwfI, hsongsI, hsnI, hcnsI, ⟨cit, hcit, hctI⟩, hflatI⟩ :=
            itemFromSong_wf cfg (cfg.group_by i) cfg.separate_albums_by_grouping true
              (decide (i = (0 : Fin 3))) container t (i.val : Int) s evs wf cit0 hcit0 hct0
          rw [if_neg hnone] at hctI
          rw [if_neg hnone, List.append_nil] at hflatI
          have hwfS2 := wf_cns_insert
            (ItemFromSong cfg (cfg.group_by i) cfg.separate_albums_by_grouping true
              (decide (i = (0 : Fin 3))) container t (i.val : Int) s evs).1.1 i
            ((if key ≠ "" then key ++ "-" else key) ++
              ContainerKey (cfg.group_by i) cfg.separate_albums_by_grouping t)
            (ItemFromSong cfg (cfg.group_by i) cfg.separate_albums_by_grouping true
              (decide (i = (0 : Fin 3))) container t (i.val : Int) s evs).2
            cit hwfI hcit hctI
          obtain ⟨ihwf, ihsongs, ihsn, ihnode, ihflat⟩ :=
            ih ((if key ≠ "" then key ++ "-" else key) ++
                ContainerKey (cfg.group_by i) cfg.separate_albums_by_grouping t)
              (ItemFromSong cfg (cfg.group_by i) cfg.separate_albums_by_grouping true
                (decide (i = (0 : Fin 3))) container t (i.val : Int) s evs).2
              { (ItemFromSong cfg (cfg.group_by i) cfg.separate_albums_by_grouping true
                  (decide (i = (0 : Fin 3))) container t (i.val : Int) s evs).1.1 with
                cns := fun j => if j = i then
                  alInsert ((ItemFromSong cfg (cfg.group_by i)
                    cfg.separate_albums_by_grouping true (decide (i = (0 : Fin 3)))
                    container t (i.val : Int) s evs).1.1.cns i)
                    ((if key ≠ "" then key ++ "-" else key) ++
                      ContainerKey (cfg.group_by i) cfg.separate_albums_by_grouping t)
                    (ItemFromSong cfg (cfg.group_by i) cfg.separate_albums_by_grouping true
                      (decide (i = (0 : Fin 3))) container t (i.val : Int) s evs).2
                  else (ItemFromSong cfg (cfg.group_by i) cfg.separate_albums_by_grouping
                    true (decide (i = (0 : Fin 3))) container t (i.val : Int) s evs).1.1.cns j }
              (ItemFromSong cfg (cfg.group_by i) cfg.separate_albums_by_grouping true
                (decide (i = (0 : Fin 3))) container t (i.val : Int) s evs).1.2
              hwfS2 ⟨cit, hcit, Or.inl hctI⟩
          refine ⟨ihwf, ihsongs.trans hsongsI, ihsn.trans hsnI, ihnode, ihflat.trans ?_⟩
          rw [flatIds_set_cns]
          exact hflatI
        · dsimp only
          obtain ⟨cit, hcit, hct⟩ := wf.cns_link i _ c hlk
          exact ih ((if key ≠ "" then key ++ "-" else key) ++
              ContainerKey (cfg.group_by i) cfg.separate_albums_by_grouping t) c s evs wf
            ⟨cit, hcit, Or.inl hct⟩

theorem flatIds_set_sn (s : MState) (E : Int → Option Nat) :
    ∀ k n, flatIds { s with song_nodes := E } k n = flatIds s k n :=
  flatIds_congr_nodes s { s with song_nodes := E } rfl

theorem wf_writeSong (s : MState) (t : Song) (wf : WF s) : WF (writeSong s t) :=
  ⟨wf.root_zero, wf.fresh, wf.lt_next, wf.child_gt, wf.child_attached, wf.child_nodup,
    wf.parent_mem, wf.root_only, wf.childless, wf.comp_link, wf.cns_link⟩

/-- One AddSongs iteration preserves well-formedness and the one-leaf-per-
registered-id counting invariant, and registers exactly the matching new
song. -/
theorem addOneSong_wf (cfg : Config) (s : MState) (evs : List Ev) (t : Song)
    (wf : WF s)
    (wcnt : ∀ i, (flatIds s s.next 0).count i =
      (if (s.song_nodes i).isSome = true then 1 else 0)) :
    WF (addOneSong cfg (s, evs) t).1 ∧
    (∀ i, (flatIds (addOneSong cfg (s, evs) t).1
        (addOneSong cfg (s, evs) t).1.next 0).count i =
      (if ((addOneSong cfg (s, evs) t).1.song_nodes i).isSome = true then 1 else 0)) ∧
    (∀ i, ((addOneSong cfg (s, evs) t).1.song_nodes i).isSome = true ↔
      ((s.song_nodes i).isSome = true ∨ (cfg.filter t = true ∧ i = t.id))) := by
  have hws := flatIds_congr_nodes s (writeSong s t) rfl
  simp only [addOneSong]
  by_cases hfil : (!cfg.filter t) = true
  · rw [if_pos hfil]
    have hfil2 : cfg.filter t = false := by
      rcases hb : cfg.filter t with _ | _
      · rfl
      · rw [hb] at hfil
        exact absurd hfil (by decide)
    refine ⟨wf_writeSong s t wf, fun i => ?_, fun i => ?_⟩
    · rw [hws]
      exact wcnt i
    · constructor
      · exact fun h => Or.inl h
      · rintro (h | ⟨hft, _⟩)
        · exact h
        · rw [hfil2] at hft
          exact Bool.noConfusion hft
  · rw [if_neg hfil]
    by_cases hpres : ((writeSong s t).song_nodes t.id).isSome = true
    · rw [if_pos hpres]
      refine ⟨wf_writeSong s t wf, fun i => ?_, fun i => ?_⟩
      · rw [hws]
        exact wcnt i
      · constructor
        · exact fun h => Or.inl h
        · rintro (h | ⟨_, hit⟩)
          · exact h
          · rw [hit]
            exact hpres
    · rw [if_neg hpres]
      have hpres2 : (s.song_nodes t.id).isSome = false := by
        rcases hb : (s.song_nodes t.id).isSome with _ | _
        · rfl
        · exact absurd hb hpres
      obtain ⟨rit, hrit, hrt⟩ := wf.root_zero
      obtain ⟨hwfA, hsongsA, hsnA, ⟨pitA, hpitA, hptA⟩, hflatA⟩ :=
        addLevels_wf cfg t [0, 1, 2] "" 0 (writeSong s t) evs (wf_writeSong s t wf)
          ⟨rit, hrit, Or.inr hrt⟩
      obtain ⟨hwfL, hsongsL, hsnL, hcnsL, ⟨lit, hlit, hltL⟩, hflatL⟩ :=
        itemFromSong_wf cfg GroupBy.none cfg.separate_albums_by_grouping true false
          (addLevels cfg t [0, 1, 2] "" 0 (writeSong s t) evs).2 t (-1)
          (addLevels cfg t [0, 1, 2] "" 0 (writeSong s t) evs).1.1
          (addLevels cfg t [0, 1, 2] "" 0 (writeSong s t) evs).1.2
          hwfA pitA hpitA hptA
      have hmid : (flatIds (addLevels cfg t [0, 1, 2] "" 0 (writeSong s t) evs).1.1
          (addLevels cfg t [0, 1, 2] "" 0 (writeSong s t) evs).1.1.next 0).Perm
          (flatIds s s.next 0) := by
        refine hflatA.trans ?_
        rw [hws]
        exact List.Perm.refl _
      have hfin : (flatIds (registerLeaf t (ItemFromSong cfg GroupBy.none
          cfg.separate_albums_by_grouping true false
          (addLevels cfg t [0, 1, 2] "" 0 (writeSong s t) evs).2 t (-1)
          (addLevels cfg t [0, 1, 2] "" 0 (writeSong s t) evs).1.1
          (addLevels cfg t [0, 1, 2] "" 0 (writeSong s t) evs).1.2)).1
          (registerLeaf t (ItemFromSong cfg GroupBy.none
          cfg.separate_albums_by_grouping true false
          (addLevels cfg t [0, 1, 2] "" 0 (writeSong s t) evs).2 t (-1)
          (addLevels cfg t [0, 1, 2] "" 0 (writeSong s t) evs).1.1
          (addLevels cfg t [0, 1, 2] "" 0 (writeSong s t) evs).1.2)).1.next 0).Perm
          (flatIds s s.next 0 ++ [t.id]) := by
        rw [registerLeaf]
        rw [flatIds_set_sn]
        exact hflatL.trans (hmid.append_right [t.id])
      have hsnfin : ∀ i, (registerLeaf t (ItemFromSong cfg GroupBy.none
          cfg.separate_albums_by_grouping true false
          (addLevels cfg t [0, 1, 2] "" 0 (writeSong s t) evs).2 t (-1)
          (addLevels cfg t [0, 1, 2] "" 0 (writeSong s t) evs).1.1
          (addLevels cfg t [0, 1, 2] "" 0 (writeSong s t) evs).1.2)).1.song_nodes i =
          (if i = t.id then some (ItemFromSong cfg GroupBy.none
            cfg.separate_albums_by_grouping true false
            (addLevels cfg t [0, 1, 2] "" 0 (writeSong s t) evs).2 t (-1)
            (addLevels cfg t [0, 1, 2] "" 0 (writeSong s t) evs).1.1
            (addLevels cfg t [0, 1, 2] "" 0 (writeSong s t) evs).1.2).2
          else s.song_nodes i) := by
        intro i
        by_cases hit : i = t.id
        · rw [if_pos hit]
          show (if i = t.id then _ else _) = _
          rw [if_pos hit]
        · rw [if_neg hit]
          show (if i = t.id then _ else _) = _
          rw [if_neg hit, hsnL, hsnA]
          rfl
      refine ⟨wf_of_fields _ _ hwfL rfl rfl rfl, fun i => ?_, fun i => ?_⟩
      · rw [List.Perm.count_eq hfin, List.count_append, hsnfin i]
        by_cases hit : i = t.id
        · rw [if_pos hit]
          have hz : (flatIds s s.next 0).count i = 0 := by
            rw [wcnt i, hit, hpres2]
            rfl
          rw [hz, hit]
          simp
        · rw [if_neg hit, wcnt i]
          have h1 : List.count i [t.id] = 0 := by
            simp [hit]
          rw [h1]
          omega
      · rw [hsnfin i]
        by_cases hit : i = t.id
        · rw [if_pos hit]
          have hft : cfg.filter t = true := by
            rcases hb : cfg.filter t with _ | _
            · rw [hb] at hfil
              exact absurd rfl hfil
            · rfl
          constructor
          · exact fun _ => Or.inr ⟨hft, hit⟩
          · exact fun _ => rfl
        · rw [if_neg hit]
          constructor
          · exact fun h => Or.inl h
          · rintro (h | ⟨_, hit2⟩)
            · exact h
            · exact absurd hit2 hit

/-- The AddSongs fold from any well-formed counted state: the result is
well formed, still counted, and its song-node table registers exactly the
old ids plus the matching ids of the batch. -/
theorem addFold_wf (cfg : Config) (S : List Song) :
    ∀ (s : MState) (evs : List Ev), WF s →
      (∀ i, (flatIds s s.next 0).count i =
        (if (s.song_nodes i).isSome = true then 1 else 0)) →
      WF (S.foldl (addOneSong cfg) (s, evs)).1 ∧
      (∀ i, (flatIds (S.foldl (addOneSong cfg) (s, evs)).1
          (S.foldl (addOneSong cfg) (s, evs)).1.next 0).count i =
        (if ((S.foldl (addOneSong cfg) (s, evs)).1.song_nodes i).isSome = true then 1
          else 0)) ∧
      (∀ i, (((S.foldl (addOneSong cfg) (s, evs)).1.song_nodes i).isSome = true ↔
        ((s.song_nodes i).isSome = true ∨ ∃ u ∈ S, cfg.filter u = true ∧ i = u.id))) := by
  induction S with
  | nil =>
    intro s evs wf wcnt
    refine ⟨wf, wcnt, fun i => ⟨fun h => Or.inl h, ?_⟩⟩
    rintro (h | ⟨u, hu, _, _⟩)
    · exact h
    · exact absurd hu (List.not_mem_nil u)
  | cons t ts ih =>
    intro s evs wf wcnt
    rw [List.foldl_cons]
    obtain ⟨hwf1, hcnt1, hiff1⟩ := addOneSong_wf cfg s evs t wf wcnt
    have heta : addOneSong cfg (s, evs) t =
        ((addOneSong cfg (s, evs) t).1, (addOneSong cfg (s, evs) t).2) := rfl
    rw [heta]
    obtain ⟨hwf2, hcnt2, hiff2⟩ := ih (addOneSong cfg (s, evs) t).1
      (addOneSong cfg (s, evs) t).2 hwf1 hcnt1
    refine ⟨hwf2, hcnt2, fun i => ?_⟩
    constructor
    · intro h
      rcases (hiff2 i).mp h with h | ⟨u, hu, hfu, hiu⟩
      · rcases (hiff1 i).mp h with h | ⟨hft, hit⟩
        · exact Or.inl h
        · exact Or.inr ⟨t, List.mem_cons_self t ts, hft, hit⟩
      · exact Or.inr ⟨u, List.mem_cons_of_mem t hu, hfu, hiu⟩
    · intro h
      apply (hiff2 i).mpr
      rcases h with h | ⟨u, hu, hfu, hiu⟩
      · exact Or.inl ((hiff1 i).mpr (Or.inl h))
      · rcases List.mem_cons.mp hu with hu | hu
        · refine Or.inl ((hiff1 i).mpr (Or.inr ⟨?_, ?_⟩))
          · rw [← hu]
            exact hfu
          · rw [hiu, hu]
        · exact Or.inr ⟨u, hu, hfu, hiu⟩

/-- The reset state is well formed. -/
theorem wf_init : WF initMState := by
  have hn : ∀ n, initMState.nodes n = (if n = 0 then some rootItem else Option.none) :=
    fun n => rfl
  refine ⟨⟨rootItem, rfl, rfl⟩, ?_, ?_, ?_, ?_, ?_, ?_, ?_, ?_, ?_, ?_⟩
  · intro n h
    have h1 : 1 ≤ n := h
    rw [hn n, if_neg (by omega)]
  · intro n it hit
    rw [hn n] at hit
    by_cases h0 : n = 0
    · show n < 1
      omega
    · rw [if_neg h0] at hit
      exact Option.noConfusion hit
  · intro n it hit c hc
    rw [hn n] at hit
    by_cases h0 : n = 0
    · rw [if_pos h0] at hit
      rw [← Option.some.inj hit] at hc
      exact absurd hc (List.not_mem_nil c)
    · rw [if_neg h0] at hit
      exact Option.noConfusion hit
  · intro n it hit c hc
    rw [hn n] at hit
    by_cases h0 : n = 0
    · rw [if_pos h0] at hit
      rw [← Option.some.inj hit] at hc
      exact absurd hc (List.not_mem_nil c)
    · rw [if_neg h0] at hit
      exact Option.noConfusion hit
  · intro n it hit
    rw [hn n] at hit
    by_cases h0 : n = 0
    · rw [if_pos h0] at hit
      rw [← Option.some.inj hit]
      exact List.nodup_nil
    · rw [if_neg h0] at hit
      exact Option.noConfusion hit
  · intro n it hit hn0
    rw [hn n, if_neg hn0] at hit
    exact Option.noConfusion hit
  · intro n it hit htype
    rw [hn n] at hit
    by_cases h0 : n = 0
    · exact h0
    · rw [if_neg h0] at hit
      exact Option.noConfusion hit
  · intro n it hit ht1 ht2
    rw [hn n] at hit
    by_cases h0 : n = 0
    · rw [if_pos h0] at hit
      rw [← Option.some.inj hit] at ht2
      exact absurd rfl ht2
    · rw [if_neg h0] at hit
      exact Option.noConfusion hit
  · intro n it hit v hv
    rw [hn n] at hit
    by_cases h0 : n = 0
    · rw [if_pos h0] at hit
      rw [← Option.some.inj hit] at hv
      exact Option.noConfusion hv
    · rw [if_neg h0] at hit
      exact Option.noConfusion hit
  · intro i k c hkc
    exact Option.noConfusion hkc

/-- The reset state is counted: no leaves, no registered ids. -/
theorem cnt_init :
    ∀ i, (flatIds initMState initMState.next 0).count i =
      (if (initMState.song_nodes i).isSome = true then 1 else 0) :=
  fun i => rfl

/-- The flatten traversal against the analysis traversal: starting below
the root on a duplicate-free unseen subtree, GetChildSongs appends exactly
one record per leaf, with the ids a permutation of the leaf-id traversal. -/
theorem gcs_shape (s : MState) (wf : WF s) :
    ∀ fuel nid acc nit, s.nodes nid = some nit → nit.type ≠ ItemType.root →
      s.next ≤ nid + fuel → (acc.song_ids ++ flatIds s fuel nid).Nodup →
      ∃ (D : List Song) (u : List String),
        GetChildSongs s fuel nid acc = { urls := acc.urls ++ u
                                         songs := acc.songs ++ D
                                         song_ids := acc.song_ids ++ D.map Song.id } ∧
        (D.map Song.id).Perm (flatIds s fuel nid) := by
  intro fuel
  induction fuel with
  | zero =>
    intro nid acc nit hnit _ hfuel _
    exact absurd (wf.lt_next nid nit hnit) (by omega)
  | succ fuel ih =>
    have L : ∀ (cs : List Nat) (acc : GCAcc),
        (∀ c ∈ cs, ∃ cit, s.nodes c = some cit ∧ cit.type ≠ ItemType.root ∧
          s.next ≤ c + fuel) →
        (acc.song_ids ++ (cs.map (flatIds s fuel)).flatten).Nodup →
        ∃ (D : List Song) (u : List String),
          cs.foldl (fun a c => GetChildSongs s fuel c a) acc =
            { urls := acc.urls ++ u
              songs := acc.songs ++ D
              song_ids := acc.song_ids ++ D.map Song.id } ∧
          (D.map Song.id).Perm ((cs.map (flatIds s fuel)).flatten) := by
      intro cs
      induction cs with
      | nil =>
        intro acc _ _
        exact ⟨[], [], by simp, by simp⟩
      | cons c rest ihc =>
        intro acc hprops hnd
        obtain ⟨cit, hcit, hcroot, hcfuel⟩ := hprops c (List.mem_cons_self c rest)
        rw [List.foldl_cons]
        rw [List.map_cons, List.flatten_cons, ← List.append_assoc] at hnd
        have hnd1 : (acc.song_ids ++ flatIds s fuel c).Nodup :=
          List.Nodup.of_append_left hnd
        obtain ⟨D1, u1, hacc1, hperm1⟩ := ih c acc cit hcit hcroot hcfuel hnd1
        rw [hacc1]
        have hndp : ((acc.song_ids ++ D1.map Song.id) ++
            (rest.map (flatIds s fuel)).flatten).Nodup := by
          refine (List.Perm.nodup_iff ?_).mpr hnd
          exact ((hperm1.append_left acc.song_ids).append_right _)
        obtain ⟨D2, u2, hacc2, hperm2⟩ := ihc
          { urls := acc.urls ++ u1
            songs := acc.songs ++ D1
            song_ids := acc.song_ids ++ D1.map Song.id }
          (fun d hd => hprops d (List.mem_cons_of_mem c hd)) hndp
        refine ⟨D1 ++ D2, u1 ++ u2, ?_, ?_⟩
        · rw [hacc2]
          simp [List.append_assoc]
        · rw [List.map_cons, List.flatten_cons, List.map_append]
          exact hperm1.append hperm2
    intro nid acc nit hnit hroot hfuel hnd
    have hgi := getItem_eq s nid nit hnit
    cases htype : nit.type with
    | root => exact absurd htype hroot
    | container =>
      have hflat : flatIds s (fuel + 1) nid = (nit.children.map (flatIds s fuel)).flatten := by
        simp only [flatIds]
        rw [hgi, htype]
      have hunf : GetChildSongs s (fuel + 1) nid acc =
          (sortChildren s nit.children).foldl (fun a c => GetChildSongs s fuel c a) acc := by
        simp only [GetChildSongs]
        rw [hgi, htype]
      have hsp := sortChildren_perm s nit.children
      have hfl : ((sortChildren s nit.children).map (flatIds s fuel)).flatten.Perm
          ((nit.children.map (flatIds s fuel)).flatten) :=
        (hsp.map (flatIds s fuel)).flatten
      obtain ⟨D, u, hacc, hperm⟩ := L (sortChildren s nit.children) acc
        (fun c hc => by
          have hcm : c ∈ nit.children := hsp.mem_iff.mp hc
          obtain ⟨cit, hcit, _⟩ := wf.child_attached nid nit hnit c hcm
          have hgt := wf.child_gt nid nit hnit c hcm
          refine ⟨cit, hcit, ?_, by omega⟩
          intro hr
          have := wf.root_only c cit hcit hr
          omega)
        (by
          refine (List.Perm.nodup_iff (hfl.append_left acc.song_ids)).mpr ?_
          rw [← hflat]
          exact hnd)
      rw [hunf]
      refine ⟨D, u, hacc, hperm.trans ?_⟩
      rw [hflat]
      exact hfl
    | song =>
      have hflat : flatIds s (fuel + 1) nid = [nit.metadata.id] := by
        simp only [flatIds]
        rw [hgi, htype]
      rw [hflat] at hnd
      have hnotmem : ¬ nit.metadata.id ∈ acc.song_ids := by
        intro hmem
        rw [List.nodup_append] at hnd
        exact hnd.2.2 hmem (List.mem_singleton.mpr rfl)
      have hcont : acc.song_ids.contains nit.metadata.id = false := by
        rcases hb : acc.song_ids.contains nit.metadata.id with _ | _
        · rfl
        · exact absurd (List.elem_iff.mp hb) hnotmem
      have hunf : GetChildSongs s (fuel + 1) nid acc =
          { urls := acc.urls ++ [nit.metadata.url]
            songs := acc.songs ++ [nit.metadata]
            song_ids := acc.song_ids ++ [nit.metadata.id] } := by
        simp only [GetChildSongs]
        rw [hgi, htype]
        dsimp only
        rw [hcont]
        rfl
      exact ⟨[nit.metadata], [nit.metadata.url], hunf, by rw [hflat]; exact List.Perm.refl _⟩
    | divider =>
      have hflat : flatIds s (fuel + 1) nid = [] := by
        simp only [flatIds]
        rw [hgi, htype]
      have hunf : GetChildSongs s (fuel + 1) nid acc = acc := by
        simp only [GetChildSongs]
        rw [hgi, htype]
      rw [hunf, hflat]
      exact ⟨[], [], by simp, by simp⟩
    | loadingIndicator =>
      have hflat : flatIds s (fuel + 1) nid = [] := by
        simp only [flatIds]
        rw [hgi, htype]
      have hunf : GetChildSongs s (fuel + 1) nid acc = acc := by
        simp only [GetChildSongs]
        rw [hgi, htype]
      rw [hunf, hflat]
      exact ⟨[], [], by simp, by simp⟩

/-- The list form of the flatten traversal: one shared accumulator folded
over a family of duplicate-free unseen subtrees. -/
theorem gcsList_shape (s : MState) (wf : WF s) (fuel : Nat) :
    ∀ (cs : List Nat) (acc : GCAcc),
      (∀ c ∈ cs, ∃ cit, s.nodes c = some cit ∧ cit.type ≠ ItemType.root ∧
        s.next ≤ c + fuel) →
      (acc.song_ids ++ (cs.map (flatIds s fuel)).flatten).Nodup →
      ∃ (D : List Song) (u : List String),
        cs.foldl (fun a c => GetChildSongs s fuel c a) acc =
          { urls := acc.urls ++ u
            songs := acc.songs ++ D
            song_ids := acc.song_ids ++ D.map Song.id } ∧
        (D.map Song.id).Perm ((cs.map (flatIds s fuel)).flatten) := by
  intro cs
  induction cs with
  | nil =>
    intro acc _ _
    exact ⟨[], [], by simp, by simp⟩
  | cons c rest ihc =>
    intro acc hprops hnd
    obtain ⟨cit, hcit, hcroot, hcfuel⟩ := hprops c (List.mem_cons_self c rest)
    rw [List.foldl_cons]
    rw [List.map_cons, List.flatten_cons, ← List.append_assoc] at hnd
    have hnd1 : (acc.song_ids ++ flatIds s fuel c).Nodup :=
      List.Nodup.of_append_left hnd
    obtain ⟨D1, u1, hacc1, hperm1⟩ := gcs_shape s wf fuel c acc cit hcit hcroot hcfuel hnd1
    rw [hacc1]
    have hndp : ((acc.song_ids ++ D1.map Song.id) ++
        (rest.map (flatIds s fuel)).flatten).Nodup := by
      refine (List.Perm.nodup_iff ?_).mpr hnd
      exact ((hperm1.append_left acc.song_ids).append_right _)
    obtain ⟨D2, u2, hacc2, hperm2⟩ := ihc
      { urls := acc.urls ++ u1
        songs := acc.songs ++ D1
        song_ids := acc.song_ids ++ D1.map Song.id }
      (fun d hd => hprops d (List.mem_cons_of_mem c hd)) hndp
    refine ⟨D1 ++ D2, u1 ++ u2, ?_, ?_⟩
    · rw [hacc2]
      simp [List.append_assoc]
    · rw [List.map_cons, List.flatten_cons, List.map_append]
      exact hperm1.append hperm2

/-- C1 (amended): flattening over the root's children of the tree built by
the Add path from the reset state yields, as a multiset of song ids, each
filter-matching id of the batch exactly once, for every grouping
configuration and batch. -/
theorem c1_flatten_matches_filter (cfg : Config) (S : List Song) :
    ((flattenRootSongs (AddSongs cfg initMState S).1).map Song.id).Perm
      (((S.filter cfg.filter).map Song.id).dedup) := by
  obtain ⟨hwf, hcnt, hiff⟩ := addFold_wf cfg S initMState [] wf_init cnt_init
  have hwf' : WF (AddSongs cfg initMState S).1 := hwf
  have hcnt' : ∀ i, (flatIds (AddSongs cfg initMState S).1
      (AddSongs cfg initMState S).1.next 0).count i =
      (if ((AddSongs cfg initMState S).1.song_nodes i).isSome = true then 1 else 0) := hcnt
  have hiff' : ∀ i, (((AddSongs cfg initMState S).1.song_nodes i).isSome = true ↔
      i ∈ (S.filter cfg.filter).map Song.id) := by
    intro i
    refine (hiff i).trans ?_
    constructor
    · rintro (h | ⟨x, hx, hfx, hix⟩)
      · exact Bool.noConfusion h
      · exact List.mem_map.mpr ⟨x, List.mem_filter.mpr ⟨hx, hfx⟩, hix.symm⟩
    · intro h
      obtain ⟨x, hx, hxi⟩ := List.mem_map.mp h
      obtain ⟨hxS, hfx⟩ := List.mem_filter.mp hx
      exact Or.inr ⟨x, hxS, hfx, hxi.symm⟩
  obtain ⟨rit, hrit, hrt⟩ := hwf'.root_zero
  have h0n : 0 < (AddSongs cfg initMState S).1.next := hwf'.lt_next 0 rit hrit
  obtain ⟨m, hm⟩ : ∃ m, (AddSongs cfg initMState S).1.next = m + 1 :=
    ⟨(AddSongs cfg initMState S).1.next - 1, by omega⟩
  have hrootflat : flatIds (AddSongs cfg initMState S).1
      (AddSongs cfg initMState S).1.next 0 =
      (rit.children.map (flatIds (AddSongs cfg initMState S).1 m)).flatten := by
    rw [hm]
    simp only [flatIds]
    rw [getItem_eq _ 0 rit hrit, hrt]
  have hstab : ∀ c ∈ rit.children,
      flatIds (AddSongs cfg initMState S).1 (AddSongs cfg initMState S).1.next c =
      flatIds (AddSongs cfg initMState S).1 m c := by
    intro c hc
    obtain ⟨cit, hcit, _⟩ := hwf'.child_attached 0 rit hrit c hc
    have hgt := hwf'.child_gt 0 rit hrit c hc
    have hlt := hwf'.lt_next c cit hcit
    exact flatIds_stable _ hwf' _ m c cit hcit (by omega) (by omega)
  have hflU : (rit.children.map (flatIds (AddSongs cfg initMState S).1
      (AddSongs cfg initMState S).1.next)).flatten =
      flatIds (AddSongs cfg initMState S).1 (AddSongs cfg initMState S).1.next 0 := by
    rw [hrootflat]
    exact congrArg List.flatten (List.map_congr_left hstab)
  have hnodup : (flatIds (AddSongs cfg initMState S).1
      (AddSongs cfg initMState S).1.next 0).Nodup := by
    rw [List.nodup_iff_count_le_one]
    intro a
    rw [hcnt' a]
    split <;> omega
  obtain ⟨D, u, hacc, hperm⟩ := gcsList_shape (AddSongs cfg initMState S).1 hwf'
    (AddSongs cfg initMState S).1.next rit.children {}
    (fun c hc => by
      obtain ⟨cit, hcit, _⟩ := hwf'.child_attached 0 rit hrit c hc
      have hgt := hwf'.child_gt 0 rit hrit c hc
      refine ⟨cit, hcit, ?_, by omega⟩
      intro hr
      have := hwf'.root_only c cit hcit hr
      omega)
    (by
      show (([] : List Int) ++ _).Nodup
      rw [List.nil_append, hflU]
      exact hnodup)
  have hfrs : flattenRootSongs (AddSongs cfg initMState S).1 = D := by
    show (GetChildSongsList (AddSongs cfg initMState S).1
      (AddSongs cfg initMState S).1.next
      (rootChildren (AddSongs cfg initMState S).1)).songs = D
    have hrc : rootChildren (AddSongs cfg initMState S).1 = rit.children := by
      rw [rootChildren, getItem_eq _ 0 rit hrit]
    rw [GetChildSongsList, hrc, hacc]
    show ([] : List Song) ++ D = D
    exact List.nil_append D
  rw [hfrs]
  refine List.perm_iff_count.mpr (fun a => ?_)
  rw [List.count_dedup, hperm.count_eq, hflU, hcnt' a]
  by_cases hmem : a ∈ (S.filter cfg.filter).map Song.id
  · rw [if_pos hmem, if_pos ((hiff' a).mpr hmem)]
  · rw [if_neg (fun hh => hmem ((hiff' a).mp hh)), if_neg hmem]

/-- C1 counterexample: with one filter-matching song in the tree, running
GetChildSongs on the root itself collects nothing (Type_Root falls into
the traversal's default case), while the flatten over the root's children
does yield the song — so flattening the root cannot equal the matching
multiset. -/
theorem c1_flatten_root_counterexample :
    exCfgArtist.filter exSongBach = true ∧
    (GetChildSongs (AddSongs exCfgArtist initMState [exSongBach]).1
      (AddSongs exCfgArtist initMState [exSongBach]).1.next 0 {}).songs = [] ∧
    flattenRootSongs (AddSongs exCfgArtist initMState [exSongBach]).1 = [exSongBach] :=
  ⟨rfl, by decide, by decide⟩

end Strawberry
